import Mathlib

/-! LatexToMarkdown: the document tree and the tree-to-text renderer.

A shallow embedding of `src/ast.h` (the node model) and `src/converter.cpp`
(the renderer), followed by theorems about them.

Modelling conventions.

* A C++ `std::string` is a Lean `String`; one Lean character stands for one
  C++ `char`.
* `ASTNode*` is `Option ASTNode`: `none` is the null pointer.
* The four global `int` counters of `converter.cpp` are the fields of
  `Context`, threaded explicitly through every function.  They are unbounded
  integers: a counter is bounded by the number of nodes of the tree, so 32-bit
  wrap-around is not modelled.
* Undefined behaviour and uncaught exceptions of the C++ code (indexing an
  empty `children` vector, dereferencing a null pointer, a negative string
  length, an integer division by zero, a write past the end of a string) are
  results `Except.error` of kind `Fault`.
* Operands of a chain of `+` on strings are evaluated left to right.
* The characters for which `std::isspace` holds are the six white-space
  characters of the "C" locale.
* Every `for` loop over a `children` vector is a recursive function over the
  list of children.
* The renderer is embedded twice: first with the marker table read through
  `getMapping` and left alone, then as methods of a `converter` object, where
  every lookup goes through `std::map::operator[]`; `sim_traversal` shows that
  the two compute the same.
* For the statements about termination the body of the renderer is written
  once more with its recursive calls made through a parameter (`Body.traversal`);
  `body_traversal_fix` shows that the renderer is its own body applied to
  itself.
-/

namespace LatexToMarkdown

/-- Enumeration `NodeType` of `ast.h`, in declaration order. -/
inductive NodeType where
  | AST_H
  | DOCUMENT_H
  | SECTION_H
  | SUBSECTION_H
  | SUBSUBSECTION_H
  | TEXTBF_H
  | TEXTIT_H
  | UNDERLINE_H
  | STRING_H
  | ENUMERATE_H
  | ITEMIZE_H
  | ITEM_H
  | PAR_H
  | TABULAR_H
  | ROW_H
  | CELL_H
  | FIGURE_H
  | CAPTION_H
  | INCLUDE_GRAPHICS_H
  | LABEL_H
  | REF_H
  | HLINE_H
  | SQRT_H
  | TITLE_H
  | DATE_H
  | VERBATIM_H
  | HRULE_H
  | HREF_H
  | TEXT_H
  | CODE_H
  deriving DecidableEq, Repr

open NodeType

/-- Class `ASTNode` of `ast.h`: a type tag, the payload text, the attributes
and the ordered vector of child pointers (a null child is `none`). -/
inductive ASTNode where
  | mk (node_type : NodeType) (data : String) (attributes : String)
      (children : List (Option ASTNode)) : ASTNode

namespace ASTNode

/-- Field `node_type`. -/
def node_type : ASTNode → NodeType
  | mk t _ _ _ => t

/-- Field `data`. -/
def data : ASTNode → String
  | mk _ d _ _ => d

/-- Field `attributes`. -/
def attributes : ASTNode → String
  | mk _ _ a _ => a

/-- Field `children`. -/
def children : ASTNode → List (Option ASTNode)
  | mk _ _ _ cs => cs

/-- Method `ASTNode::addChild`: `children.push_back(child)`. -/
def addChild : ASTNode → Option ASTNode → ASTNode
  | mk t d a cs, child => mk t d a (cs ++ [child])

end ASTNode

/-- Method `ASTManager::newNode(NodeType type)`: `new ASTNode(type)`, with empty data,
empty attributes and no children. -/
def newNode (type : NodeType) : ASTNode :=
  ASTNode.mk type "" "" []

/-- The globals `section_no`, `subsection_no`, `subsubsection_no` and `nested`
of `converter.cpp` (the render context). -/
structure Context where
  section_no : Int
  subsection_no : Int
  subsubsection_no : Int
  nested : Int
  deriving DecidableEq, Repr

/-- The initial values of the globals: all four counters are 0. -/
def Context.fresh : Context :=
  { section_no := 0, subsection_no := 0, subsubsection_no := 0, nested := 0 }

/-- The ways in which the C++ code leaves defined behaviour. -/
inductive Fault where
  /-- Indexing `children[0]` on an empty vector. -/
  | index_out_of_range
  /-- Access `p->member` through a null pointer `p`. -/
  | null_dereference
  /-- Construction `std::string(count, ch)` with a negative `count`. -/
  | length_error
  /-- Division `pos / count` with `count == 0`. -/
  | division_by_zero
  /-- Assignment `separator[k] = ch` with `k` not below the length of `separator`. -/
  | write_past_end
  deriving DecidableEq, Repr

/-- Result of a rendering function: the returned string and the globals after
the call, or a fault. -/
abbrev Rendered := Except Fault (String × Context)

/-- Function `myString`: the decimal text of an `int`. -/
def myString (n : Int) : String :=
  toString n

/-- The table `myMapping` as filled by the constructor `converter::converter`,
in the order of its assignments. -/
def myMapping : List (NodeType × String) :=
  [ (SECTION_H, "##"),
    (SUBSECTION_H, "###"),
    (SUBSUBSECTION_H, "####"),
    (ITEMIZE_H, ""),
    (ENUMERATE_H, ""),
    (ITEM_H, "- "),
    (TEXTBF_H, "**"),
    (TEXTIT_H, "*"),
    (UNDERLINE_H, "<u>"),
    (PAR_H, ""),
    (LABEL_H, ""),
    (REF_H, ""),
    (TABULAR_H, ""),
    (FIGURE_H, "![]"),
    (INCLUDE_GRAPHICS_H, "![]"),
    (CAPTION_H, ""),
    (STRING_H, ""),
    (DATE_H, "Date: "),
    (TITLE_H, "#"),
    (VERBATIM_H, "```"),
    (HRULE_H, "---"),
    (HREF_H, "") ]

/-- Method `converter::getMapping`: `myMapping[type]`.  For a key that is absent
`std::map::operator[]` inserts and returns the empty string, which leaves the
value returned by every later lookup as it was; the table is therefore read
here without being threaded through the renderer. -/
def getMapping (type : NodeType) : String :=
  ((myMapping.lookup type).getD "")

/-! ## Text helpers -/

/-- Function `std::isspace` in the "C" locale: space, `\t`, `\n`, `\v`, `\f`, `\r`. -/
def isspace (ch : Char) : Bool :=
  ch = ' ' || ch = '\t' || ch = '\n' || ch = Char.ofNat 11 || ch = Char.ofNat 12 || ch = '\r'

/-- The lines that successive calls `std::getline(ss, line)` read from a stream
holding `stream`, where `line` holds the characters of the current line read so
far.  A line ends at a newline (which is consumed) or at the end of the
stream; the call that finds the stream exhausted without reading a character
fails and ends the loop. -/
def getlinesFrom : List Char → List Char → List String
  | [], line => if line = [] then [] else [String.mk line]
  | c :: stream, line =>
    if c = '\n' then String.mk line :: getlinesFrom stream []
    else getlinesFrom stream (line ++ [c])

/-- All lines of `res`, as read by `while (std::getline(ss, line))`. -/
def getlines (res : String) : List String :=
  getlinesFrom res.data []

/-- The `trimmed` copy of a line: leading characters satisfying `isspace` are
erased. -/
def trimmed (line : String) : String :=
  String.mk (line.data.dropWhile isspace)

/-- The test `prevLine.empty() || prevLine.back() != '.'`. -/
def emptyOrNoDot (prevLine : String) : Bool :=
  prevLine.data.isEmpty || prevLine.data.getLast? != some '.'

/-- The body of the `while (std::getline(ss, line))` loop of the list case of
`traversal`, run over the lines still to be read, with the current values of
`ans` and `prevLine`. -/
def filterLoop : List String → String → String → String
  | [], ans, _ => ans
  | line :: rest, ans, prevLine =>
    if trimmed line = "1." ∧ emptyOrNoDot prevLine = true then
      filterLoop rest ans prevLine
    else
      filterLoop rest (ans ++ (line ++ "\n")) line

/-- The post-processing of the text `res` returned by `traverseList`. -/
def filterList (res : String) : String :=
  filterLoop (getlines res) "" ""

/-- The string `s` of `traverseList`: `bullet` with one tab put in front for
every `i` from 1 below `nested`. -/
def listMarker (bullet : String) (nested : Int) : String :=
  String.mk (List.replicate (nested - 1).toNat '\t') ++ bullet

/-- The loop of `traverseHref` over the characters of `data`. -/
def hrefLoop : List Char → Bool → String → String → String × String
  | [], _, link, label => (link, label)
  | x :: rest, flag, link, label =>
    if x = '#' then hrefLoop rest false link label
    else if flag then hrefLoop rest flag (link.push x) label
    else hrefLoop rest flag link (label.push x)

/-- Expression `rowResult.substr(0, rowResult.length() - 3)`; the length is unsigned, so
below 3 the subtraction wraps and the whole string is returned. -/
def dropTrailing3 (rowResult : String) : String :=
  if rowResult.length < 3 then rowResult
  else String.mk (rowResult.data.take (rowResult.length - 3))

/-- The end of a row block of `traverseTable`: a non-empty `rowResult` loses
its last three characters, then a newline is appended. -/
def finishRow (rowResult : String) : String :=
  (if rowResult.data.isEmpty then rowResult else dropTrailing3 rowResult) ++ "\n"

/-- The loop `for (int i = 1; i < count; ++i) separator[i * columnWidth] = '|'`,
started at `i` with `todo` iterations left. -/
def separatorLoop : Nat → Nat → Nat → List Char → Except Fault (List Char)
  | 0, _, _, separator => .ok separator
  | todo + 1, i, columnWidth, separator =>
    if i * columnWidth < separator.length then
      separatorLoop todo (i + 1) columnWidth (separator.set (i * columnWidth) '|')
    else .error .write_past_end

/-- The separator step of `traverseTable` on the row text `result` with the
cell count `count`. -/
def addSeparator (result : String) (count : Int) : Except Fault String :=
  if result.data.isEmpty then .ok result
  else
    match result.data.indexOf? '\n' with
    | none => .ok result
    | some pos =>
      if count = 0 then .error .division_by_zero
      else do
        let columnWidth := pos / count.toNat
        let separator ← separatorLoop (count.toNat - 1) 1 columnWidth (List.replicate pos '-')
        .ok (String.mk (result.data.take (pos + 1) ++ (separator ++ ['\n'])
          ++ result.data.drop (pos + 1)))

/-! ## The renderer -/

/-- Dereferencing a node pointer: a fault for the null pointer. -/
def deref : Option ASTNode → Except Fault ASTNode
  | none => .error .null_dereference
  | some node => .ok node

/-- Method `converter::traverseVerbatim`. -/
def traverseVerbatim (root : ASTNode) (type : NodeType) : String :=
  "\n\n" ++ getMapping type ++ "\n" ++ root.data ++ "\n" ++ getMapping type ++ "\n\n"

/-- Method `converter::traverseFont`. -/
def traverseFont (root : ASTNode) (type : NodeType) : String :=
  getMapping type ++ root.data ++ getMapping type ++ " "

/-- Method `converter::traverseDate`. -/
def traverseDate (root : ASTNode) (type : NodeType) : String :=
  if root.data.data.isEmpty then "" else getMapping type ++ root.data ++ "\n\n"

/-- Method `converter::traverseTitle`. -/
def traverseTitle (root : ASTNode) (type : NodeType) : String :=
  if root.data.data.isEmpty then "" else getMapping type ++ " " ++ root.data ++ "\n\n"

/-- The loop of `traverseFigure` over the children, with the running value of
`result`. -/
def figureLoop : List (Option ASTNode) → String → Except Fault String
  | [], result => .ok result
  | child :: rest, result => do
    let node ← deref child
    if node.node_type = CAPTION_H then
      figureLoop rest (result ++ (" " ++ getMapping CAPTION_H ++ " \"" ++ node.data ++ "\""))
    else figureLoop rest result

/-- Method `converter::traverseFigure`. -/
def traverseFigure (root : ASTNode) (_type : NodeType) : Except Fault String := do
  let result ← figureLoop root.children (getMapping FIGURE_H ++ "(" ++ root.data ++ ")")
  .ok (result ++ "\n\n")

/-- Method `converter::traverseHref`. -/
def traverseHref (root : ASTNode) (_type : NodeType) : String :=
  let split := hrefLoop root.data.data true "" ""
  getMapping HREF_H ++ "[" ++ split.2 ++ "]" ++ "(" ++ split.1 ++ ")" ++ " \n"

/-- Method `converter::traverseReference`. -/
def traverseReference (root : ASTNode) (_type : NodeType) : String :=
  getMapping REF_H ++ root.data ++ "\n\n"

/-- The loop of `traverseParagraph`:
`result += traverseFont(child, child->node_type)` for every child. -/
def paragraphLoop : List (Option ASTNode) → String → Except Fault String
  | [], result => .ok result
  | child :: rest, result => do
    let node ← deref child
    paragraphLoop rest (result ++ traverseFont node node.node_type)

/-- Method `converter::traverseParagraph`. -/
def traverseParagraph (root : ASTNode) (_type : NodeType) : Except Fault String :=
  match root.children with
  | [] => .error .index_out_of_range
  | temp :: _ => do
    let node ← deref temp
    let result ← paragraphLoop node.children ""
    .ok (result ++ "\n\n")

mutual

/-- Method `converter::traversal`.  The bodies of `case ITEM_H` and `case STRING_H`
are `traversalItem` and `traversalString`; the list case (`nested++`, the call
of `traverseList`, the line filter `filterList` on its result) is written out
for each of its two labels. -/
def traversal : Option ASTNode → Context → Rendered
  | none, g => .ok ("", g)
  | some root, g =>
    match root.node_type with
    | ITEM_H => traversalItem root g
    | STRING_H => traversalString root g
    | SECTION_H => traverseSection root SECTION_H g
    | SUBSECTION_H => traverseSubSection root SUBSECTION_H g
    | SUBSUBSECTION_H => traverseSubsubSection root SUBSUBSECTION_H g
    | ITEMIZE_H => do
      let (res, g1) ← traverseList root ITEMIZE_H { g with nested := g.nested + 1 }
      .ok (filterList res, g1)
    | ENUMERATE_H => do
      let (res, g1) ← traverseList root ENUMERATE_H { g with nested := g.nested + 1 }
      .ok (filterList res, g1)
    | VERBATIM_H => .ok (traverseVerbatim root VERBATIM_H, g)
    | TEXTBF_H => .ok (traverseFont root TEXTBF_H, g)
    | TEXTIT_H => .ok (traverseFont root TEXTIT_H, g)
    | TITLE_H => .ok (traverseTitle root TITLE_H, g)
    | DATE_H => .ok (traverseDate root DATE_H, g)
    | FIGURE_H => (traverseFigure root FIGURE_H).map (fun s => (s, g))
    | REF_H => .ok (traverseReference root REF_H, g)
    | HRULE_H => .ok ("\n\n---\n\n", g)
    | PAR_H => (traverseParagraph root PAR_H).map (fun s => (s, g))
    | HREF_H => .ok (traverseHref root HREF_H, g)
    | TABULAR_H => traverseTable root TABULAR_H g
    | _ => traverseChildren root g
termination_by structural x => x

/-- The body of `case ITEM_H` of `traversal`:
`return traversal(root->children[0])`. -/
def traversalItem : ASTNode → Context → Rendered
  | .mk _ _ _ children, g =>
    match children with
    | [] => .error .index_out_of_range
    | child :: _ => traversal child g

/-- The body of `case STRING_H` of `traversal`. -/
def traversalString : ASTNode → Context → Rendered
  | .mk _ data _ children, g =>
    if children.isEmpty then .ok (data, g)
    else do
      let (str, g1) ← stringLoop children data g
      match children with
      | [] => .ok (str, g1)
      | none :: _ => .error .null_dereference
      | some (.mk _ _ _ grandchildren) :: _ =>
        if grandchildren.isEmpty then .ok (str, g1)
        else stringLoop grandchildren str g1

/-- The two loops of the `STRING_H` case of `traversal`:
`if (child) str = str + " " + traversal(child)` for every child. -/
def stringLoop : List (Option ASTNode) → String → Context → Rendered
  | [], str, g => .ok (str, g)
  | child :: rest, str, g =>
    if child.isSome then do
      let (r, g1) ← traversal child g
      stringLoop rest (str ++ " " ++ r) g1
    else stringLoop rest str g

/-- Method `converter::traverseSection`. -/
def traverseSection : ASTNode → NodeType → Context → Rendered
  | .mk _ data _ children, type, g => do
    let g1 := { g with section_no := g.section_no + 1, subsection_no := 0,
                       subsubsection_no := 0 }
    let head := getMapping type ++ " " ++ myString g1.section_no ++ " " ++ data ++ "\n\n"
    let (r, g2) ← childrenLoop children "" g1
    .ok (head ++ r ++ "\n\n", g2)

/-- Method `converter::traverseSubSection`. -/
def traverseSubSection : ASTNode → NodeType → Context → Rendered
  | .mk _ data _ children, type, g => do
    let g1 := { g with subsection_no := g.subsection_no + 1, subsubsection_no := 0 }
    let head := getMapping type ++ " " ++ myString g1.section_no ++ "."
      ++ myString g1.subsection_no ++ " " ++ data ++ "\n\n"
    let (r, g2) ← childrenLoop children "" g1
    .ok (head ++ r ++ "\n\n", g2)

/-- Method `converter::traverseSubsubSection`. -/
def traverseSubsubSection : ASTNode → NodeType → Context → Rendered
  | .mk _ data _ children, type, g => do
    let g1 := { g with subsubsection_no := g.subsubsection_no + 1 }
    let head := getMapping type ++ " " ++ myString g1.section_no ++ "."
      ++ myString g1.subsection_no ++ "." ++ myString g1.subsubsection_no ++ " "
      ++ data ++ "\n\n"
    let (r, g2) ← childrenLoop children "" g1
    .ok (head ++ r ++ "\n\n", g2)

/-- Method `converter::traverseList`.  The unused local `indent(nested, '\t')` is
constructed first, which throws for a negative `nested`; the two branches run
the same loop over `root->children[0]->children` and differ in the bullet. -/
def traverseList : ASTNode → NodeType → Context → Rendered
  | .mk _ _ _ children, type, g =>
    if g.nested < 0 then .error .length_error
    else
      match children with
      | [] => .error .index_out_of_range
      | none :: _ => .error .null_dereference
      | some (.mk _ _ _ items) :: _ => do
        let s := listMarker (if type = ITEMIZE_H then "-" else "1.") g.nested
        let (result, g1) ← listLoop items s "\n" g
        .ok (result ++ "\n", { g1 with nested := g1.nested - 1 })

/-- The loop of `traverseList`: `result += s + traversal(child) + "\n"` for
every child. -/
def listLoop : List (Option ASTNode) → String → String → Context → Rendered
  | [], _, result, g => .ok (result, g)
  | child :: rest, s, result, g => do
    let (str, g1) ← traversal child g
    listLoop rest s (result ++ (s ++ str ++ "\n")) g1

/-- Method `converter::traverseChildren`. -/
def traverseChildren : ASTNode → Context → Rendered
  | .mk _ _ _ children, g => childrenLoop children "" g

/-- The loop of `traverseChildren`: `result += traversal(child)` for every
child. -/
def childrenLoop : List (Option ASTNode) → String → Context → Rendered
  | [], result, g => .ok (result, g)
  | child :: rest, result, g => do
    let (r, g1) ← traversal child g
    childrenLoop rest (result ++ r) g1

/-- Method `converter::traverseTable`. -/
def traverseTable : ASTNode → NodeType → Context → Rendered
  | .mk _ _ _ children, _, g => do
    let (result, count, g1) ← rowLoop children "" 0 g
    match children with
    | [] => .error .index_out_of_range
    | none :: _ => .error .null_dereference
    | some (.mk _ _ _ rows) :: _ => do
      let (result2, _, g2) ← rowLoop rows result 0 g1
      let result3 ← addSeparator result2 count
      .ok (result3 ++ "\n\n", g2)

/-- The row loops of `traverseTable` (`for (auto row : ...)`), with the
running values of `result` and `count`.  The second loop of the function has
the text of the first without `count++`; it is run through the same definition
and the count it returns is dropped. -/
def rowLoop : List (Option ASTNode) → String → Int → Context
    → Except Fault (String × Int × Context)
  | [], result, count, g => .ok (result, count, g)
  | row :: rest, result, count, g =>
    match row with
    | none => .error .null_dereference
    | some (.mk node_type _ _ cells) =>
      if node_type = ROW_H then do
        let (rowResult, count1, g1) ← cellLoop cells "" count g
        rowLoop rest (result ++ finishRow rowResult) count1 g1
      else rowLoop rest result count g

/-- The loop over the cells of a row (`for (auto cell : row->children)`). -/
def cellLoop : List (Option ASTNode) → String → Int → Context
    → Except Fault (String × Int × Context)
  | [], rowResult, count, g => .ok (rowResult, count, g)
  | cell :: rest, rowResult, count, g =>
    match cell with
    | none => .error .null_dereference
    | some (.mk node_type _ _ inner) =>
      if node_type = CELL_H then do
        let (cellData, count1, g1) ← innerLoop inner " | " count g
        cellLoop rest (rowResult ++ (cellData ++ " | ")) count1 g1
      else cellLoop rest rowResult count g

/-- The loop over the nested cells of a cell
(`for (auto innerCell : cell->children)`). -/
def innerLoop : List (Option ASTNode) → String → Int → Context
    → Except Fault (String × Int × Context)
  | [], cellData, count, g => .ok (cellData, count, g)
  | innerCell :: rest, cellData, count, g => do
    let node ← deref innerCell
    if node.node_type = CELL_H then
      let (r, g1) ← traversal innerCell g
      innerLoop rest (cellData ++ (r ++ " | ")) (count + 1) g1
    else innerLoop rest cellData (count + 1) g

end

/-! ## The converter object -/

/-- Class `converter` of `converter.h`: an object holds the table `myMapping`,
here the list of its entries in the order of their insertion. -/
structure converter where
  myMapping : List (NodeType × String)
  deriving DecidableEq, Repr

/-- Expression `m[key]` on a `std::map`: the value stored under `key`; when
there is none, the empty string is first inserted under `key`.  The result is
the value together with the map after the access. -/
def mapIndex (m : List (NodeType × String)) (key : NodeType) :
    String × List (NodeType × String) :=
  match m.lookup key with
  | some value => (value, m)
  | none => ("", m ++ [(key, "")])

/-- Constructor `converter::converter`: the object whose table holds the
entries assigned by the constructor. -/
def converter.new : converter :=
  { myMapping := LatexToMarkdown.myMapping }

/-- Method `converter::getMapping` on an object: `return myMapping[type]`,
with the object after the call. -/
def converter.getMapping (c : converter) (type : NodeType) : String × converter :=
  ((mapIndex c.myMapping type).1, { myMapping := (mapIndex c.myMapping type).2 })

/-- A computation of a method of `converter`: it starts from the object,
and ends in a fault or in a result and the object after the call. -/
abbrev Method (α : Type) : Type := StateT converter (Except Fault) α

/-- A call `getMapping(type)` inside a method. -/
def converter.marker (type : NodeType) : Method String :=
  modifyGet (fun c => c.getMapping type)

/-! ## The renderer as methods of a `converter` object

The functions of the section "The renderer" read the marker table through
`getMapping` without changing it.  The methods below are the same code with
the object threaded: every call `getMapping(type)` goes through
`std::map::operator[]` and may insert an entry. -/

/-- Method `converter::traverseVerbatim`, on an object. -/
def converter.traverseVerbatim (root : ASTNode) (type : NodeType) : Method String := do
  let open1 ← converter.marker type
  let close1 ← converter.marker type
  pure ("\n\n" ++ open1 ++ "\n" ++ root.data ++ "\n" ++ close1 ++ "\n\n")

/-- Method `converter::traverseFont`, on an object. -/
def converter.traverseFont (root : ASTNode) (type : NodeType) : Method String := do
  let open1 ← converter.marker type
  let close1 ← converter.marker type
  pure (open1 ++ root.data ++ close1 ++ " ")

/-- Method `converter::traverseDate`, on an object. -/
def converter.traverseDate (root : ASTNode) (type : NodeType) : Method String :=
  if root.data.data.isEmpty then pure ""
  else do
    let label ← converter.marker type
    pure (label ++ root.data ++ "\n\n")

/-- Method `converter::traverseTitle`, on an object. -/
def converter.traverseTitle (root : ASTNode) (type : NodeType) : Method String :=
  if root.data.data.isEmpty then pure ""
  else do
    let mark ← converter.marker type
    pure (mark ++ " " ++ root.data ++ "\n\n")

/-- The loop of `traverseFigure` over the children, on an object. -/
def converter.figureLoop : List (Option ASTNode) → String → Method String
  | [], result => pure result
  | child :: rest, result => do
    let node ← deref child
    if node.node_type = CAPTION_H then do
      let mark ← converter.marker CAPTION_H
      converter.figureLoop rest (result ++ (" " ++ mark ++ " \"" ++ node.data ++ "\""))
    else converter.figureLoop rest result

/-- Method `converter::traverseFigure`, on an object. -/
def converter.traverseFigure (root : ASTNode) (_type : NodeType) : Method String := do
  let mark ← converter.marker FIGURE_H
  let result ← converter.figureLoop root.children (mark ++ "(" ++ root.data ++ ")")
  pure (result ++ "\n\n")

/-- Method `converter::traverseHref`, on an object. -/
def converter.traverseHref (root : ASTNode) (_type : NodeType) : Method String := do
  let split := hrefLoop root.data.data true "" ""
  let mark ← converter.marker HREF_H
  pure (mark ++ "[" ++ split.2 ++ "]" ++ "(" ++ split.1 ++ ")" ++ " \n")

/-- Method `converter::traverseReference`, on an object. -/
def converter.traverseReference (root : ASTNode) (_type : NodeType) : Method String := do
  let mark ← converter.marker REF_H
  pure (mark ++ root.data ++ "\n\n")

/-- The loop of `traverseParagraph`, on an object. -/
def converter.paragraphLoop : List (Option ASTNode) → String → Method String
  | [], result => pure result
  | child :: rest, result => do
    let node ← deref child
    let font ← converter.traverseFont node node.node_type
    converter.paragraphLoop rest (result ++ font)

/-- Method `converter::traverseParagraph`, on an object. -/
def converter.traverseParagraph (root : ASTNode) (_type : NodeType) : Method String :=
  match root.children with
  | [] => throw Fault.index_out_of_range
  | temp :: _ => do
    let node ← deref temp
    let result ← converter.paragraphLoop node.children ""
    pure (result ++ "\n\n")

mutual

/-- Method `converter::traversal`, on an object. -/
def converter.traversal : Option ASTNode → Context → Method (String × Context)
  | none, g => pure ("", g)
  | some root, g =>
    match root.node_type with
    | ITEM_H => converter.traversalItem root g
    | STRING_H => converter.traversalString root g
    | SECTION_H => converter.traverseSection root SECTION_H g
    | SUBSECTION_H => converter.traverseSubSection root SUBSECTION_H g
    | SUBSUBSECTION_H => converter.traverseSubsubSection root SUBSUBSECTION_H g
    | ITEMIZE_H => do
      let (res, g1) ← converter.traverseList root ITEMIZE_H { g with nested := g.nested + 1 }
      pure (filterList res, g1)
    | ENUMERATE_H => do
      let (res, g1) ← converter.traverseList root ENUMERATE_H { g with nested := g.nested + 1 }
      pure (filterList res, g1)
    | VERBATIM_H => do
      let s ← converter.traverseVerbatim root VERBATIM_H
      pure (s, g)
    | TEXTBF_H => do
      let s ← converter.traverseFont root TEXTBF_H
      pure (s, g)
    | TEXTIT_H => do
      let s ← converter.traverseFont root TEXTIT_H
      pure (s, g)
    | TITLE_H => do
      let s ← converter.traverseTitle root TITLE_H
      pure (s, g)
    | DATE_H => do
      let s ← converter.traverseDate root DATE_H
      pure (s, g)
    | FIGURE_H => do
      let s ← converter.traverseFigure root FIGURE_H
      pure (s, g)
    | REF_H => do
      let s ← converter.traverseReference root REF_H
      pure (s, g)
    | HRULE_H => pure ("\n\n---\n\n", g)
    | PAR_H => do
      let s ← converter.traverseParagraph root PAR_H
      pure (s, g)
    | HREF_H => do
      let s ← converter.traverseHref root HREF_H
      pure (s, g)
    | TABULAR_H => converter.traverseTable root TABULAR_H g
    | _ => converter.traverseChildren root g
termination_by structural x => x

/-- The body of `case ITEM_H` of `traversal`, on an object. -/
def converter.traversalItem : ASTNode → Context → Method (String × Context)
  | .mk _ _ _ children, g =>
    match children with
    | [] => throw Fault.index_out_of_range
    | child :: _ => converter.traversal child g

/-- The body of `case STRING_H` of `traversal`, on an object. -/
def converter.traversalString : ASTNode → Context → Method (String × Context)
  | .mk _ data _ children, g =>
    if children.isEmpty then pure (data, g)
    else do
      let (str, g1) ← converter.stringLoop children data g
      match children with
      | [] => pure (str, g1)
      | none :: _ => throw Fault.null_dereference
      | some (.mk _ _ _ grandchildren) :: _ =>
        if grandchildren.isEmpty then pure (str, g1)
        else converter.stringLoop grandchildren str g1

/-- The two loops of the `STRING_H` case of `traversal`, on an object. -/
def converter.stringLoop : List (Option ASTNode) → String → Context
    → Method (String × Context)
  | [], str, g => pure (str, g)
  | child :: rest, str, g =>
    if child.isSome then do
      let (r, g1) ← converter.traversal child g
      converter.stringLoop rest (str ++ " " ++ r) g1
    else converter.stringLoop rest str g

/-- Method `converter::traverseSection`, on an object. -/
def converter.traverseSection : ASTNode → NodeType → Context → Method (String × Context)
  | .mk _ data _ children, type, g => do
    let g1 := { g with section_no := g.section_no + 1, subsection_no := 0,
                       subsubsection_no := 0 }
    let mark ← converter.marker type
    let head := mark ++ " " ++ myString g1.section_no ++ " " ++ data ++ "\n\n"
    let (r, g2) ← converter.childrenLoop children "" g1
    pure (head ++ r ++ "\n\n", g2)

/-- Method `converter::traverseSubSection`, on an object. -/
def converter.traverseSubSection : ASTNode → NodeType → Context → Method (String × Context)
  | .mk _ data _ children, type, g => do
    let g1 := { g with subsection_no := g.subsection_no + 1, subsubsection_no := 0 }
    let mark ← converter.marker type
    let head := mark ++ " " ++ myString g1.section_no ++ "."
      ++ myString g1.subsection_no ++ " " ++ data ++ "\n\n"
    let (r, g2) ← converter.childrenLoop children "" g1
    pure (head ++ r ++ "\n\n", g2)

/-- Method `converter::traverseSubsubSection`, on an object. -/
def converter.traverseSubsubSection : ASTNode → NodeType → Context
    → Method (String × Context)
  | .mk _ data _ children, type, g => do
    let g1 := { g with subsubsection_no := g.subsubsection_no + 1 }
    let mark ← converter.marker type
    let head := mark ++ " " ++ myString g1.section_no ++ "."
      ++ myString g1.subsection_no ++ "." ++ myString g1.subsubsection_no ++ " "
      ++ data ++ "\n\n"
    let (r, g2) ← converter.childrenLoop children "" g1
    pure (head ++ r ++ "\n\n", g2)

/-- Method `converter::traverseList`, on an object. -/
def converter.traverseList : ASTNode → NodeType → Context → Method (String × Context)
  | .mk _ _ _ children, type, g =>
    if g.nested < 0 then throw Fault.length_error
    else
      match children with
      | [] => throw Fault.index_out_of_range
      | none :: _ => throw Fault.null_dereference
      | some (.mk _ _ _ items) :: _ => do
        let s := listMarker (if type = ITEMIZE_H then "-" else "1.") g.nested
        let (result, g1) ← converter.listLoop items s "\n" g
        pure (result ++ "\n", { g1 with nested := g1.nested - 1 })

/-- The loop of `traverseList`, on an object. -/
def converter.listLoop : List (Option ASTNode) → String → String → Context
    → Method (String × Context)
  | [], _, result, g => pure (result, g)
  | child :: rest, s, result, g => do
    let (str, g1) ← converter.traversal child g
    converter.listLoop rest s (result ++ (s ++ str ++ "\n")) g1

/-- Method `converter::traverseChildren`, on an object. -/
def converter.traverseChildren : ASTNode → Context → Method (String × Context)
  | .mk _ _ _ children, g => converter.childrenLoop children "" g

/-- The loop of `traverseChildren`, on an object. -/
def converter.childrenLoop : List (Option ASTNode) → String → Context
    → Method (String × Context)
  | [], result, g => pure (result, g)
  | child :: rest, result, g => do
    let (r, g1) ← converter.traversal child g
    converter.childrenLoop rest (result ++ r) g1

/-- Method `converter::traverseTable`, on an object. -/
def converter.traverseTable : ASTNode → NodeType → Context → Method (String × Context)
  | .mk _ _ _ children, _, g => do
    let (result, count, g1) ← converter.rowLoop children "" 0 g
    match children with
    | [] => throw Fault.index_out_of_range
    | none :: _ => throw Fault.null_dereference
    | some (.mk _ _ _ rows) :: _ => do
      let (result2, _, g2) ← converter.rowLoop rows result 0 g1
      let result3 ← addSeparator result2 count
      pure (result3 ++ "\n\n", g2)

/-- The row loops of `traverseTable`, on an object. -/
def converter.rowLoop : List (Option ASTNode) → String → Int → Context
    → Method (String × Int × Context)
  | [], result, count, g => pure (result, count, g)
  | row :: rest, result, count, g =>
    match row with
    | none => throw Fault.null_dereference
    | some (.mk node_type _ _ cells) =>
      if node_type = ROW_H then do
        let (rowResult, count1, g1) ← converter.cellLoop cells "" count g
        converter.rowLoop rest (result ++ finishRow rowResult) count1 g1
      else converter.rowLoop rest result count g

/-- The loop over the cells of a row, on an object. -/
def converter.cellLoop : List (Option ASTNode) → String → Int → Context
    → Method (String × Int × Context)
  | [], rowResult, count, g => pure (rowResult, count, g)
  | cell :: rest, rowResult, count, g =>
    match cell with
    | none => throw Fault.null_dereference
    | some (.mk node_type _ _ inner) =>
      if node_type = CELL_H then do
        let (cellData, count1, g1) ← converter.innerLoop inner " | " count g
        converter.cellLoop rest (rowResult ++ (cellData ++ " | ")) count1 g1
      else converter.cellLoop rest rowResult count g

/-- The loop over the nested cells of a cell, on an object. -/
def converter.innerLoop : List (Option ASTNode) → String → Int → Context
    → Method (String × Int × Context)
  | [], cellData, count, g => pure (cellData, count, g)
  | innerCell :: rest, cellData, count, g => do
    let node ← deref innerCell
    if node.node_type = CELL_H then
      let (r, g1) ← converter.traversal innerCell g
      converter.innerLoop rest (cellData ++ (r ++ " | ")) (count + 1) g1
    else converter.innerLoop rest cellData (count + 1) g

end

/-! ## Vocabulary of the statements -/

/-- A childless node as the tests build it: `newNode(type)` followed by the
assignment of `data`. -/
def leaf (type : NodeType) (data : String) : ASTNode :=
  ASTNode.mk type data "" []

/-- In-order concatenation of a list of strings. -/
def concatAll : List String → String
  | [] => ""
  | s :: rest => s ++ concatAll rest

/-- The renders of the nodes of a list, in order, each started from the context
in which the previous one ended, together with the context after the last. -/
def renderEach : List (Option ASTNode) → Context → Except Fault (List String × Context)
  | [], g => .ok ([], g)
  | child :: rest, g => do
    let (r, g1) ← traversal child g
    let (rs, g2) ← renderEach rest g1
    .ok (r :: rs, g2)

/-- The children that are present (not null), in order. -/
def present (children : List (Option ASTNode)) : List (Option ASTNode) :=
  children.filter Option.isSome

/-- A string of `n` tab characters. -/
def tabs (n : Nat) : String :=
  String.mk (List.replicate n '\t')

/-- The kinds without a case of their own in the `switch` of `traversal`. -/
def defaultKinds : List NodeType :=
  [AST_H, DOCUMENT_H, UNDERLINE_H, ROW_H, CELL_H, CAPTION_H, INCLUDE_GRAPHICS_H, LABEL_H,
   HLINE_H, SQRT_H, TEXT_H, CODE_H]

/-- A rendering function that leaves the list nesting depth as it found it
whenever it returns a result. -/
def KeepsDepth (f : Context → Rendered) : Prop :=
  ∀ g r g1, f g = .ok (r, g1) → g1.nested = g.nested

/-- The same for the table loops, which also return the cell count. -/
def KeepsDepthCounting (f : Context → Except Fault (String × Int × Context)) : Prop :=
  ∀ g r n g1, f g = .ok (r, n, g1) → g1.nested = g.nested

/-- Every loop of the renderer over the list `cs` keeps the list nesting
depth. -/
def LoopsKeepDepth (cs : List (Option ASTNode)) : Prop :=
  (∀ acc, KeepsDepth (childrenLoop cs acc))
  ∧ (∀ str, KeepsDepth (stringLoop cs str))
  ∧ (∀ s res, KeepsDepth (listLoop cs s res))
  ∧ (∀ res n, KeepsDepthCounting (rowLoop cs res n))
  ∧ (∀ res n, KeepsDepthCounting (cellLoop cs res n))
  ∧ (∀ res n, KeepsDepthCounting (innerLoop cs res n))

/-- A line "ends in `.`": it is not empty and its last character is `.`. -/
def endsWithDot (line : String) : Bool :=
  line.data.getLast? == some '.'

/-- There is a previously kept line and it ends in `.`. -/
def keptEndsWithDot : Option String → Bool
  | some p => endsWithDot p
  | none => false

/-- The lines kept by the list filter, in the words of the specification:
`prev` is the previously kept line, if any.  A line that is `1.` after its
leading whitespace is removed is kept when the previously kept line ends in
`.` and dropped otherwise; every other line is kept. -/
def specKeptLines : Option String → List String → List String
  | _, [] => []
  | prev, line :: rest =>
    if trimmed line = "1." then
      if keptEndsWithDot prev = true then line :: specKeptLines (some line) rest
      else specKeptLines prev rest
    else line :: specKeptLines (some line) rest

/-- Every kept line followed by a newline. -/
def unlines (lines : List String) : String :=
  concatAll (lines.map (fun l => l ++ "\n"))

/-- The part of `s` before its first `#` (all of `s` when it has none). -/
def beforeFirstHash (s : String) : String :=
  String.mk (s.data.takeWhile (fun c => c != '#'))

/-- The whole part of `s` after its first `#` (empty when it has none). -/
def afterFirstHash (s : String) : String :=
  String.mk ((s.data.dropWhile (fun c => c != '#')).drop 1)

/-- The string `s` with every `#` removed. -/
def withoutHashes (s : String) : String :=
  String.mk (s.data.filter (fun c => c != '#'))

/-- The inline render of a paragraph segment: `traverseFont` applied with the
segment's own kind. -/
def segmentText (x : ASTNode) : String :=
  getMapping x.node_type ++ x.data ++ getMapping x.node_type ++ " "

/-- The text a child contributes to a figure: the quoted caption for a caption
child, nothing for a child of another kind. -/
def captionFragment (y : ASTNode) : String :=
  if y.node_type = CAPTION_H then "  \"" ++ y.data ++ "\"" else ""

/-- The tree of `createItemizeAST` in `test.cpp`: an itemize node whose only
child is an item holding the string "First item" and a second item, which
holds the string "Second item". -/
def createItemizeAST : ASTNode :=
  let str1 := leaf STRING_H "First item"
  let item2 := (newNode ITEM_H).addChild (some (leaf STRING_H "Second item"))
  let item1 := ((newNode ITEM_H).addChild (some str1)).addChild (some item2)
  (newNode ITEMIZE_H).addChild (some item1)

/-- The tree of `createParAST` in `test.cpp`: the string "This is a paragraph."
whose only child is a paragraph holding the childless string
"This is another paragraph.". -/
def createParAST : ASTNode :=
  let par := (newNode PAR_H).addChild (some (leaf STRING_H "This is another paragraph."))
  (leaf STRING_H "This is a paragraph.").addChild (some par)

/-- A list inside a list: an itemize node with the items "a", an enumerate
node that holds the single item "b", and a childless section "S". -/
def nestedLists : ASTNode :=
  let inner := (newNode ENUMERATE_H).addChild
    (some ((newNode ITEM_H).addChild (some (leaf STRING_H "b"))))
  (newNode ITEMIZE_H).addChild
    (some ((((newNode ITEM_H).addChild (some (leaf STRING_H "a"))).addChild
      (some inner)).addChild (some (leaf SECTION_H "S"))))

/-- A paragraph whose wrapper child holds a bold, an italic, a plain-string, a
table-row and a section segment, the last with a child of its own; the
paragraph has a second child. -/
def mixedParagraph : ASTNode :=
  let wrapper := ASTNode.mk STRING_H "w" ""
    [some (leaf TEXTBF_H "b"), some (leaf TEXTIT_H "i"), some (leaf STRING_H "s"),
     some (leaf ROW_H "r"), some (ASTNode.mk SECTION_H "h" "" [some (leaf STRING_H "inner")])]
  ASTNode.mk PAR_H "p" "" [some wrapper, some (leaf STRING_H "ignored")]

/-- The tree of `createTabularAST` in `test.cpp`: a table with two rows of two
childless cells each. -/
def createTabularAST : ASTNode :=
  let row1 := ((newNode ROW_H).addChild (some (leaf CELL_H "Header1"))).addChild
    (some (leaf CELL_H "Header2"))
  let row2 := ((newNode ROW_H).addChild (some (leaf CELL_H "Row1Col1"))).addChild
    (some (leaf CELL_H "Row1Col2"))
  ((newNode TABULAR_H).addChild (some row1)).addChild (some row2)

/-- The table of the object returns, for every kind, the marker that the
constructor's table returns, an absent entry counting as the empty string. -/
def Agrees (c : converter) : Prop :=
  ∀ k, (c.myMapping.lookup k).getD "" = getMapping k

/-- The method computation `run` does what the table-free computation `plain`
does: started from an object that agrees with the constructor's table it faults
exactly when `plain` faults, returns the result of `plain` otherwise, and leaves
an object that agrees with the constructor's table. -/
def Simulates {α : Type} (run : Method α) (plain : Except Fault α) : Prop :=
  ∀ c, Agrees c → (run c).map Prod.fst = plain ∧ ∀ a c1, run c = .ok (a, c1) → Agrees c1

/-- Every loop of the renderer over the list `cs`, run on an object, does what
the table-free loop does. -/
def LoopsSimulate (cs : List (Option ASTNode)) : Prop :=
  (∀ acc g, Simulates (converter.childrenLoop cs acc g) (childrenLoop cs acc g))
  ∧ (∀ str g, Simulates (converter.stringLoop cs str g) (stringLoop cs str g))
  ∧ (∀ s res g, Simulates (converter.listLoop cs s res g) (listLoop cs s res g))
  ∧ (∀ res n g, Simulates (converter.rowLoop cs res n g) (rowLoop cs res n g))
  ∧ (∀ res n g, Simulates (converter.cellLoop cs res n g) (cellLoop cs res n g))
  ∧ (∀ res n g, Simulates (converter.innerLoop cs res n g) (innerLoop cs res n g))

mutual

/-- All nodes of the tree rooted at a node: the node itself, then the nodes of
the trees of its present children, in order. -/
def subtree : ASTNode → List ASTNode
  | .mk node_type data attributes children =>
    .mk node_type data attributes children :: subtreeList children
termination_by structural x => x

/-- The nodes of the trees rooted at the present members of a list of
children. -/
def subtreeList : List (Option ASTNode) → List ASTNode
  | [] => []
  | child :: rest => subtreeOption child ++ subtreeList rest

/-- The nodes of the tree behind a pointer: none for the null pointer. -/
def subtreeOption : Option ASTNode → List ASTNode
  | none => []
  | some node => subtree node

end

/-- The kinds whose rule reads or writes a counter of the context. -/
def counterKinds : List NodeType :=
  [SECTION_H, SUBSECTION_H, SUBSUBSECTION_H, ITEMIZE_H, ENUMERATE_H]

/-- The tree holds no section, subsection, subsubsection, itemize or enumerate
node. -/
def counterFree (root : ASTNode) : Prop :=
  ∀ n ∈ subtree root, n.node_type ∉ counterKinds

/-- A rendering function whose result does not depend on the context it is
started from and which returns that context unchanged: there is one outcome
`x`, a text or a fault, such that from every context `g` the function gives
`x` together with `g`. -/
def Framed (f : Context → Rendered) : Prop :=
  ∃ x : Except Fault String, ∀ g, f g = x.map (fun r => (r, g))

/-- The same for the table loops, which also return the cell count. -/
def FramedCounting (f : Context → Except Fault (String × Int × Context)) : Prop :=
  ∃ x : Except Fault (String × Int), ∀ g, f g = x.map (fun p => (p.1, p.2, g))

/-- Every loop of the renderer over the list `cs` that a counter-free tree can
reach is framed. -/
def LoopsFramed (cs : List (Option ASTNode)) : Prop :=
  (∀ acc, Framed (childrenLoop cs acc))
  ∧ (∀ str, Framed (stringLoop cs str))
  ∧ (∀ res n, FramedCounting (rowLoop cs res n))
  ∧ (∀ res n, FramedCounting (cellLoop cs res n))
  ∧ (∀ res n, FramedCounting (innerLoop cs res n))

/-- A nested child of a cell that is itself a table cell; only these are
rendered into the row. -/
def isNestedCell : Option ASTNode → Bool
  | some inner => inner.node_type = CELL_H
  | none => false

/-- The renders that enter a row: for every table-cell child of the row, in
order, the renders of its nested table-cell children, the context being
threaded through all of them.  A child of the row of another kind gives no
entry, a nested child of another kind no render. -/
def rowRenders : List ASTNode → Context → Except Fault (List (List String) × Context)
  | [], g => .ok ([], g)
  | cell :: rest, g =>
    if cell.node_type = CELL_H then do
      let (rs, g1) ← renderEach (cell.children.filter isNestedCell) g
      let (rss, g2) ← rowRenders rest g1
      .ok (rs :: rss, g2)
    else rowRenders rest g

/-- The number of nested children, of any kind, of the table-cell children of
a row: what the first row loop adds to `count`. -/
def nestedCount : List ASTNode → Int
  | [] => 0
  | cell :: rest =>
    (if cell.node_type = CELL_H then (cell.children.length : Int) else 0) + nestedCount rest

/-- The fragment that a table cell with the nested renders `renders` adds to
its row: the opening " | ", every nested render followed by " | ", and a
closing " | ". -/
def cellText (renders : List String) : String :=
  " | " ++ concatAll (renders.map (fun r => r ++ " | ")) ++ " | "

/-- The fragment of a table cell without the closing " | ": the opening " | "
and every nested render followed by " | ". -/
def cellTextUnclosed (renders : List String) : String :=
  " | " ++ concatAll (renders.map (fun r => r ++ " | "))

/-- The text `s` with one trailing " | " removed, if it ends in one. -/
def withoutTrailingBar (s : String) : String :=
  if [' ', '|', ' '].isSuffixOf s.data then String.mk (s.data.take (s.data.length - 3)) else s

/-- The line of a row whose cells add the fragments `fragments`: their
concatenation with the trailing " | " removed once, then a newline. -/
def rowLine (fragments : List String) : String :=
  withoutTrailingBar (concatAll fragments) ++ "\n"

/-- A table with one row of one cell that holds one nested cell, whose child is
the string "h". -/
def oneCellTable : ASTNode :=
  let nested := (newNode CELL_H).addChild (some (leaf STRING_H "h"))
  let cell := (newNode CELL_H).addChild (some nested)
  (newNode TABULAR_H).addChild (some ((newNode ROW_H).addChild (some cell)))

/-- The two loops of the `STRING_H` case, calling `call` for `traversal`. -/
def Body.stringLoop (call : Option ASTNode → Context → Rendered) :
    List (Option ASTNode) → String → Context → Rendered
  | [], str, g => .ok (str, g)
  | child :: rest, str, g =>
    if child.isSome then do
      let (r, g1) ← call child g
      Body.stringLoop call rest (str ++ " " ++ r) g1
    else Body.stringLoop call rest str g

/-- The loop of `traverseList`, calling `call` for `traversal`. -/
def Body.listLoop (call : Option ASTNode → Context → Rendered) :
    List (Option ASTNode) → String → String → Context → Rendered
  | [], _, result, g => .ok (result, g)
  | child :: rest, s, result, g => do
    let (str, g1) ← call child g
    Body.listLoop call rest s (result ++ (s ++ str ++ "\n")) g1

/-- The loop of `traverseChildren`, calling `call` for `traversal`. -/
def Body.childrenLoop (call : Option ASTNode → Context → Rendered) :
    List (Option ASTNode) → String → Context → Rendered
  | [], result, g => .ok (result, g)
  | child :: rest, result, g => do
    let (r, g1) ← call child g
    Body.childrenLoop call rest (result ++ r) g1

/-- The loop over the nested cells of a cell, calling `call` for
`traversal`. -/
def Body.innerLoop (call : Option ASTNode → Context → Rendered) :
    List (Option ASTNode) → String → Int → Context → Except Fault (String × Int × Context)
  | [], cellData, count, g => .ok (cellData, count, g)
  | innerCell :: rest, cellData, count, g => do
    let node ← deref innerCell
    if node.node_type = CELL_H then
      let (r, g1) ← call innerCell g
      Body.innerLoop call rest (cellData ++ (r ++ " | ")) (count + 1) g1
    else Body.innerLoop call rest cellData (count + 1) g

/-- The loop over the cells of a row, calling `call` for `traversal`. -/
def Body.cellLoop (call : Option ASTNode → Context → Rendered) :
    List (Option ASTNode) → String → Int → Context → Except Fault (String × Int × Context)
  | [], rowResult, count, g => .ok (rowResult, count, g)
  | cell :: rest, rowResult, count, g =>
    match cell with
    | none => .error .null_dereference
    | some (.mk node_type _ _ inner) =>
      if node_type = CELL_H then do
        let (cellData, count1, g1) ← Body.innerLoop call inner " | " count g
        Body.cellLoop call rest (rowResult ++ (cellData ++ " | ")) count1 g1
      else Body.cellLoop call rest rowResult count g

/-- The row loops of `traverseTable`, calling `call` for `traversal`. -/
def Body.rowLoop (call : Option ASTNode → Context → Rendered) :
    List (Option ASTNode) → String → Int → Context → Except Fault (String × Int × Context)
  | [], result, count, g => .ok (result, count, g)
  | row :: rest, result, count, g =>
    match row with
    | none => .error .null_dereference
    | some (.mk node_type _ _ cells) =>
      if node_type = ROW_H then do
        let (rowResult, count1, g1) ← Body.cellLoop call cells "" count g
        Body.rowLoop call rest (result ++ finishRow rowResult) count1 g1
      else Body.rowLoop call rest result count g

/-- The body of `case ITEM_H`, calling `call` for `traversal`. -/
def Body.traversalItem (call : Option ASTNode → Context → Rendered) :
    ASTNode → Context → Rendered
  | .mk _ _ _ children, g =>
    match children with
    | [] => .error .index_out_of_range
    | child :: _ => call child g

/-- The body of `case STRING_H`, calling `call` for `traversal`. -/
def Body.traversalString (call : Option ASTNode → Context → Rendered) :
    ASTNode → Context → Rendered
  | .mk _ data _ children, g =>
    if children.isEmpty then .ok (data, g)
    else do
      let (str, g1) ← Body.stringLoop call children data g
      match children with
      | [] => .ok (str, g1)
      | none :: _ => .error .null_dereference
      | some (.mk _ _ _ grandchildren) :: _ =>
        if grandchildren.isEmpty then .ok (str, g1)
        else Body.stringLoop call grandchildren str g1

/-- Method `converter::traverseSection`, calling `call` for `traversal`. -/
def Body.traverseSection (call : Option ASTNode → Context → Rendered) :
    ASTNode → NodeType → Context → Rendered
  | .mk _ data _ children, type, g => do
    let g1 := { g with section_no := g.section_no + 1, subsection_no := 0,
                       subsubsection_no := 0 }
    let head := getMapping type ++ " " ++ myString g1.section_no ++ " " ++ data ++ "\n\n"
    let (r, g2) ← Body.childrenLoop call children "" g1
    .ok (head ++ r ++ "\n\n", g2)

/-- Method `converter::traverseSubSection`, calling `call` for `traversal`. -/
def Body.traverseSubSection (call : Option ASTNode → Context → Rendered) :
    ASTNode → NodeType → Context → Rendered
  | .mk _ data _ children, type, g => do
    let g1 := { g with subsection_no := g.subsection_no + 1, subsubsection_no := 0 }
    let head := getMapping type ++ " " ++ myString g1.section_no ++ "."
      ++ myString g1.subsection_no ++ " " ++ data ++ "\n\n"
    let (r, g2) ← Body.childrenLoop call children "" g1
    .ok (head ++ r ++ "\n\n", g2)

/-- Method `converter::traverseSubsubSection`, calling `call` for
`traversal`. -/
def Body.traverseSubsubSection (call : Option ASTNode → Context → Rendered) :
    ASTNode → NodeType → Context → Rendered
  | .mk _ data _ children, type, g => do
    let g1 := { g with subsubsection_no := g.subsubsection_no + 1 }
    let head := getMapping type ++ " " ++ myString g1.section_no ++ "."
      ++ myString g1.subsection_no ++ "." ++ myString g1.subsubsection_no ++ " "
      ++ data ++ "\n\n"
    let (r, g2) ← Body.childrenLoop call children "" g1
    .ok (head ++ r ++ "\n\n", g2)

/-- Method `converter::traverseList`, calling `call` for `traversal`. -/
def Body.traverseList (call : Option ASTNode → Context → Rendered) :
    ASTNode → NodeType → Context → Rendered
  | .mk _ _ _ children, type, g =>
    if g.nested < 0 then .error .length_error
    else
      match children with
      | [] => .error .index_out_of_range
      | none :: _ => .error .null_dereference
      | some (.mk _ _ _ items) :: _ => do
        let s := listMarker (if type = ITEMIZE_H then "-" else "1.") g.nested
        let (result, g1) ← Body.listLoop call items s "\n" g
        .ok (result ++ "\n", { g1 with nested := g1.nested - 1 })

/-- Method `converter::traverseChildren`, calling `call` for `traversal`. -/
def Body.traverseChildren (call : Option ASTNode → Context → Rendered) :
    ASTNode → Context → Rendered
  | .mk _ _ _ children, g => Body.childrenLoop call children "" g

/-- Method `converter::traverseTable`, calling `call` for `traversal`. -/
def Body.traverseTable (call : Option ASTNode → Context → Rendered) :
    ASTNode → NodeType → Context → Rendered
  | .mk _ _ _ children, _, g => do
    let (result, count, g1) ← Body.rowLoop call children "" 0 g
    match children with
    | [] => .error .index_out_of_range
    | none :: _ => .error .null_dereference
    | some (.mk _ _ _ rows) :: _ => do
      let (result2, _, g2) ← Body.rowLoop call rows result 0 g1
      let result3 ← addSeparator result2 count
      .ok (result3 ++ "\n\n", g2)

/-- Method `converter::traversal` with every recursive call, its own and those
of the methods it dispatches to, made through `call`. -/
def Body.traversal (call : Option ASTNode → Context → Rendered) :
    Option ASTNode → Context → Rendered
  | none, g => .ok ("", g)
  | some root, g =>
    match root.node_type with
    | ITEM_H => Body.traversalItem call root g
    | STRING_H => Body.traversalString call root g
    | SECTION_H => Body.traverseSection call root SECTION_H g
    | SUBSECTION_H => Body.traverseSubSection call root SUBSECTION_H g
    | SUBSUBSECTION_H => Body.traverseSubsubSection call root SUBSUBSECTION_H g
    | ITEMIZE_H => do
      let (res, g1) ← Body.traverseList call root ITEMIZE_H { g with nested := g.nested + 1 }
      .ok (filterList res, g1)
    | ENUMERATE_H => do
      let (res, g1) ← Body.traverseList call root ENUMERATE_H { g with nested := g.nested + 1 }
      .ok (filterList res, g1)
    | VERBATIM_H => .ok (traverseVerbatim root VERBATIM_H, g)
    | TEXTBF_H => .ok (traverseFont root TEXTBF_H, g)
    | TEXTIT_H => .ok (traverseFont root TEXTIT_H, g)
    | TITLE_H => .ok (traverseTitle root TITLE_H, g)
    | DATE_H => .ok (traverseDate root DATE_H, g)
    | FIGURE_H => (traverseFigure root FIGURE_H).map (fun s => (s, g))
    | REF_H => .ok (traverseReference root REF_H, g)
    | HRULE_H => .ok ("\n\n---\n\n", g)
    | PAR_H => (traverseParagraph root PAR_H).map (fun s => (s, g))
    | HREF_H => .ok (traverseHref root HREF_H, g)
    | TABULAR_H => Body.traverseTable call root TABULAR_H g
    | _ => Body.traverseChildren call root g

/-- The children of the present members of a list of nodes, in order. -/
def childrenOfAll : List (Option ASTNode) → List (Option ASTNode)
  | [] => []
  | none :: rest => childrenOfAll rest
  | some node :: rest => node.children ++ childrenOfAll rest

/-- The arguments of the recursive calls that the body can make on a node:
for a list item its first child; for a plain string its children and the
children of its first child; for an itemize or enumerate node the children of
its first child; for a table the nested children of the cells of its rows,
three levels down, and those of the rows of its first child, four levels down;
none for the kinds rendered from the node alone and for figures and
paragraphs; the children for every other kind. -/
def callees : ASTNode → List (Option ASTNode)
  | .mk node_type _ _ children =>
    match node_type with
    | ITEM_H => children.take 1
    | STRING_H => children ++ childrenOfAll (children.take 1)
    | ITEMIZE_H => childrenOfAll (children.take 1)
    | ENUMERATE_H => childrenOfAll (children.take 1)
    | TABULAR_H =>
      childrenOfAll (childrenOfAll children)
        ++ childrenOfAll (childrenOfAll (childrenOfAll (children.take 1)))
    | VERBATIM_H => []
    | TEXTBF_H => []
    | TEXTIT_H => []
    | TITLE_H => []
    | DATE_H => []
    | FIGURE_H => []
    | REF_H => []
    | HRULE_H => []
    | PAR_H => []
    | HREF_H => []
    | _ => children

/-- Two candidates for the recursive call give the same result on every
member of the list `xs`. -/
def AgreeOn (xs : List (Option ASTNode)) (f f1 : Option ASTNode → Context → Rendered) : Prop :=
  ∀ o ∈ xs, ∀ g, f o g = f1 o g

/-- A stand-in for the recursive call that renders every node to "A". -/
def callA : Option ASTNode → Context → Rendered :=
  fun _ g => .ok ("A", g)

/-- A stand-in for the recursive call that renders a plain string to "B" and
every other node to "A". -/
def callB : Option ASTNode → Context → Rendered
  | some node, g => if node.node_type = STRING_H then .ok ("B", g) else .ok ("A", g)
  | none, g => .ok ("A", g)

/-! ## Auxiliary lemmas -/

theorem except_map_ok {ε α β : Type} (f : α → β) (x : α) :
    (Except.ok x : Except ε α).map f = .ok (f x) := rfl

/-! ### Entries of the marker table -/

@[simp]
theorem getMapping_SECTION_H : getMapping SECTION_H = "##" := rfl

@[simp]
theorem getMapping_SUBSECTION_H : getMapping SUBSECTION_H = "###" := rfl

@[simp]
theorem getMapping_SUBSUBSECTION_H : getMapping SUBSUBSECTION_H = "####" := rfl

@[simp]
theorem getMapping_TEXTBF_H : getMapping TEXTBF_H = "**" := rfl

@[simp]
theorem getMapping_TEXTIT_H : getMapping TEXTIT_H = "*" := rfl

@[simp]
theorem getMapping_STRING_H : getMapping STRING_H = "" := rfl

@[simp]
theorem getMapping_FIGURE_H : getMapping FIGURE_H = "![]" := rfl

@[simp]
theorem getMapping_CAPTION_H : getMapping CAPTION_H = "" := rfl

@[simp]
theorem getMapping_HREF_H : getMapping HREF_H = "" := rfl

theorem concatAll_append (xs ys : List String) :
    concatAll (xs ++ ys) = concatAll xs ++ concatAll ys := by
  induction xs with
  | nil => simp [concatAll]
  | cons x xs ih => simp [concatAll, ih, String.append_assoc]

theorem traversal_some (root : ASTNode) (g : Context) :
    traversal (some root) g =
      match root.node_type with
      | ITEM_H => traversalItem root g
      | STRING_H => traversalString root g
      | SECTION_H => traverseSection root SECTION_H g
      | SUBSECTION_H => traverseSubSection root SUBSECTION_H g
      | SUBSUBSECTION_H => traverseSubsubSection root SUBSUBSECTION_H g
      | ITEMIZE_H => do
        let (res, g1) ← traverseList root ITEMIZE_H { g with nested := g.nested + 1 }
        .ok (filterList res, g1)
      | ENUMERATE_H => do
        let (res, g1) ← traverseList root ENUMERATE_H { g with nested := g.nested + 1 }
        .ok (filterList res, g1)
      | VERBATIM_H => .ok (traverseVerbatim root VERBATIM_H, g)
      | TEXTBF_H => .ok (traverseFont root TEXTBF_H, g)
      | TEXTIT_H => .ok (traverseFont root TEXTIT_H, g)
      | TITLE_H => .ok (traverseTitle root TITLE_H, g)
      | DATE_H => .ok (traverseDate root DATE_H, g)
      | FIGURE_H => (traverseFigure root FIGURE_H).map (fun s => (s, g))
      | REF_H => .ok (traverseReference root REF_H, g)
      | HRULE_H => .ok ("\n\n---\n\n", g)
      | PAR_H => (traverseParagraph root PAR_H).map (fun s => (s, g))
      | HREF_H => .ok (traverseHref root HREF_H, g)
      | TABULAR_H => traverseTable root TABULAR_H g
      | _ => traverseChildren root g := by
  rw [traversal]

/-- The loop of `traverseChildren` appends to its accumulator the renders of
the children in order. -/
theorem childrenLoop_eq (cs : List (Option ASTNode)) (acc : String) (g : Context) :
    childrenLoop cs acc g
      = (renderEach cs g).map (fun p => (acc ++ concatAll p.1, p.2)) := by
  induction cs generalizing acc g with
  | nil => simp [childrenLoop, renderEach, concatAll, Except.map]
  | cons c cs ih =>
    simp only [childrenLoop, renderEach]
    cases h : traversal c g with
    | error e => simp [bind, Except.bind, Except.map]
    | ok p =>
      obtain ⟨r, g1⟩ := p
      simp only [bind, Except.bind, ih]
      cases h2 : renderEach cs g1 with
      | error e => simp [Except.map]
      | ok q => simp [Except.map, concatAll, String.append_assoc]

theorem traversal_ITEM_H_nil (d a : String) (g : Context) :
    traversal (some (ASTNode.mk ITEM_H d a [])) g = .error .index_out_of_range := by
  simp only [traversal, ASTNode.node_type, traversalItem]

theorem traversal_ITEM_H_cons (d a : String) (child : Option ASTNode)
    (rest : List (Option ASTNode)) (g : Context) :
    traversal (some (ASTNode.mk ITEM_H d a (child :: rest))) g = traversal child g := by
  simp only [traversal, ASTNode.node_type, traversalItem]

theorem traversal_STRING_H_nil (d a : String) (g : Context) :
    traversal (some (ASTNode.mk STRING_H d a [])) g = .ok (d, g) := by
  simp only [traversal, ASTNode.node_type, traversalString, List.isEmpty_nil, if_true]

theorem traversal_STRING_H_none (d a : String) (rest : List (Option ASTNode)) (g : Context) :
    traversal (some (ASTNode.mk STRING_H d a (none :: rest))) g
      = (stringLoop (none :: rest) d g >>= fun _ => .error .null_dereference) := by
  simp only [traversal, ASTNode.node_type, traversalString, List.isEmpty_cons]
  rfl

theorem traversal_STRING_H_some (d a : String) (ty1 : NodeType) (d1 a1 : String)
    (gs rest : List (Option ASTNode)) (g : Context) :
    traversal (some (ASTNode.mk STRING_H d a (some (ASTNode.mk ty1 d1 a1 gs) :: rest))) g
      = (stringLoop (some (ASTNode.mk ty1 d1 a1 gs) :: rest) d g >>= fun p =>
          stringLoop gs p.1 p.2) := by
  simp only [traversal, ASTNode.node_type, traversalString, List.isEmpty_cons]
  cases stringLoop (some (ASTNode.mk ty1 d1 a1 gs) :: rest) d g with
  | error e => rfl
  | ok p =>
    cases gs with
    | nil => simp [bind, Except.bind, stringLoop]
    | cons x xs => simp [bind, Except.bind]

theorem traverseList_nil (ty : NodeType) (d a : String) (type : NodeType) (g : Context) :
    traverseList (ASTNode.mk ty d a []) type g
      = if g.nested < 0 then .error .length_error else .error .index_out_of_range := by
  simp only [traverseList]

theorem traverseList_none (ty : NodeType) (d a : String) (rest : List (Option ASTNode))
    (type : NodeType) (g : Context) :
    traverseList (ASTNode.mk ty d a (none :: rest)) type g
      = if g.nested < 0 then .error .length_error else .error .null_dereference := by
  simp only [traverseList]

theorem traverseList_some (ty : NodeType) (d a : String) (wty : NodeType) (wd wa : String)
    (items rest : List (Option ASTNode)) (type : NodeType) (g : Context) :
    traverseList (ASTNode.mk ty d a (some (ASTNode.mk wty wd wa items) :: rest)) type g
      = if g.nested < 0 then .error .length_error
        else (listLoop items (listMarker (if type = ITEMIZE_H then "-" else "1.") g.nested)
                "\n" g).map
              (fun p => (p.1 ++ "\n", { p.2 with nested := p.2.nested - 1 })) := by
  simp only [traverseList]
  split
  · rfl
  · cases listLoop items _ "\n" g <;> rfl

theorem traversal_TABULAR_H_nil (d a : String) (g : Context) :
    traversal (some (ASTNode.mk TABULAR_H d a [])) g = .error .index_out_of_range := by
  simp only [traversal, ASTNode.node_type, traverseTable, rowLoop]
  rfl

theorem traversal_TABULAR_H_none (d a : String) (rest : List (Option ASTNode)) (g : Context) :
    traversal (some (ASTNode.mk TABULAR_H d a (none :: rest))) g = .error .null_dereference := by
  simp only [traversal, ASTNode.node_type, traverseTable, rowLoop]
  rfl

theorem traversal_TABULAR_H_some (d a : String) (ty1 : NodeType) (d1 a1 : String)
    (rows rest : List (Option ASTNode)) (g : Context) :
    traversal (some (ASTNode.mk TABULAR_H d a (some (ASTNode.mk ty1 d1 a1 rows) :: rest))) g
      = (rowLoop (some (ASTNode.mk ty1 d1 a1 rows) :: rest) "" 0 g >>= fun p =>
          rowLoop rows p.1 0 p.2.2 >>= fun q =>
            (addSeparator q.1 p.2.1).map (fun result3 => (result3 ++ "\n\n", q.2.2))) := by
  simp only [traversal, ASTNode.node_type, traverseTable]
  cases rowLoop (some (ASTNode.mk ty1 d1 a1 rows) :: rest) "" 0 g with
  | error e => rfl
  | ok p =>
    simp only [bind, Except.bind]
    cases rowLoop rows p.1 0 p.2.2 with
    | error e => rfl
    | ok q => cases addSeparator q.1 p.2.1 <;> rfl

theorem traversal_SECTION_H (d a : String) (cs : List (Option ASTNode)) (g : Context) :
    traversal (some (ASTNode.mk SECTION_H d a cs)) g
      = traverseSection (ASTNode.mk SECTION_H d a cs) SECTION_H g := by
  simp only [traversal, ASTNode.node_type]

theorem traversal_SUBSECTION_H (d a : String) (cs : List (Option ASTNode)) (g : Context) :
    traversal (some (ASTNode.mk SUBSECTION_H d a cs)) g
      = traverseSubSection (ASTNode.mk SUBSECTION_H d a cs) SUBSECTION_H g := by
  simp only [traversal, ASTNode.node_type]

theorem traversal_SUBSUBSECTION_H (d a : String) (cs : List (Option ASTNode)) (g : Context) :
    traversal (some (ASTNode.mk SUBSUBSECTION_H d a cs)) g
      = traverseSubsubSection (ASTNode.mk SUBSUBSECTION_H d a cs) SUBSUBSECTION_H g := by
  simp only [traversal, ASTNode.node_type]

theorem traversal_ITEMIZE_H (d a : String) (cs : List (Option ASTNode)) (g : Context) :
    traversal (some (ASTNode.mk ITEMIZE_H d a cs)) g
      = (traverseList (ASTNode.mk ITEMIZE_H d a cs) ITEMIZE_H
          { g with nested := g.nested + 1 }).map (fun p => (filterList p.1, p.2)) := by
  simp only [traversal, ASTNode.node_type]
  cases traverseList _ _ _ <;> rfl

theorem traversal_ENUMERATE_H (d a : String) (cs : List (Option ASTNode)) (g : Context) :
    traversal (some (ASTNode.mk ENUMERATE_H d a cs)) g
      = (traverseList (ASTNode.mk ENUMERATE_H d a cs) ENUMERATE_H
          { g with nested := g.nested + 1 }).map (fun p => (filterList p.1, p.2)) := by
  simp only [traversal, ASTNode.node_type]
  cases traverseList _ _ _ <;> rfl

theorem traversal_FIGURE_H (d a : String) (cs : List (Option ASTNode)) (g : Context) :
    traversal (some (ASTNode.mk FIGURE_H d a cs)) g
      = (traverseFigure (ASTNode.mk FIGURE_H d a cs) FIGURE_H).map (fun s => (s, g)) := by
  simp only [traversal, ASTNode.node_type]

theorem traversal_PAR_H (d a : String) (cs : List (Option ASTNode)) (g : Context) :
    traversal (some (ASTNode.mk PAR_H d a cs)) g
      = (traverseParagraph (ASTNode.mk PAR_H d a cs) PAR_H).map (fun s => (s, g)) := by
  simp only [traversal, ASTNode.node_type]

theorem traversal_HREF_H (d a : String) (cs : List (Option ASTNode)) (g : Context) :
    traversal (some (ASTNode.mk HREF_H d a cs)) g
      = .ok (traverseHref (ASTNode.mk HREF_H d a cs) HREF_H, g) := by
  simp only [traversal, ASTNode.node_type]

/-- The kinds whose render is a text computed from the node alone, without a
recursive call and without touching the context. -/
theorem traversal_inline (ty : NodeType) (d a : String) (cs : List (Option ASTNode))
    (g : Context)
    (h : ty = VERBATIM_H ∨ ty = TEXTBF_H ∨ ty = TEXTIT_H ∨ ty = TITLE_H ∨ ty = DATE_H
          ∨ ty = REF_H ∨ ty = HRULE_H ∨ ty = HREF_H) :
    ∃ r, traversal (some (ASTNode.mk ty d a cs)) g = .ok (r, g) := by
  rcases h with h | h | h | h | h | h | h | h <;> subst h <;>
    exact ⟨_, rfl⟩

theorem traversal_default (ty : NodeType) (d a : String) (cs : List (Option ASTNode))
    (g : Context) (h : ty ∈ defaultKinds) :
    traversal (some (ASTNode.mk ty d a cs)) g = childrenLoop cs "" g := by
  simp only [defaultKinds, List.mem_cons, List.mem_singleton, List.not_mem_nil, or_false] at h
  rcases h with h | h | h | h | h | h | h | h | h | h | h | h <;> subst h <;>
    simp only [traversal, ASTNode.node_type, traverseChildren]

/-- Every kind is dispatched in one of the ways above. -/
theorem kind_cases (ty : NodeType) :
    ty = ITEM_H ∨ ty = STRING_H ∨ ty = SECTION_H ∨ ty = SUBSECTION_H ∨ ty = SUBSUBSECTION_H
    ∨ ty = ITEMIZE_H ∨ ty = ENUMERATE_H ∨ ty = FIGURE_H ∨ ty = PAR_H ∨ ty = TABULAR_H
    ∨ (ty = VERBATIM_H ∨ ty = TEXTBF_H ∨ ty = TEXTIT_H ∨ ty = TITLE_H ∨ ty = DATE_H
          ∨ ty = REF_H ∨ ty = HRULE_H ∨ ty = HREF_H)
    ∨ ty ∈ defaultKinds := by
  cases ty <;> simp [defaultKinds]

/-- Structural induction on nodes: a property holds of every node when it
holds of a node as soon as it holds of all its present children. -/
theorem ASTNode.induct {P : ASTNode → Prop}
    (step : ∀ ty d a cs, (∀ c, some c ∈ cs → P c) → P (ASTNode.mk ty d a cs)) :
    ∀ n, P n := fun n =>
  @ASTNode.rec P (fun cs => ∀ c, some c ∈ cs → P c) (fun o => ∀ c, o = some c → P c)
    (fun ty d a cs ih => step ty d a cs ih)
    (fun c hc => by simp at hc)
    (fun head tail ih1 ih2 c hc => by
      cases List.mem_cons.1 hc with
      | inl h => exact ih1 c h.symm
      | inr h => exact ih2 c h)
    (fun c hc => by simp at hc)
    (fun val ih c hc => by cases hc; exact ih)
    n

theorem bind_eq_ok {ε α β : Type} (x : Except ε α) (f : α → Except ε β) (b : β) :
    (x >>= f) = .ok b ↔ ∃ a, x = .ok a ∧ f a = .ok b := by
  cases x with
  | error e => simp [bind, Except.bind]
  | ok a => simp [bind, Except.bind]

theorem map_eq_ok {ε α β : Type} (x : Except ε α) (f : α → β) (b : β) :
    x.map f = .ok b ↔ ∃ a, x = .ok a ∧ f a = b := by
  cases x with
  | error e => simp [Except.map]
  | ok a => simp [Except.map]

theorem childrenLoop_keeps (cs : List (Option ASTNode))
    (h : ∀ o ∈ cs, KeepsDepth (traversal o)) (acc : String) :
    KeepsDepth (childrenLoop cs acc) := by
  induction cs generalizing acc with
  | nil => intro g r g1 e; simp [childrenLoop] at e; rw [e.2]
  | cons c cs ih =>
    intro g r g1 e
    simp only [childrenLoop, bind_eq_ok] at e
    obtain ⟨⟨r1, g2⟩, e1, e2⟩ := e
    have h1 := h c (List.mem_cons_self _ _) g r1 g2 e1
    have h2 := ih (fun o ho => h o (List.mem_cons_of_mem _ ho)) _ g2 r g1 e2
    rw [h2, h1]

theorem stringLoop_keeps (cs : List (Option ASTNode))
    (h : ∀ o ∈ cs, KeepsDepth (traversal o)) (str : String) :
    KeepsDepth (stringLoop cs str) := by
  induction cs generalizing str with
  | nil => intro g r g1 e; simp [stringLoop] at e; rw [e.2]
  | cons c cs ih =>
    intro g r g1 e
    simp only [stringLoop] at e
    split at e
    · simp only [bind_eq_ok] at e
      obtain ⟨⟨r1, g2⟩, e1, e2⟩ := e
      have h1 := h c (List.mem_cons_self _ _) g r1 g2 e1
      have h2 := ih (fun o ho => h o (List.mem_cons_of_mem _ ho)) _ g2 r g1 e2
      rw [h2, h1]
    · exact ih (fun o ho => h o (List.mem_cons_of_mem _ ho)) _ g r g1 e

theorem listLoop_keeps (cs : List (Option ASTNode))
    (h : ∀ o ∈ cs, KeepsDepth (traversal o)) (s res : String) :
    KeepsDepth (listLoop cs s res) := by
  induction cs generalizing res with
  | nil => intro g r g1 e; simp [listLoop] at e; rw [e.2]
  | cons c cs ih =>
    intro g r g1 e
    simp only [listLoop, bind_eq_ok] at e
    obtain ⟨⟨r1, g2⟩, e1, e2⟩ := e
    have h1 := h c (List.mem_cons_self _ _) g r1 g2 e1
    have h2 := ih (fun o ho => h o (List.mem_cons_of_mem _ ho)) _ g2 r g1 e2
    rw [h2, h1]

theorem innerLoop_keeps (cs : List (Option ASTNode))
    (h : ∀ o ∈ cs, KeepsDepth (traversal o)) (res : String) (n : Int) :
    KeepsDepthCounting (innerLoop cs res n) := by
  induction cs generalizing res n with
  | nil => intro g r m g1 e; simp [innerLoop] at e; rw [e.2.2]
  | cons c cs ih =>
    intro g r m g1 e
    simp only [innerLoop, bind_eq_ok] at e
    obtain ⟨node, -, e⟩ := e
    split at e
    · simp only [bind_eq_ok] at e
      obtain ⟨⟨r1, g2⟩, e1, e2⟩ := e
      have h1 := h c (List.mem_cons_self _ _) g r1 g2 e1
      have h2 := ih (fun o ho => h o (List.mem_cons_of_mem _ ho)) _ _ g2 r m g1 e2
      rw [h2, h1]
    · exact ih (fun o ho => h o (List.mem_cons_of_mem _ ho)) _ _ g r m g1 e

theorem cellLoop_keeps (cs : List (Option ASTNode))
    (h : ∀ c, some c ∈ cs → ∀ res n, KeepsDepthCounting (innerLoop c.children res n))
    (res : String) (n : Int) :
    KeepsDepthCounting (cellLoop cs res n) := by
  induction cs generalizing res n with
  | nil => intro g r m g1 e; simp [cellLoop] at e; rw [e.2.2]
  | cons c cs ih =>
    have ih1 := ih (fun c hc => h c (List.mem_cons_of_mem _ hc))
    intro g r m g1 e
    cases c with
    | none => simp [cellLoop] at e
    | some node =>
      obtain ⟨ty, d, a, inner⟩ := node
      simp only [cellLoop] at e
      split at e
      · simp only [bind_eq_ok] at e
        obtain ⟨⟨r1, m1, g2⟩, e1, e2⟩ := e
        have h1 := h _ (List.mem_cons_self _ _) _ _ g r1 m1 g2 e1
        have h2 := ih1 _ _ g2 r m g1 e2
        rw [h2, h1]
      · exact ih1 _ _ g r m g1 e

theorem rowLoop_keeps (cs : List (Option ASTNode))
    (h : ∀ c, some c ∈ cs → ∀ res n, KeepsDepthCounting (cellLoop c.children res n))
    (res : String) (n : Int) :
    KeepsDepthCounting (rowLoop cs res n) := by
  induction cs generalizing res n with
  | nil => intro g r m g1 e; simp [rowLoop] at e; rw [e.2.2]
  | cons c cs ih =>
    have ih1 := ih (fun c hc => h c (List.mem_cons_of_mem _ hc))
    intro g r m g1 e
    cases c with
    | none => simp [rowLoop] at e
    | some node =>
      obtain ⟨ty, d, a, cells⟩ := node
      simp only [rowLoop] at e
      split at e
      · simp only [bind_eq_ok] at e
        obtain ⟨⟨r1, m1, g2⟩, e1, e2⟩ := e
        have h1 := h _ (List.mem_cons_self _ _) _ _ g r1 m1 g2 e1
        have h2 := ih1 _ _ g2 r m g1 e2
        rw [h2, h1]
      · exact ih1 _ _ g r m g1 e

theorem traversal_none_keeps : KeepsDepth (traversal none) := by
  intro g r g1 e
  simp [traversal] at e
  rw [e.2]

/-- The node step of the depth invariant: a node keeps the depth, and so do
all loops over its children, when this holds of its present children. -/
theorem keepsDepth_step (ty : NodeType) (d a : String) (cs : List (Option ASTNode))
    (ih : ∀ c, some c ∈ cs →
      KeepsDepth (traversal (some c)) ∧ LoopsKeepDepth c.children) :
    KeepsDepth (traversal (some (ASTNode.mk ty d a cs))) ∧ LoopsKeepDepth cs := by
  have hel : ∀ o ∈ cs, KeepsDepth (traversal o) := by
    intro o ho
    cases o with
    | none => exact traversal_none_keeps
    | some c => exact (ih c ho).1
  have hloops : LoopsKeepDepth cs :=
    ⟨childrenLoop_keeps cs hel, stringLoop_keeps cs hel, listLoop_keeps cs hel,
      rowLoop_keeps cs (fun c hc => (ih c hc).2.2.2.2.2.1),
      cellLoop_keeps cs (fun c hc => (ih c hc).2.2.2.2.2.2),
      innerLoop_keeps cs hel⟩
  refine ⟨?_, hloops⟩
  intro g r g1 e
  rcases kind_cases ty with h | h | h | h | h | h | h | h | h | h | h | h
  · -- list item
    subst h
    cases cs with
    | nil => simp [traversal_ITEM_H_nil] at e
    | cons c rest =>
      rw [traversal_ITEM_H_cons] at e
      exact hel c (List.mem_cons_self _ _) g r g1 e
  · -- plain string
    subst h
    cases cs with
    | nil => simp [traversal_STRING_H_nil] at e; rw [e.2]
    | cons c rest =>
      cases c with
      | none => simp [traversal_STRING_H_none, bind_eq_ok] at e
      | some node =>
        obtain ⟨ty1, d1, a1, gs⟩ := node
        rw [traversal_STRING_H_some, bind_eq_ok] at e
        obtain ⟨⟨r1, g2⟩, e1, e2⟩ := e
        have h1 := hloops.2.1 _ g r1 g2 e1
        have h2 := (ih _ (List.mem_cons_self _ _)).2.2.1 _ g2 r g1 e2
        rw [h2, h1]
  · -- section
    subst h
    rw [traversal_SECTION_H] at e
    simp only [traverseSection, bind_eq_ok] at e
    obtain ⟨⟨r1, g2⟩, e1, e2⟩ := e
    have h1 := hloops.1 _ _ r1 g2 e1
    simp at e2
    rw [← e2.2, h1]
  · -- subsection
    subst h
    rw [traversal_SUBSECTION_H] at e
    simp only [traverseSubSection, bind_eq_ok] at e
    obtain ⟨⟨r1, g2⟩, e1, e2⟩ := e
    have h1 := hloops.1 _ _ r1 g2 e1
    simp at e2
    rw [← e2.2, h1]
  · -- subsubsection
    subst h
    rw [traversal_SUBSUBSECTION_H] at e
    simp only [traverseSubsubSection, bind_eq_ok] at e
    obtain ⟨⟨r1, g2⟩, e1, e2⟩ := e
    have h1 := hloops.1 _ _ r1 g2 e1
    simp at e2
    rw [← e2.2, h1]
  · -- itemize
    subst h
    rw [traversal_ITEMIZE_H, map_eq_ok] at e
    obtain ⟨⟨r1, g2⟩, e1, e2⟩ := e
    cases cs with
    | nil => rw [traverseList_nil] at e1; split at e1 <;> simp at e1
    | cons c rest =>
      cases c with
      | none => rw [traverseList_none] at e1; split at e1 <;> simp at e1
      | some node =>
        obtain ⟨ty1, d1, a1, items⟩ := node
        rw [traverseList_some] at e1
        split at e1
        · simp at e1
        · rw [map_eq_ok] at e1
          obtain ⟨⟨r3, g3⟩, e3, e4⟩ := e1
          have h1 := (ih _ (List.mem_cons_self _ _)).2.2.2.1 _ _ _ r3 g3 e3
          simp at e2 e4
          rw [← e2.2, ← e4.2]
          simp [h1]
  · -- enumerate
    subst h
    rw [traversal_ENUMERATE_H, map_eq_ok] at e
    obtain ⟨⟨r1, g2⟩, e1, e2⟩ := e
    cases cs with
    | nil => rw [traverseList_nil] at e1; split at e1 <;> simp at e1
    | cons c rest =>
      cases c with
      | none => rw [traverseList_none] at e1; split at e1 <;> simp at e1
      | some node =>
        obtain ⟨ty1, d1, a1, items⟩ := node
        rw [traverseList_some] at e1
        split at e1
        · simp at e1
        · rw [map_eq_ok] at e1
          obtain ⟨⟨r3, g3⟩, e3, e4⟩ := e1
          have h1 := (ih _ (List.mem_cons_self _ _)).2.2.2.1 _ _ _ r3 g3 e3
          simp at e2 e4
          rw [← e2.2, ← e4.2]
          simp [h1]
  · -- figure
    subst h
    rw [traversal_FIGURE_H, map_eq_ok] at e
    obtain ⟨x, -, e2⟩ := e
    simp at e2; rw [e2.2]
  · -- paragraph
    subst h
    rw [traversal_PAR_H, map_eq_ok] at e
    obtain ⟨x, -, e2⟩ := e
    simp at e2; rw [e2.2]
  · -- table
    subst h
    cases cs with
    | nil => simp [traversal_TABULAR_H_nil] at e
    | cons c rest =>
      cases c with
      | none => simp [traversal_TABULAR_H_none] at e
      | some node =>
        obtain ⟨ty1, d1, a1, rows⟩ := node
        rw [traversal_TABULAR_H_some, bind_eq_ok] at e
        obtain ⟨⟨r1, n1, g2⟩, e1, e2⟩ := e
        rw [bind_eq_ok] at e2
        obtain ⟨⟨r3, n3, g3⟩, e3, e4⟩ := e2
        rw [map_eq_ok] at e4
        obtain ⟨x, -, e5⟩ := e4
        have h1 := hloops.2.2.2.1 _ _ g r1 n1 g2 e1
        have h2 := (ih _ (List.mem_cons_self _ _)).2.2.2.2.1 _ _ g2 r3 n3 g3 e3
        simp at e5
        rw [← e5.2, h2, h1]
  · -- inline kinds
    obtain ⟨r0, e0⟩ := traversal_inline ty d a cs g h
    rw [e0] at e
    simp at e
    rw [e.2]
  · -- kinds of the default case
    rw [traversal_default ty d a cs g h] at e
    exact hloops.1 _ g r g1 e

/-- Every node keeps the list nesting depth, and so do the loops over its
children. -/
theorem keepsDepth_node (n : ASTNode) :
    KeepsDepth (traversal (some n)) ∧ LoopsKeepDepth n.children :=
  ASTNode.induct (P := fun n => KeepsDepth (traversal (some n)) ∧ LoopsKeepDepth n.children)
    keepsDepth_step n

theorem traversal_keeps_depth (root : Option ASTNode) : KeepsDepth (traversal root) := by
  cases root with
  | none => exact traversal_none_keeps
  | some n => exact (keepsDepth_node n).1

theorem string_mk_append (xs ys : List Char) :
    String.mk (xs ++ ys) = String.mk xs ++ String.mk ys := by
  apply String.ext
  simp [String.data_append]

theorem emptyOrNoDot_eq (prev : String) : emptyOrNoDot prev = !endsWithDot prev := by
  unfold emptyOrNoDot endsWithDot
  cases h : prev.data with
  | nil => simp
  | cons c cs => rfl

theorem filterLoop_spec (ls : List String) (ans prev : String) (popt : Option String)
    (h : (popt = none ∧ prev = "") ∨ popt = some prev) :
    filterLoop ls ans prev = ans ++ unlines (specKeptLines popt ls) := by
  induction ls generalizing ans prev popt with
  | nil => simp [filterLoop, specKeptLines, unlines, concatAll]
  | cons l ls ih =>
    have hdot : keptEndsWithDot popt = endsWithDot prev := by
      rcases h with ⟨h1, h2⟩ | h1
      · subst h1; subst h2; rfl
      · subst h1; rfl
    simp only [filterLoop, specKeptLines, hdot, emptyOrNoDot_eq]
    by_cases ht : trimmed l = "1."
    · cases hd : endsWithDot prev with
      | true =>
        simp only [ht, hd, true_and, Bool.not_true, if_true, Bool.false_eq_true, if_false]
        rw [ih _ _ (some l) (Or.inr rfl)]
        simp [unlines, concatAll, String.append_assoc]
      | false =>
        simp only [ht, hd, true_and, Bool.not_false, if_true, Bool.false_eq_true, if_false]
        exact ih _ _ popt h
    · simp only [ht, false_and, if_false]
      rw [ih _ _ (some l) (Or.inr rfl)]
      simp [unlines, concatAll, String.append_assoc]

theorem filterList_spec (res : String) :
    filterList res = unlines (specKeptLines none (getlines res)) := by
  unfold filterList
  rw [filterLoop_spec _ _ _ none (Or.inl ⟨rfl, rfl⟩)]
  simp

theorem getlinesFrom_line (l : List Char) (hl : '\n' ∉ l) (rest cur : List Char) :
    getlinesFrom (l ++ '\n' :: rest) cur = String.mk (cur ++ l) :: getlinesFrom rest [] := by
  induction l generalizing cur with
  | nil => simp [getlinesFrom]
  | cons c l ih =>
    have hc : c ≠ '\n' := fun h => hl (by simp [h])
    have hl1 : '\n' ∉ l := fun h => hl (by simp [h])
    simp only [List.cons_append, getlinesFrom, hc, if_false, List.append_eq]
    rw [ih hl1]
    simp

theorem unlines_data_cons (l : String) (ls : List String) :
    (unlines (l :: ls)).data = l.data ++ '\n' :: (unlines ls).data := by
  simp [unlines, concatAll, String.data_append]

theorem getlines_unlines (ls : List String) (h : ∀ l ∈ ls, '\n' ∉ l.data) :
    getlines (unlines ls) = ls := by
  unfold getlines
  induction ls with
  | nil => simp [unlines, concatAll, getlinesFrom]
  | cons l ls ih =>
    rw [unlines_data_cons, getlinesFrom_line _ (h l (List.mem_cons_self _ _))]
    rw [ih (fun x hx => h x (List.mem_cons_of_mem _ hx))]
    simp

theorem specKeptLines_all (ls : List String) (prev : Option String)
    (h : ∀ l ∈ ls, trimmed l ≠ "1.") : specKeptLines prev ls = ls := by
  induction ls generalizing prev with
  | nil => simp [specKeptLines]
  | cons l ls ih =>
    simp only [specKeptLines, h l (List.mem_cons_self _ _), if_false]
    rw [ih _ (fun x hx => h x (List.mem_cons_of_mem _ hx))]

/-- The loop of `traverseList` appends one line `s ++ render ++ "\n"` for every
item, in order. -/
theorem listLoop_eq (xs : List (Option ASTNode)) (s acc : String) (g : Context) :
    listLoop xs s acc g
      = (renderEach xs g).map
          (fun p => (acc ++ unlines (p.1.map (fun r => s ++ r)), p.2)) := by
  induction xs generalizing acc g with
  | nil => simp [listLoop, renderEach, unlines, concatAll, Except.map]
  | cons c cs ih =>
    simp only [listLoop, renderEach]
    cases h : traversal c g with
    | error e => simp [bind, Except.bind, Except.map]
    | ok p =>
      obtain ⟨r, g1⟩ := p
      simp only [bind, Except.bind, ih]
      cases h2 : renderEach cs g1 with
      | error e => simp [Except.map]
      | ok q => simp [Except.map, unlines, concatAll, String.append_assoc]

theorem isspace_tab : isspace '\t' = true := by decide

theorem dropWhile_tabs (n : Nat) (rest : List Char) :
    (List.replicate n '\t' ++ rest).dropWhile isspace = rest.dropWhile isspace := by
  induction n with
  | zero => simp
  | succ n ih => simp [List.replicate_succ, List.dropWhile_cons, isspace_tab, ih]

theorem trimmed_item_line (n : Nat) (r : String) (hr : r ≠ "") :
    trimmed (tabs n ++ "-" ++ r) ≠ "1." ∧ trimmed (tabs n ++ "1." ++ r) ≠ "1." := by
  have hne : r.data ≠ [] := fun h => hr (String.ext h)
  constructor
  · intro h
    have h1 := congrArg String.data h
    simp only [trimmed, tabs, String.data_append, List.append_assoc, dropWhile_tabs] at h1
    simp [List.dropWhile_cons, isspace] at h1
  · intro h
    have h1 := congrArg String.data h
    simp only [trimmed, tabs, String.data_append, List.append_assoc, dropWhile_tabs] at h1
    simp [List.dropWhile_cons, isspace] at h1
    exact hne h1

theorem newline_free_item_line (n : Nat) (r : String) (hr : '\n' ∉ r.data) :
    '\n' ∉ (tabs n ++ "-" ++ r).data ∧ '\n' ∉ (tabs n ++ "1." ++ r).data := by
  have h1 : ("-" : String).data = ['-'] := rfl
  have h2 : ("1." : String).data = ['1', '.'] := rfl
  constructor
  · simp [tabs, String.data_append, h1, hr]
  · simp [tabs, String.data_append, h2, hr]

theorem filterList_unlines (ls : List String) (h : ∀ l ∈ ls, '\n' ∉ l.data) :
    filterList (unlines ls) = unlines (specKeptLines none ls) := by
  rw [filterList_spec, getlines_unlines ls h]

theorem unlines_append (xs ys : List String) : unlines (xs ++ ys) = unlines xs ++ unlines ys := by
  simp [unlines, concatAll_append]

/-- The text of a list whose item lines are newline-free and differ from `1.`
after trimming passes the filter unchanged. -/
theorem filterList_item_lines (ls : List String) (h1 : ∀ l ∈ ls, '\n' ∉ l.data)
    (h2 : ∀ l ∈ ls, trimmed l ≠ "1.") :
    filterList ("\n" ++ unlines ls ++ "\n") = "\n" ++ unlines ls ++ "\n" := by
  have e : "\n" ++ unlines ls ++ "\n" = unlines ("" :: (ls ++ [""])) := by
    rw [show "" :: (ls ++ [""]) = [""] ++ (ls ++ [""]) from rfl, unlines_append, unlines_append]
    simp [unlines, concatAll, String.append_assoc]
  rw [e, filterList_unlines, specKeptLines_all]
  · intro l hl
    simp only [List.mem_cons, List.mem_append, List.mem_singleton, List.not_mem_nil,
      or_false] at hl
    rcases hl with hl | hl | hl
    · subst hl; decide
    · exact h2 l hl
    · subst hl; decide
  · intro l hl
    simp only [List.mem_cons, List.mem_append, List.mem_singleton, List.not_mem_nil,
      or_false] at hl
    rcases hl with hl | hl | hl
    · subst hl; decide
    · exact h1 l hl
    · subst hl; decide

theorem listMarker_succ (bullet : String) (d : Int) :
    listMarker bullet (d + 1) = tabs d.toNat ++ bullet := by
  simp [listMarker, tabs]

theorem unlines_map_marker (s : String) (rs : List String) :
    unlines (rs.map (fun r => s ++ r)) = concatAll (rs.map (fun r => s ++ r ++ "\n")) := by
  simp [unlines, List.map_map, Function.comp_def]

/-- A list node whose items render to non-empty newline-free strings: one line
per item, made of the tabs of the depth at entry, the bullet and the render of
the item. -/
theorem list_of_plain_items (d a : String) (wty : NodeType) (wd wa : String)
    (xs rest : List (Option ASTNode)) (g : Context) (rs : List String) (g1 : Context)
    (hd : 0 ≤ g.nested)
    (hr : renderEach xs { g with nested := g.nested + 1 } = .ok (rs, g1))
    (hne : ∀ r ∈ rs, r ≠ "" ∧ '\n' ∉ r.data) :
    traversal (some (ASTNode.mk ITEMIZE_H d a (some (ASTNode.mk wty wd wa xs) :: rest))) g
        = .ok ("\n" ++ concatAll (rs.map (fun r => tabs g.nested.toNat ++ "-" ++ r ++ "\n"))
                 ++ "\n", { g1 with nested := g1.nested - 1 })
    ∧ traversal (some (ASTNode.mk ENUMERATE_H d a (some (ASTNode.mk wty wd wa xs) :: rest))) g
        = .ok ("\n" ++ concatAll (rs.map (fun r => tabs g.nested.toNat ++ "1." ++ r ++ "\n"))
                 ++ "\n", { g1 with nested := g1.nested - 1 }) := by
  have hnot : ¬ (g.nested + 1 < 0) := by omega
  constructor
  · rw [traversal_ITEMIZE_H, traverseList_some]
    simp only [hnot, if_false, if_true, listLoop_eq, listMarker_succ, hr, except_map_ok]
    rw [filterList_item_lines, unlines_map_marker]
    · intro l hl
      obtain ⟨r, hr1, rfl⟩ := List.mem_map.1 hl
      exact (newline_free_item_line _ r (hne r hr1).2).1
    · intro l hl
      obtain ⟨r, hr1, rfl⟩ := List.mem_map.1 hl
      exact (trimmed_item_line _ r (hne r hr1).1).1
  · rw [traversal_ENUMERATE_H, traverseList_some]
    have hty : ¬ (ENUMERATE_H = ITEMIZE_H) := by decide
    simp only [hnot, if_false, hty, listLoop_eq, listMarker_succ, hr, except_map_ok]
    rw [filterList_item_lines, unlines_map_marker]
    · intro l hl
      obtain ⟨r, hr1, rfl⟩ := List.mem_map.1 hl
      exact (newline_free_item_line _ r (hne r hr1).2).2
    · intro l hl
      obtain ⟨r, hr1, rfl⟩ := List.mem_map.1 hl
      exact (trimmed_item_line _ r (hne r hr1).1).2

theorem push_eq (s : String) (c : Char) : s.push c = s ++ String.mk [c] := by
  apply String.ext
  simp [String.data_append]

theorem hrefLoop_false (cs : List Char) (link label : String) :
    hrefLoop cs false link label
      = (link, label ++ String.mk (cs.filter (fun c => c != '#'))) := by
  induction cs generalizing label with
  | nil => simp [hrefLoop]
  | cons c cs ih =>
    by_cases h : c = '#'
    · simp [hrefLoop, h, ih]
    · simp [hrefLoop, h, ih, push_eq, String.append_assoc, ← string_mk_append]

theorem hrefLoop_true (cs : List Char) (link label : String) :
    hrefLoop cs true link label
      = (link ++ String.mk (cs.takeWhile (fun c => c != '#')),
         label ++ String.mk (((cs.dropWhile (fun c => c != '#')).drop 1).filter
                     (fun c => c != '#'))) := by
  induction cs generalizing link with
  | nil => simp [hrefLoop]
  | cons c cs ih =>
    by_cases h : c = '#'
    · simp [hrefLoop, h, hrefLoop_false]
    · simp [hrefLoop, h, ih, push_eq, String.append_assoc, ← string_mk_append]

theorem href_render (s a : String) (cs : List (Option ASTNode)) (g : Context) :
    traversal (some (ASTNode.mk HREF_H s a cs)) g
      = .ok ("[" ++ withoutHashes (afterFirstHash s) ++ "](" ++ beforeFirstHash s ++ ") \n",
             g) := by
  rw [traversal_HREF_H]
  simp only [traverseHref, ASTNode.data, hrefLoop_true, getMapping_HREF_H]
  have e1 : "" ++ String.mk (s.data.takeWhile (fun c => c != '#')) = beforeFirstHash s := by
    apply String.ext; simp [String.data_append, beforeFirstHash]
  have e2 : "" ++ String.mk (((s.data.dropWhile (fun c => c != '#')).drop 1).filter
                     (fun c => c != '#')) = withoutHashes (afterFirstHash s) := by
    apply String.ext; simp [String.data_append, withoutHashes, afterFirstHash]
  rw [e1, e2]
  have e3 : ∀ x y : String, "" ++ "[" ++ x ++ "]" ++ "(" ++ y ++ ")" ++ " \n"
      = "[" ++ x ++ "](" ++ y ++ ") \n" := by
    intro x y
    apply String.ext
    simp [String.data_append]
  rw [e3]

/-- The string loops of the `STRING_H` case append a space and the render for
every present child, in order. -/
theorem stringLoop_eq (cs : List (Option ASTNode)) (acc : String) (g : Context) :
    stringLoop cs acc g
      = (renderEach (present cs) g).map
          (fun p => (acc ++ concatAll (p.1.map (fun r => " " ++ r)), p.2)) := by
  induction cs generalizing acc g with
  | nil => simp [stringLoop, renderEach, present, concatAll, Except.map]
  | cons c cs ih =>
    cases c with
    | none =>
      simp only [stringLoop, Option.isSome_none, Bool.false_eq_true, if_false, ih]
      rfl
    | some n =>
      have hp : present (some n :: cs) = some n :: present cs := rfl
      rw [hp]
      simp only [stringLoop, Option.isSome_some, if_true, renderEach]
      cases h : traversal (some n) g with
      | error e => rfl
      | ok p =>
        obtain ⟨r, g1⟩ := p
        simp only [bind, Except.bind, ih]
        cases h2 : renderEach (present cs) g1 with
        | error e => rfl
        | ok q => simp [Except.map, concatAll, String.append_assoc]

theorem string_render (t a : String) (ty1 : NodeType) (d1 a1 : String)
    (gs rest : List (Option ASTNode)) (g : Context) :
    traversal (some (ASTNode.mk STRING_H t a (some (ASTNode.mk ty1 d1 a1 gs) :: rest))) g
      = (renderEach (present (some (ASTNode.mk ty1 d1 a1 gs) :: rest)) g >>= fun p =>
          (renderEach (present gs) p.2).map (fun q =>
            (t ++ concatAll (p.1.map (fun r => " " ++ r))
               ++ concatAll (q.1.map (fun r => " " ++ r)), q.2))) := by
  rw [traversal_STRING_H_some]
  simp only [stringLoop_eq]
  cases renderEach (present (some (ASTNode.mk ty1 d1 a1 gs) :: rest)) g with
  | error e => rfl
  | ok p => simp [bind, Except.bind, Except.map]

theorem paragraphLoop_eq (ys : List ASTNode) (acc : String) :
    paragraphLoop (ys.map some) acc = .ok (acc ++ concatAll (ys.map segmentText)) := by
  induction ys generalizing acc with
  | nil => simp [paragraphLoop, concatAll]
  | cons y ys ih =>
    simp only [List.map_cons, paragraphLoop, deref, bind, Except.bind, ih, concatAll]
    simp [traverseFont, segmentText, String.append_assoc]

theorem paragraph_render (t a : String) (wty : NodeType) (wd wa : String)
    (ys : List ASTNode) (rest : List (Option ASTNode)) (g : Context) :
    traversal (some (ASTNode.mk PAR_H t a (some (ASTNode.mk wty wd wa (ys.map some)) :: rest))) g
      = .ok (concatAll (ys.map segmentText) ++ "\n\n", g) := by
  rw [traversal_PAR_H]
  simp [traverseParagraph, ASTNode.children, deref, bind, Except.bind, paragraphLoop_eq,
    Except.map]

theorem figureLoop_eq (ys : List ASTNode) (acc : String) :
    figureLoop (ys.map some) acc = .ok (acc ++ concatAll (ys.map captionFragment)) := by
  induction ys generalizing acc with
  | nil => simp [figureLoop, concatAll]
  | cons y ys ih =>
    simp only [List.map_cons, figureLoop, deref, bind, Except.bind, concatAll, captionFragment]
    split
    · rw [ih]
      simp [String.append_assoc]
    · rw [ih]
      simp

theorem figure_render (p a : String) (ys : List ASTNode) (g : Context) :
    traversal (some (ASTNode.mk FIGURE_H p a (ys.map some))) g
      = .ok ("![](" ++ p ++ ")" ++ concatAll (ys.map captionFragment) ++ "\n\n", g) := by
  rw [traversal_FIGURE_H]
  simp [traverseFigure, ASTNode.children, ASTNode.data, bind, Except.bind, figureLoop_eq,
    Except.map]

theorem concatAll_no_caption (ys : List ASTNode) (h : ∀ y ∈ ys, y.node_type ≠ CAPTION_H) :
    concatAll (ys.map captionFragment) = "" := by
  induction ys with
  | nil => rfl
  | cons y ys ih =>
    simp only [List.map_cons, concatAll, captionFragment, h y (List.mem_cons_self _ _),
      if_false]
    rw [ih (fun x hx => h x (List.mem_cons_of_mem _ hx))]
    rfl

theorem takeWhile_no_hash (l : List Char) (h : '#' ∉ l) :
    l.takeWhile (fun c => c != '#') = l := by
  induction l with
  | nil => rfl
  | cons c l ih =>
    have hc : c ≠ '#' := fun e => h (by simp [e])
    have hl : '#' ∉ l := fun e => h (by simp [e])
    simp [List.takeWhile_cons, hc, ih hl]

theorem dropWhile_no_hash (l : List Char) (h : '#' ∉ l) :
    l.dropWhile (fun c => c != '#') = [] := by
  induction l with
  | nil => rfl
  | cons c l ih =>
    have hc : c ≠ '#' := fun e => h (by simp [e])
    have hl : '#' ∉ l := fun e => h (by simp [e])
    simp [List.dropWhile_cons, hc, ih hl]

theorem filter_no_hash (l : List Char) (h : '#' ∉ l) :
    l.filter (fun c => c != '#') = l := by
  induction l with
  | nil => rfl
  | cons c l ih =>
    have hc : c ≠ '#' := fun e => h (by simp [e])
    have hl : '#' ∉ l := fun e => h (by simp [e])
    simp [List.filter_cons, hc, ih hl]

theorem takeWhile_to_hash (x rest : List Char) (h : '#' ∉ x) :
    (x ++ '#' :: rest).takeWhile (fun c => c != '#') = x := by
  induction x with
  | nil => simp [List.takeWhile_cons]
  | cons c l ih =>
    have hc : c ≠ '#' := fun e => h (by simp [e])
    have hl : '#' ∉ l := fun e => h (by simp [e])
    simp [List.takeWhile_cons, hc, ih hl]

theorem dropWhile_to_hash (x rest : List Char) (h : '#' ∉ x) :
    (x ++ '#' :: rest).dropWhile (fun c => c != '#') = '#' :: rest := by
  induction x with
  | nil => simp [List.dropWhile_cons]
  | cons c l ih =>
    have hc : c ≠ '#' := fun e => h (by simp [e])
    have hl : '#' ∉ l := fun e => h (by simp [e])
    simp [List.dropWhile_cons, hc, ih hl]

theorem split_without_hash (s : String) (h : '#' ∉ s.data) :
    beforeFirstHash s = s ∧ afterFirstHash s = "" := by
  constructor
  · apply String.ext; simp [beforeFirstHash, takeWhile_no_hash _ h]
  · apply String.ext; simp [afterFirstHash, dropWhile_no_hash _ h]

theorem split_at_first_hash (x y : String) (hx : '#' ∉ x.data) :
    beforeFirstHash (x ++ "#" ++ y) = x ∧ afterFirstHash (x ++ "#" ++ y) = y := by
  have e : (x ++ "#" ++ y).data = x.data ++ '#' :: y.data := by
    simp [String.data_append]
  constructor
  · apply String.ext; simp [beforeFirstHash, e, takeWhile_to_hash _ _ hx]
  · apply String.ext; simp [afterFirstHash, e, dropWhile_to_hash _ _ hx]

theorem withoutHashes_of_no_hash (y : String) (hy : '#' ∉ y.data) : withoutHashes y = y := by
  apply String.ext; simp [withoutHashes, filter_no_hash _ hy]

/-! ### Inline kinds and the default case -/

theorem isEmpty_data_iff (t : String) : t.data.isEmpty = true ↔ t = "" := by
  constructor
  · intro h
    apply String.ext
    simpa [List.isEmpty_iff] using h
  · intro h
    subst h
    rfl

theorem verbatim_render (t a : String) (cs : List (Option ASTNode)) (g : Context) :
    traversal (some (ASTNode.mk VERBATIM_H t a cs)) g
      = .ok ("\n\n```\n" ++ t ++ "\n```\n\n", g) := by
  rw [traversal_some]
  have e : getMapping VERBATIM_H = "```" := rfl
  simp only [ASTNode.node_type, traverseVerbatim, ASTNode.data, e]
  congr 1
  apply Prod.ext
  · apply String.ext; simp [String.data_append]
  · rfl

theorem bold_render (t a : String) (cs : List (Option ASTNode)) (g : Context) :
    traversal (some (ASTNode.mk TEXTBF_H t a cs)) g = .ok ("**" ++ t ++ "** ", g) := by
  rw [traversal_some]
  simp only [ASTNode.node_type, traverseFont, ASTNode.data, getMapping_TEXTBF_H]
  congr 1
  apply Prod.ext
  · apply String.ext; simp [String.data_append]
  · rfl

theorem italic_render (t a : String) (cs : List (Option ASTNode)) (g : Context) :
    traversal (some (ASTNode.mk TEXTIT_H t a cs)) g = .ok ("*" ++ t ++ "* ", g) := by
  rw [traversal_some]
  simp only [ASTNode.node_type, traverseFont, ASTNode.data, getMapping_TEXTIT_H]
  congr 1
  apply Prod.ext
  · apply String.ext; simp [String.data_append]
  · rfl

theorem title_render (t a : String) (cs : List (Option ASTNode)) (g : Context) :
    traversal (some (ASTNode.mk TITLE_H t a cs)) g
      = .ok (if t = "" then "" else "# " ++ t ++ "\n\n", g) := by
  rw [traversal_some]
  have e : getMapping TITLE_H = "#" := rfl
  simp only [ASTNode.node_type, traverseTitle, ASTNode.data, e, isEmpty_data_iff]
  by_cases h : t = ""
  · simp [h]
  · simp only [h, if_false]
    congr 1

theorem date_render (t a : String) (cs : List (Option ASTNode)) (g : Context) :
    traversal (some (ASTNode.mk DATE_H t a cs)) g
      = .ok (if t = "" then "" else "Date: " ++ t ++ "\n\n", g) := by
  rw [traversal_some]
  have e : getMapping DATE_H = "Date: " := rfl
  simp only [ASTNode.node_type, traverseDate, ASTNode.data, e, isEmpty_data_iff]

theorem default_render (ty : NodeType) (d a : String) (cs : List (Option ASTNode))
    (g : Context) (h : ty ∈ defaultKinds) :
    traversal (some (ASTNode.mk ty d a cs)) g
      = (renderEach cs g).map (fun p => (concatAll p.1, p.2)) := by
  rw [traversal_default ty d a cs g h, childrenLoop_eq]
  cases renderEach cs g with
  | error e => rfl
  | ok p => simp [Except.map]

/-! ### The methods on an object against the table-free renderer -/

theorem agrees_new : Agrees converter.new := fun _ => rfl

theorem lookup_append_default (m : List (NodeType × String)) (k k1 : NodeType) :
    ((m ++ [(k, "")]).lookup k1).getD "" = (m.lookup k1).getD "" := by
  induction m with
  | nil =>
    by_cases h : k1 = k
    · subst h; simp [List.lookup]
    · have : (k1 == k) = false := by simpa using h
      simp [List.lookup, this]
  | cons p m ih =>
    obtain ⟨k2, v⟩ := p
    by_cases h : k1 = k2
    · subst h; simp [List.lookup]
    · have : (k1 == k2) = false := by simpa using h
      simp only [List.cons_append, List.lookup, this]
      exact ih

theorem mapIndex_value (m : List (NodeType × String)) (k : NodeType) :
    (mapIndex m k).1 = (m.lookup k).getD "" := by
  unfold mapIndex
  cases m.lookup k <;> rfl

theorem mapIndex_lookup (m : List (NodeType × String)) (k k1 : NodeType) :
    ((mapIndex m k).2.lookup k1).getD "" = (m.lookup k1).getD "" := by
  unfold mapIndex
  cases h : m.lookup k with
  | none => exact lookup_append_default m k k1
  | some v => rfl

theorem getMapping_agrees (c : converter) (k : NodeType) (h : Agrees c) :
    (c.getMapping k).1 = getMapping k ∧ Agrees (c.getMapping k).2 := by
  constructor
  · simp only [converter.getMapping, mapIndex_value, h k]
  · intro k1
    simp only [converter.getMapping, mapIndex_lookup, h k1]

theorem sim_pure {α : Type} (a : α) : Simulates (pure a : Method α) (.ok a) := by
  intro c hc
  exact ⟨rfl, fun a1 c1 e => by cases e; exact hc⟩

theorem sim_throw {α : Type} (e : Fault) : Simulates (throw e : Method α) (.error e) := by
  intro c _
  exact ⟨rfl, fun a1 c1 h => by cases h⟩

theorem sim_lift {α : Type} (x : Except Fault α) : Simulates (monadLift x : Method α) x := by
  intro c hc
  cases x with
  | error e => exact ⟨rfl, fun a1 c1 h => by cases h⟩
  | ok a => exact ⟨rfl, fun a1 c1 h => by cases h; exact hc⟩

theorem sim_marker (k : NodeType) : Simulates (converter.marker k) (.ok (getMapping k)) := by
  intro c hc
  obtain ⟨h1, h2⟩ := getMapping_agrees c k hc
  refine ⟨?_, ?_⟩
  · show Except.map Prod.fst (Except.ok (c.getMapping k)) = _
    rw [except_map_ok, h1]
  · intro a c1 e
    have e1 : (Except.ok (c.getMapping k) : Except Fault _) = .ok (a, c1) := e
    cases e1
    exact h2

theorem sim_bind {α β : Type} {x : Method α} {p : Except Fault α} {f : α → Method β}
    {q : α → Except Fault β} (hx : Simulates x p) (hf : ∀ a, Simulates (f a) (q a)) :
    Simulates (x >>= f) (p >>= q) := by
  intro c hc
  obtain ⟨h1, h2⟩ := hx c hc
  have hb : (x >>= f) c = (x c >>= fun p => f p.1 p.2) := rfl
  rw [hb]
  cases hxc : x c with
  | error e =>
    rw [hxc] at h1
    rw [← h1]
    exact ⟨rfl, fun a1 c1 h => by cases h⟩
  | ok p =>
    obtain ⟨a, c1⟩ := p
    rw [hxc] at h1
    rw [← h1]
    exact hf a c1 (h2 a c1 hxc)

theorem sim_ite {α : Type} {b : Prop} [Decidable b] {x y : Method α}
    {p q : Except Fault α} (hx : Simulates x p) (hy : Simulates y q) :
    Simulates (if b then x else y) (if b then p else q) := by
  by_cases h : b
  · simpa [h] using hx
  · simpa [h] using hy

theorem sim_verbatim (root : ASTNode) (type : NodeType) :
    Simulates (converter.traverseVerbatim root type) (.ok (traverseVerbatim root type)) :=
  sim_bind (sim_marker type) (fun _ => sim_bind (sim_marker type) (fun _ => sim_pure _))

theorem sim_font (root : ASTNode) (type : NodeType) :
    Simulates (converter.traverseFont root type) (.ok (traverseFont root type)) :=
  sim_bind (sim_marker type) (fun _ => sim_bind (sim_marker type) (fun _ => sim_pure _))

theorem sim_reference (root : ASTNode) (type : NodeType) :
    Simulates (converter.traverseReference root type) (.ok (traverseReference root type)) :=
  sim_bind (sim_marker REF_H) (fun _ => sim_pure _)

theorem sim_href (root : ASTNode) (type : NodeType) :
    Simulates (converter.traverseHref root type) (.ok (traverseHref root type)) :=
  sim_bind (sim_marker HREF_H) (fun _ => sim_pure _)

theorem sim_date (root : ASTNode) (type : NodeType) :
    Simulates (converter.traverseDate root type) (.ok (traverseDate root type)) := by
  unfold converter.traverseDate traverseDate
  split
  · exact sim_pure _
  · exact sim_bind (sim_marker type) (fun _ => sim_pure _)

theorem sim_title (root : ASTNode) (type : NodeType) :
    Simulates (converter.traverseTitle root type) (.ok (traverseTitle root type)) := by
  unfold converter.traverseTitle traverseTitle
  split
  · exact sim_pure _
  · exact sim_bind (sim_marker type) (fun _ => sim_pure _)

theorem sim_figureLoop (cs : List (Option ASTNode)) (result : String) :
    Simulates (converter.figureLoop cs result) (figureLoop cs result) := by
  induction cs generalizing result with
  | nil => exact sim_pure _
  | cons child rest ih =>
    unfold converter.figureLoop figureLoop
    refine sim_bind (sim_lift _) (fun node => ?_)
    refine sim_ite ?_ (ih _)
    exact sim_bind (q := fun mark =>
        figureLoop rest (result ++ (" " ++ mark ++ " \"" ++ node.data ++ "\"")))
      (sim_marker CAPTION_H) (fun _ => ih _)

theorem sim_figure (root : ASTNode) (type : NodeType) :
    Simulates (converter.traverseFigure root type) (traverseFigure root type) := by
  unfold converter.traverseFigure traverseFigure
  exact sim_bind (q := fun mark => do
      let result ← figureLoop root.children (mark ++ "(" ++ root.data ++ ")")
      .ok (result ++ "\n\n"))
    (sim_marker FIGURE_H)
    (fun _ => sim_bind (sim_figureLoop _ _) (fun _ => sim_pure _))

theorem sim_paragraphLoop (cs : List (Option ASTNode)) (result : String) :
    Simulates (converter.paragraphLoop cs result) (paragraphLoop cs result) := by
  induction cs generalizing result with
  | nil => exact sim_pure _
  | cons child rest ih =>
    unfold converter.paragraphLoop paragraphLoop
    refine sim_bind (sim_lift _) (fun node => ?_)
    exact sim_bind (q := fun font => paragraphLoop rest (result ++ font))
      (sim_font node node.node_type) (fun _ => ih _)

theorem sim_paragraph (root : ASTNode) (type : NodeType) :
    Simulates (converter.traverseParagraph root type) (traverseParagraph root type) := by
  unfold converter.traverseParagraph traverseParagraph
  cases root.children with
  | nil => exact sim_throw _
  | cons temp rest =>
    exact sim_bind (sim_lift _) (fun _ =>
      sim_bind (sim_paragraphLoop _ _) (fun _ => sim_pure _))

theorem sim_traversal_none (g : Context) :
    Simulates (converter.traversal none g) (traversal none g) := by
  rw [converter.traversal, traversal]
  exact sim_pure _

theorem sim_childrenLoop (cs : List (Option ASTNode))
    (h : ∀ o ∈ cs, ∀ g, Simulates (converter.traversal o g) (traversal o g))
    (acc : String) (g : Context) :
    Simulates (converter.childrenLoop cs acc g) (childrenLoop cs acc g) := by
  induction cs generalizing acc g with
  | nil =>
    rw [converter.childrenLoop, childrenLoop]
    exact sim_pure _
  | cons c cs ih =>
    rw [converter.childrenLoop, childrenLoop]
    exact sim_bind (h c (List.mem_cons_self _ _) g)
      (fun ⟨_, _⟩ => ih (fun o ho => h o (List.mem_cons_of_mem _ ho)) _ _)

theorem sim_stringLoop (cs : List (Option ASTNode))
    (h : ∀ o ∈ cs, ∀ g, Simulates (converter.traversal o g) (traversal o g))
    (str : String) (g : Context) :
    Simulates (converter.stringLoop cs str g) (stringLoop cs str g) := by
  induction cs generalizing str g with
  | nil =>
    rw [converter.stringLoop, stringLoop]
    exact sim_pure _
  | cons c cs ih =>
    have ih1 := ih (fun o ho => h o (List.mem_cons_of_mem _ ho))
    rw [converter.stringLoop, stringLoop]
    exact sim_ite (sim_bind (h c (List.mem_cons_self _ _) g) (fun ⟨_, _⟩ => ih1 _ _))
      (ih1 _ _)

theorem sim_listLoop (cs : List (Option ASTNode))
    (h : ∀ o ∈ cs, ∀ g, Simulates (converter.traversal o g) (traversal o g))
    (s res : String) (g : Context) :
    Simulates (converter.listLoop cs s res g) (listLoop cs s res g) := by
  induction cs generalizing res g with
  | nil =>
    rw [converter.listLoop, listLoop]
    exact sim_pure _
  | cons c cs ih =>
    rw [converter.listLoop, listLoop]
    exact sim_bind (h c (List.mem_cons_self _ _) g)
      (fun ⟨_, _⟩ => ih (fun o ho => h o (List.mem_cons_of_mem _ ho)) _ _)

theorem sim_innerLoop (cs : List (Option ASTNode))
    (h : ∀ o ∈ cs, ∀ g, Simulates (converter.traversal o g) (traversal o g))
    (res : String) (n : Int) (g : Context) :
    Simulates (converter.innerLoop cs res n g) (innerLoop cs res n g) := by
  induction cs generalizing res n g with
  | nil =>
    rw [converter.innerLoop, innerLoop]
    exact sim_pure _
  | cons c cs ih =>
    have ih1 := ih (fun o ho => h o (List.mem_cons_of_mem _ ho))
    rw [converter.innerLoop, innerLoop]
    refine sim_bind (sim_lift _) (fun node => ?_)
    exact sim_ite (sim_bind (h c (List.mem_cons_self _ _) g) (fun ⟨_, _⟩ => ih1 _ _ _))
      (ih1 _ _ _)

theorem sim_cellLoop (cs : List (Option ASTNode))
    (h : ∀ c, some c ∈ cs → ∀ res n g,
      Simulates (converter.innerLoop c.children res n g) (innerLoop c.children res n g))
    (res : String) (n : Int) (g : Context) :
    Simulates (converter.cellLoop cs res n g) (cellLoop cs res n g) := by
  induction cs generalizing res n g with
  | nil =>
    rw [converter.cellLoop, cellLoop]
    exact sim_pure _
  | cons c cs ih =>
    have ih1 := ih (fun c hc => h c (List.mem_cons_of_mem _ hc))
    cases c with
    | none =>
      rw [converter.cellLoop, cellLoop]
      exact sim_throw _
    | some node =>
      obtain ⟨ty, d, a, inner⟩ := node
      rw [converter.cellLoop, cellLoop]
      exact sim_ite
        (sim_bind (h _ (List.mem_cons_self _ _) _ _ _) (fun ⟨_, _, _⟩ => ih1 _ _ _))
        (ih1 _ _ _)

theorem sim_rowLoop (cs : List (Option ASTNode))
    (h : ∀ c, some c ∈ cs → ∀ res n g,
      Simulates (converter.cellLoop c.children res n g) (cellLoop c.children res n g))
    (res : String) (n : Int) (g : Context) :
    Simulates (converter.rowLoop cs res n g) (rowLoop cs res n g) := by
  induction cs generalizing res n g with
  | nil =>
    rw [converter.rowLoop, rowLoop]
    exact sim_pure _
  | cons c cs ih =>
    have ih1 := ih (fun c hc => h c (List.mem_cons_of_mem _ hc))
    cases c with
    | none =>
      rw [converter.rowLoop, rowLoop]
      exact sim_throw _
    | some node =>
      obtain ⟨ty, d, a, cells⟩ := node
      rw [converter.rowLoop, rowLoop]
      exact sim_ite
        (sim_bind (h _ (List.mem_cons_self _ _) _ _ _) (fun ⟨_, _, _⟩ => ih1 _ _ _))
        (ih1 _ _ _)

theorem except_map_eq_bind {ε α β : Type} (x : Except ε α) (f : α → β) :
    x.map f = (x >>= fun a => .ok (f a)) := by
  cases x <;> rfl

theorem sim_traverseList (ty : NodeType) (d a : String) (cs : List (Option ASTNode))
    (type : NodeType) (g : Context)
    (ih : ∀ c, some c ∈ cs → LoopsSimulate c.children) :
    Simulates (converter.traverseList (ASTNode.mk ty d a cs) type g)
      (traverseList (ASTNode.mk ty d a cs) type g) := by
  cases cs with
  | nil =>
    rw [converter.traverseList, traverseList]
    exact sim_ite (sim_throw _) (sim_throw _)
  | cons c rest =>
    cases c with
    | none =>
      rw [converter.traverseList, traverseList]
      exact sim_ite (sim_throw _) (sim_throw _)
    | some node =>
      obtain ⟨ty1, d1, a1, items⟩ := node
      rw [converter.traverseList, traverseList]
      exact sim_ite (sim_throw _)
        (sim_bind ((ih _ (List.mem_cons_self _ _)).2.2.1 _ _ _) (fun ⟨_, _⟩ => sim_pure _))

theorem sim_step (ty : NodeType) (d a : String) (cs : List (Option ASTNode))
    (ih : ∀ c, some c ∈ cs →
      (∀ g, Simulates (converter.traversal (some c) g) (traversal (some c) g))
      ∧ LoopsSimulate c.children) :
    (∀ g, Simulates (converter.traversal (some (ASTNode.mk ty d a cs)) g)
            (traversal (some (ASTNode.mk ty d a cs)) g))
    ∧ LoopsSimulate cs := by
  have hel : ∀ o ∈ cs, ∀ g, Simulates (converter.traversal o g) (traversal o g) := by
    intro o ho
    cases o with
    | none => exact sim_traversal_none
    | some c => exact (ih c ho).1
  have hloops : LoopsSimulate cs :=
    ⟨sim_childrenLoop cs hel, sim_stringLoop cs hel, sim_listLoop cs hel,
      sim_rowLoop cs (fun c hc => (ih c hc).2.2.2.2.2.1),
      sim_cellLoop cs (fun c hc => (ih c hc).2.2.2.2.2.2),
      sim_innerLoop cs hel⟩
  refine ⟨?_, hloops⟩
  intro g
  rw [converter.traversal, traversal]
  rcases kind_cases ty with h | h | h | h | h | h | h | h | h | h | h | h
  · -- list item
    subst h
    simp only [ASTNode.node_type]
    cases cs with
    | nil =>
      rw [converter.traversalItem, traversalItem]
      exact sim_throw _
    | cons c rest =>
      rw [converter.traversalItem, traversalItem]
      exact hel c (List.mem_cons_self _ _) g
  · -- plain string
    subst h
    simp only [ASTNode.node_type]
    cases cs with
    | nil =>
      rw [converter.traversalString, traversalString]
      exact sim_ite (sim_pure _) (sim_bind (hloops.2.1 _ _) (fun ⟨_, _⟩ => sim_pure _))
    | cons c rest =>
      cases c with
      | none =>
        rw [converter.traversalString, traversalString]
        exact sim_ite (sim_pure _) (sim_bind (hloops.2.1 _ _) (fun ⟨_, _⟩ => sim_throw _))
      | some node =>
        obtain ⟨ty1, d1, a1, gs⟩ := node
        rw [converter.traversalString, traversalString]
        exact sim_ite (sim_pure _) (sim_bind (hloops.2.1 _ _) (fun ⟨_, _⟩ =>
          sim_ite (sim_pure _) ((ih _ (List.mem_cons_self _ _)).2.2.1 _ _)))
  · -- section
    subst h
    simp only [ASTNode.node_type]
    rw [converter.traverseSection, traverseSection]
    exact sim_bind (q := fun mark => do
        let (r, g2) ← childrenLoop cs "" ⟨g.section_no + 1, 0, 0, g.nested⟩
        .ok (mark ++ " " ++ myString (g.section_no + 1) ++ " " ++ d ++ "\n\n" ++ r
          ++ "\n\n", g2))
      (sim_marker SECTION_H)
      (fun _ => sim_bind (hloops.1 _ _) (fun ⟨_, _⟩ => sim_pure _))
  · -- subsection
    subst h
    simp only [ASTNode.node_type]
    rw [converter.traverseSubSection, traverseSubSection]
    exact sim_bind (q := fun mark => do
        let (r, g2) ← childrenLoop cs "" ⟨g.section_no, g.subsection_no + 1, 0, g.nested⟩
        .ok (mark ++ " " ++ myString g.section_no ++ "." ++ myString (g.subsection_no + 1)
          ++ " " ++ d ++ "\n\n" ++ r ++ "\n\n", g2))
      (sim_marker SUBSECTION_H)
      (fun _ => sim_bind (hloops.1 _ _) (fun ⟨_, _⟩ => sim_pure _))
  · -- subsubsection
    subst h
    simp only [ASTNode.node_type]
    rw [converter.traverseSubsubSection, traverseSubsubSection]
    exact sim_bind (q := fun mark => do
        let (r, g2) ← childrenLoop cs ""
          ⟨g.section_no, g.subsection_no, g.subsubsection_no + 1, g.nested⟩
        .ok (mark ++ " " ++ myString g.section_no ++ "." ++ myString g.subsection_no ++ "."
          ++ myString (g.subsubsection_no + 1) ++ " " ++ d ++ "\n\n" ++ r ++ "\n\n", g2))
      (sim_marker SUBSUBSECTION_H)
      (fun _ => sim_bind (hloops.1 _ _) (fun ⟨_, _⟩ => sim_pure _))
  · -- itemize
    subst h
    simp only [ASTNode.node_type]
    exact sim_bind (sim_traverseList _ _ _ _ _ _ (fun c hc => (ih c hc).2))
      (fun ⟨_, _⟩ => sim_pure _)
  · -- enumerate
    subst h
    simp only [ASTNode.node_type]
    exact sim_bind (sim_traverseList _ _ _ _ _ _ (fun c hc => (ih c hc).2))
      (fun ⟨_, _⟩ => sim_pure _)
  · -- figure
    subst h
    simp only [ASTNode.node_type]
    rw [except_map_eq_bind]
    exact sim_bind (sim_figure _ _) (fun _ => sim_pure _)
  · -- paragraph
    subst h
    simp only [ASTNode.node_type]
    rw [except_map_eq_bind]
    exact sim_bind (sim_paragraph _ _) (fun _ => sim_pure _)
  · -- table
    subst h
    simp only [ASTNode.node_type]
    cases cs with
    | nil =>
      rw [converter.traverseTable, traverseTable]
      exact sim_bind (hloops.2.2.2.1 _ _ _) (fun ⟨_, _, _⟩ => sim_throw _)
    | cons c rest =>
      cases c with
      | none =>
        rw [converter.traverseTable, traverseTable]
        exact sim_bind (hloops.2.2.2.1 _ _ _) (fun ⟨_, _, _⟩ => sim_throw _)
      | some node =>
        obtain ⟨ty1, d1, a1, rows⟩ := node
        rw [converter.traverseTable, traverseTable]
        exact sim_bind (hloops.2.2.2.1 _ _ _) (fun ⟨_, _, _⟩ =>
          sim_bind ((ih _ (List.mem_cons_self _ _)).2.2.2.2.1 _ _ _) (fun ⟨_, _, _⟩ =>
            sim_bind (sim_lift _) (fun _ => sim_pure _)))
  · -- inline kinds
    rcases h with h | h | h | h | h | h | h | h <;> subst h <;>
      simp only [ASTNode.node_type]
    · exact sim_bind (q := fun s => .ok (s, g)) (sim_verbatim _ _) (fun _ => sim_pure _)
    · exact sim_bind (q := fun s => .ok (s, g)) (sim_font _ _) (fun _ => sim_pure _)
    · exact sim_bind (q := fun s => .ok (s, g)) (sim_font _ _) (fun _ => sim_pure _)
    · exact sim_bind (q := fun s => .ok (s, g)) (sim_title _ _) (fun _ => sim_pure _)
    · exact sim_bind (q := fun s => .ok (s, g)) (sim_date _ _) (fun _ => sim_pure _)
    · exact sim_bind (q := fun s => .ok (s, g)) (sim_reference _ _) (fun _ => sim_pure _)
    · exact sim_pure _
    · exact sim_bind (q := fun s => .ok (s, g)) (sim_href _ _) (fun _ => sim_pure _)
  · -- kinds of the default case
    simp only [defaultKinds, List.mem_cons, List.mem_singleton, List.not_mem_nil,
      or_false] at h
    rcases h with h | h | h | h | h | h | h | h | h | h | h | h <;> subst h <;>
      simp only [ASTNode.node_type] <;>
      rw [converter.traverseChildren, traverseChildren] <;>
      exact hloops.1 _ _

/-- Every node rendered on an object does what the table-free renderer does,
and so do the loops over its children. -/
theorem sim_node (n : ASTNode) :
    (∀ g, Simulates (converter.traversal (some n) g) (traversal (some n) g))
    ∧ LoopsSimulate n.children :=
  ASTNode.induct
    (P := fun n => (∀ g, Simulates (converter.traversal (some n) g) (traversal (some n) g))
      ∧ LoopsSimulate n.children)
    sim_step n

/-- The renderer run on an object whose table agrees with the constructor's
returns what the table-free renderer returns and leaves such an object. -/
theorem sim_traversal (root : Option ASTNode) (g : Context) :
    Simulates (converter.traversal root g) (traversal root g) := by
  cases root with
  | none => exact sim_traversal_none g
  | some n => exact (sim_node n).1 g

/-! ### The list filter applied twice -/

theorem getlinesFrom_newline_free (stream line : List Char) (h : '\n' ∉ line) :
    ∀ l ∈ getlinesFrom stream line, '\n' ∉ l.data := by
  induction stream generalizing line with
  | nil =>
    intro l hl
    simp only [getlinesFrom] at hl
    split at hl
    · simp at hl
    · simp only [List.mem_singleton] at hl
      subst hl
      exact h
  | cons c stream ih =>
    intro l hl
    simp only [getlinesFrom] at hl
    split at hl
    · simp only [List.mem_cons] at hl
      rcases hl with hl | hl
      · subst hl
        exact h
      · exact ih [] (by simp) l hl
    · rename_i hc
      exact ih (line ++ [c]) (by simp [h, Ne.symm hc]) l hl

/-- No line read by `getline` holds a newline. -/
theorem getlines_newline_free (res : String) : ∀ l ∈ getlines res, '\n' ∉ l.data :=
  getlinesFrom_newline_free res.data [] (by simp)

theorem specKeptLines_subset (ls : List String) (prev : Option String) :
    ∀ l ∈ specKeptLines prev ls, l ∈ ls := by
  induction ls generalizing prev with
  | nil => intro l hl; simp [specKeptLines] at hl
  | cons x ls ih =>
    intro l hl
    simp only [specKeptLines] at hl
    split at hl
    · split at hl
      · simp only [List.mem_cons] at hl
        rcases hl with hl | hl
        · simp [hl]
        · exact List.mem_cons_of_mem _ (ih _ l hl)
      · exact List.mem_cons_of_mem _ (ih _ l hl)
    · simp only [List.mem_cons] at hl
      rcases hl with hl | hl
      · simp [hl]
      · exact List.mem_cons_of_mem _ (ih _ l hl)

/-- Keeping lines a second time, from the same previously kept line, drops
nothing more. -/
theorem specKeptLines_idem (ls : List String) (prev : Option String) :
    specKeptLines prev (specKeptLines prev ls) = specKeptLines prev ls := by
  induction ls generalizing prev with
  | nil => simp [specKeptLines]
  | cons x ls ih =>
    by_cases ht : trimmed x = "1."
    · by_cases hd : keptEndsWithDot prev = true
      · simp only [specKeptLines, ht, hd, if_true, ih]
      · simp only [specKeptLines, ht, hd, if_true, if_false, ih]
        exact ih prev
    · simp only [specKeptLines, ht, if_false, ih]

theorem filterList_idem (res : String) : filterList (filterList res) = filterList res := by
  rw [filterList_spec res]
  rw [filterList_unlines _ (fun l hl =>
    getlines_newline_free res l (specKeptLines_subset _ _ l hl))]
  rw [specKeptLines_idem]

/-! ### Trees without a counter kind -/

theorem mem_subtreeList (cs : List (Option ASTNode)) (c m : ASTNode)
    (hc : some c ∈ cs) (hm : m ∈ subtree c) : m ∈ subtreeList cs := by
  induction cs with
  | nil => simp at hc
  | cons x cs ih =>
    simp only [subtreeList, List.mem_append]
    rcases List.mem_cons.1 hc with h | h
    · left
      rw [← h]
      simpa [subtreeOption] using hm
    · exact Or.inr (ih h)

/-- The nodes of the tree of a present child are nodes of the tree of its
parent. -/
theorem subtree_child (ty : NodeType) (d a : String) (cs : List (Option ASTNode))
    (c m : ASTNode) (hc : some c ∈ cs) (hm : m ∈ subtree c) :
    m ∈ subtree (ASTNode.mk ty d a cs) := by
  rw [subtree]
  exact List.mem_cons_of_mem _ (mem_subtreeList cs c m hc hm)

theorem subtree_self (n : ASTNode) : n ∈ subtree n := by
  obtain ⟨ty, d, a, cs⟩ := n
  rw [subtree]
  exact List.mem_cons_self _ _

theorem traversal_none_framed : Framed (traversal none) :=
  ⟨.ok "", fun g => by simp [traversal, Except.map]⟩

theorem childrenLoop_framed (cs : List (Option ASTNode))
    (h : ∀ o ∈ cs, Framed (traversal o)) (acc : String) :
    Framed (childrenLoop cs acc) := by
  induction cs generalizing acc with
  | nil => exact ⟨.ok acc, fun g => by simp [childrenLoop, Except.map]⟩
  | cons c cs ih =>
    obtain ⟨x, hx⟩ := h c (List.mem_cons_self _ _)
    have ih1 := ih (fun o ho => h o (List.mem_cons_of_mem _ ho))
    cases x with
    | error e =>
      exact ⟨.error e, fun g => by simp [childrenLoop, hx g, Except.map, bind, Except.bind]⟩
    | ok r =>
      obtain ⟨y, hy⟩ := ih1 (acc ++ r)
      exact ⟨y, fun g => by simp [childrenLoop, hx g, Except.map, bind, Except.bind, hy g]⟩

theorem stringLoop_framed (cs : List (Option ASTNode))
    (h : ∀ o ∈ cs, Framed (traversal o)) (str : String) :
    Framed (stringLoop cs str) := by
  induction cs generalizing str with
  | nil => exact ⟨.ok str, fun g => by simp [stringLoop, Except.map]⟩
  | cons c cs ih =>
    obtain ⟨x, hx⟩ := h c (List.mem_cons_self _ _)
    have ih1 := ih (fun o ho => h o (List.mem_cons_of_mem _ ho))
    by_cases hc : c.isSome = true
    · cases x with
      | error e =>
        exact ⟨.error e, fun g => by
          simp [stringLoop, hc, hx g, Except.map, bind, Except.bind]⟩
      | ok r =>
        obtain ⟨y, hy⟩ := ih1 (str ++ " " ++ r)
        exact ⟨y, fun g => by
          simp [stringLoop, hc, hx g, Except.map, bind, Except.bind, hy g]⟩
    · obtain ⟨y, hy⟩ := ih1 str
      exact ⟨y, fun g => by simp [stringLoop, hc, hy g]⟩

theorem innerLoop_framed (cs : List (Option ASTNode))
    (h : ∀ o ∈ cs, Framed (traversal o)) (res : String) (n : Int) :
    FramedCounting (innerLoop cs res n) := by
  induction cs generalizing res n with
  | nil => exact ⟨.ok (res, n), fun g => by simp [innerLoop, Except.map]⟩
  | cons c cs ih =>
    obtain ⟨x, hx⟩ := h c (List.mem_cons_self _ _)
    have ih1 := ih (fun o ho => h o (List.mem_cons_of_mem _ ho))
    cases c with
    | none =>
      exact ⟨.error .null_dereference, fun g => by
        simp [innerLoop, deref, Except.map, bind, Except.bind]⟩
    | some node =>
      by_cases hk : node.node_type = CELL_H
      · cases x with
        | error e =>
          exact ⟨.error e, fun g => by
            simp [innerLoop, deref, hk, hx g, Except.map, bind, Except.bind]⟩
        | ok r =>
          obtain ⟨y, hy⟩ := ih1 (res ++ (r ++ " | ")) (n + 1)
          exact ⟨y, fun g => by
            simp [innerLoop, deref, hk, hx g, Except.map, bind, Except.bind, hy g]⟩
      · obtain ⟨y, hy⟩ := ih1 res (n + 1)
        exact ⟨y, fun g => by
          simp [innerLoop, deref, hk, Except.map, bind, Except.bind, hy g]⟩

theorem cellLoop_framed (cs : List (Option ASTNode))
    (h : ∀ c, some c ∈ cs → ∀ res n, FramedCounting (innerLoop c.children res n))
    (res : String) (n : Int) :
    FramedCounting (cellLoop cs res n) := by
  induction cs generalizing res n with
  | nil => exact ⟨.ok (res, n), fun g => by simp [cellLoop, Except.map]⟩
  | cons c cs ih =>
    have ih1 := ih (fun c hc => h c (List.mem_cons_of_mem _ hc))
    cases c with
    | none =>
      exact ⟨.error .null_dereference, fun g => by simp [cellLoop, Except.map]⟩
    | some node =>
      obtain ⟨ty, d, a, inner⟩ := node
      by_cases hk : ty = CELL_H
      · obtain ⟨x, hx⟩ := h _ (List.mem_cons_self _ _) " | " n
        simp only [ASTNode.children] at hx
        cases x with
        | error e =>
          exact ⟨.error e, fun g => by
            simp [cellLoop, hk, hx g, Except.map, bind, Except.bind]⟩
        | ok p =>
          obtain ⟨y, hy⟩ := ih1 (res ++ (p.1 ++ " | ")) p.2
          exact ⟨y, fun g => by
            simp [cellLoop, hk, hx g, Except.map, bind, Except.bind, hy g]⟩
      · obtain ⟨y, hy⟩ := ih1 res n
        exact ⟨y, fun g => by simp [cellLoop, hk, hy g]⟩

theorem rowLoop_framed (cs : List (Option ASTNode))
    (h : ∀ c, some c ∈ cs → ∀ res n, FramedCounting (cellLoop c.children res n))
    (res : String) (n : Int) :
    FramedCounting (rowLoop cs res n) := by
  induction cs generalizing res n with
  | nil => exact ⟨.ok (res, n), fun g => by simp [rowLoop, Except.map]⟩
  | cons c cs ih =>
    have ih1 := ih (fun c hc => h c (List.mem_cons_of_mem _ hc))
    cases c with
    | none =>
      exact ⟨.error .null_dereference, fun g => by simp [rowLoop, Except.map]⟩
    | some node =>
      obtain ⟨ty, d, a, cells⟩ := node
      by_cases hk : ty = ROW_H
      · obtain ⟨x, hx⟩ := h _ (List.mem_cons_self _ _) "" n
        simp only [ASTNode.children] at hx
        cases x with
        | error e =>
          exact ⟨.error e, fun g => by
            simp [rowLoop, hk, hx g, Except.map, bind, Except.bind]⟩
        | ok p =>
          obtain ⟨y, hy⟩ := ih1 (res ++ finishRow p.1) p.2
          exact ⟨y, fun g => by
            simp [rowLoop, hk, hx g, Except.map, bind, Except.bind, hy g]⟩
      · obtain ⟨y, hy⟩ := ih1 res n
        exact ⟨y, fun g => by simp [rowLoop, hk, hy g]⟩

/-- The kinds whose render is a text computed from the node alone: the text is
the same from every context. -/
theorem traversal_inline_framed (ty : NodeType) (d a : String) (cs : List (Option ASTNode))
    (h : ty = VERBATIM_H ∨ ty = TEXTBF_H ∨ ty = TEXTIT_H ∨ ty = TITLE_H ∨ ty = DATE_H
          ∨ ty = REF_H ∨ ty = HRULE_H ∨ ty = HREF_H) :
    Framed (traversal (some (ASTNode.mk ty d a cs))) := by
  rcases h with h | h | h | h | h | h | h | h <;> subst h <;>
    exact ⟨.ok _, fun g => rfl⟩

/-- The node step of the frame property: a node of a kind other than the five
counter kinds is framed, and so are the loops over its children, when this
holds of its present children. -/
theorem framed_step (ty : NodeType) (d a : String) (cs : List (Option ASTNode))
    (hty : ty ∉ counterKinds)
    (ih : ∀ c, some c ∈ cs → Framed (traversal (some c)) ∧ LoopsFramed c.children) :
    Framed (traversal (some (ASTNode.mk ty d a cs))) ∧ LoopsFramed cs := by
  have hel : ∀ o ∈ cs, Framed (traversal o) := by
    intro o ho
    cases o with
    | none => exact traversal_none_framed
    | some c => exact (ih c ho).1
  have hloops : LoopsFramed cs :=
    ⟨childrenLoop_framed cs hel, stringLoop_framed cs hel,
      rowLoop_framed cs (fun c hc => (ih c hc).2.2.2.2.1),
      cellLoop_framed cs (fun c hc => (ih c hc).2.2.2.2.2),
      innerLoop_framed cs hel⟩
  refine ⟨?_, hloops⟩
  simp only [counterKinds, List.mem_cons, List.mem_singleton, List.not_mem_nil, or_false,
    not_or] at hty
  rcases kind_cases ty with h | h | h | h | h | h | h | h | h | h | h | h
  · -- list item
    subst h
    cases cs with
    | nil => exact ⟨.error .index_out_of_range, fun g => by
        rw [traversal_ITEM_H_nil]; rfl⟩
    | cons c rest =>
      obtain ⟨x, hx⟩ := hel c (List.mem_cons_self _ _)
      exact ⟨x, fun g => by rw [traversal_ITEM_H_cons]; exact hx g⟩
  · -- plain string
    subst h
    cases cs with
    | nil => exact ⟨.ok d, fun g => by rw [traversal_STRING_H_nil]; rfl⟩
    | cons c rest =>
      obtain ⟨x, hx⟩ := hloops.2.1 d
      cases c with
      | none =>
        cases x with
        | error e => exact ⟨.error e, fun g => by
            rw [traversal_STRING_H_none, hx g]; rfl⟩
        | ok r => exact ⟨.error .null_dereference, fun g => by
            rw [traversal_STRING_H_none, hx g]; rfl⟩
      | some node =>
        obtain ⟨ty1, d1, a1, gs⟩ := node
        cases x with
        | error e => exact ⟨.error e, fun g => by
            rw [traversal_STRING_H_some, hx g]; rfl⟩
        | ok r =>
          obtain ⟨y, hy⟩ := (ih _ (List.mem_cons_self _ _)).2.2.1 r
          exact ⟨y, fun g => by
            rw [traversal_STRING_H_some, hx g]
            exact hy g⟩
  · exact absurd h hty.1
  · exact absurd h hty.2.1
  · exact absurd h hty.2.2.1
  · exact absurd h hty.2.2.2.1
  · exact absurd h hty.2.2.2.2
  · -- figure
    subst h
    exact ⟨traverseFigure (ASTNode.mk FIGURE_H d a cs) FIGURE_H, fun g => by
      rw [traversal_FIGURE_H]⟩
  · -- paragraph
    subst h
    exact ⟨traverseParagraph (ASTNode.mk PAR_H d a cs) PAR_H, fun g => by
      rw [traversal_PAR_H]⟩
  · -- table
    subst h
    cases cs with
    | nil => exact ⟨.error .index_out_of_range, fun g => by
        rw [traversal_TABULAR_H_nil]; rfl⟩
    | cons c rest =>
      cases c with
      | none => exact ⟨.error .null_dereference, fun g => by
          rw [traversal_TABULAR_H_none]; rfl⟩
      | some node =>
        obtain ⟨ty1, d1, a1, rows⟩ := node
        obtain ⟨x, hx⟩ := hloops.2.2.1 "" 0
        cases x with
        | error e => exact ⟨.error e, fun g => by
            rw [traversal_TABULAR_H_some, hx g]; rfl⟩
        | ok p =>
          obtain ⟨y, hy⟩ := (ih _ (List.mem_cons_self _ _)).2.2.2.1 p.1 0
          simp only [ASTNode.children] at hy
          cases y with
          | error e => exact ⟨.error e, fun g => by
              rw [traversal_TABULAR_H_some, hx g]
              simp only [Except.map, bind, Except.bind, hy g]⟩
          | ok q =>
            exact ⟨(addSeparator q.1 p.2).map (fun result3 => result3 ++ "\n\n"), fun g => by
              rw [traversal_TABULAR_H_some, hx g]
              simp only [Except.map, bind, Except.bind, hy g]
              cases addSeparator q.1 p.2 <;> rfl⟩
  · -- inline kinds
    exact traversal_inline_framed ty d a cs h
  · -- kinds of the default case
    obtain ⟨x, hx⟩ := hloops.1 ""
    exact ⟨x, fun g => by rw [traversal_default ty d a cs g h]; exact hx g⟩

/-- Every node of a tree without a counter kind is framed, and so are the
loops over its children. -/
theorem framed_node (n : ASTNode) :
    counterFree n → Framed (traversal (some n)) ∧ LoopsFramed n.children :=
  ASTNode.induct
    (P := fun n => counterFree n → Framed (traversal (some n)) ∧ LoopsFramed n.children)
    (fun ty d a cs ih hfree =>
      framed_step ty d a cs (hfree _ (subtree_self _))
        (fun c hc => ih c hc (fun m hm => hfree m (subtree_child ty d a cs c m hc hm))))
    n

/-! ### Trees without a table, a null child or a missing first child -/

/-- The loop over the nested children of a cell appends the render of every
nested table cell, each followed by " | ", and counts every nested child. -/
theorem innerLoop_eq (inner : List (Option ASTNode)) (h : none ∉ inner)
    (acc : String) (n : Int) (g : Context) :
    innerLoop inner acc n g
      = (renderEach (inner.filter isNestedCell) g).map
          (fun p => (acc ++ concatAll (p.1.map (fun r => r ++ " | ")), n + inner.length, p.2)) := by
  induction inner generalizing acc n g with
  | nil => simp [innerLoop, renderEach, concatAll, Except.map]
  | cons c cs ih =>
    cases c with
    | none => simp at h
    | some node =>
      have h1 : none ∉ cs := fun hn => h (List.mem_cons_of_mem _ hn)
      by_cases hk : node.node_type = CELL_H
      · have hf : isNestedCell (some node) = true := by simp [isNestedCell, hk]
        simp only [innerLoop, deref, bind, Except.bind, hk, if_true, List.filter_cons, hf,
          renderEach]
        cases traversal (some node) g with
        | error e => rfl
        | ok p =>
          obtain ⟨r, g1⟩ := p
          simp only [ih h1]
          cases renderEach (cs.filter isNestedCell) g1 with
          | error e => rfl
          | ok q =>
            simp only [Except.map, List.map_cons, concatAll, String.append_assoc,
              List.length_cons, Nat.cast_add, Nat.cast_one]
            rw [add_assoc, add_comm 1]
      · have hf : isNestedCell (some node) = false := by simp [isNestedCell, hk]
        simp only [innerLoop, deref, bind, Except.bind, hk, if_false, List.filter_cons, hf,
          Bool.false_eq_true]
        rw [ih h1]
        cases renderEach (cs.filter isNestedCell) g with
        | error e => rfl
        | ok q =>
          simp only [Except.map, List.length_cons, Nat.cast_add, Nat.cast_one]
          rw [add_assoc, add_comm 1]

/-- The loop over the children of a row appends the fragment of every table
cell, built from the renders of its nested table cells. -/
theorem cellLoop_eq (cs : List ASTNode)
    (h : ∀ c ∈ cs, c.node_type = CELL_H → none ∉ c.children)
    (acc : String) (n : Int) (g : Context) :
    cellLoop (cs.map some) acc n g
      = (rowRenders cs g).map
          (fun p => (acc ++ concatAll (p.1.map cellText), n + nestedCount cs, p.2)) := by
  induction cs generalizing acc n g with
  | nil => simp [cellLoop, rowRenders, nestedCount, concatAll, Except.map]
  | cons c cs ih =>
    have ih1 := ih (fun x hx => h x (List.mem_cons_of_mem _ hx))
    obtain ⟨ty, d, a, inner⟩ := c
    by_cases hk : ty = CELL_H
    · have hin : none ∉ inner := h _ (List.mem_cons_self _ _) hk
      simp only [List.map_cons, cellLoop, hk, if_true, rowRenders, ASTNode.node_type,
        ASTNode.children, nestedCount, innerLoop_eq inner hin]
      cases renderEach (inner.filter isNestedCell) g with
      | error e => rfl
      | ok p =>
        obtain ⟨rs, g1⟩ := p
        simp only [Except.map, bind, Except.bind, ih1]
        cases rowRenders cs g1 with
        | error e => rfl
        | ok q =>
          simp only [Except.map, List.map_cons, concatAll, cellText, String.append_assoc,
            add_assoc]
    · simp only [List.map_cons, cellLoop, hk, if_false, rowRenders, ASTNode.node_type,
        nestedCount, ih1, zero_add]

theorem string_length_data (s : String) : s.length = s.data.length := rfl

/-- The end of a row block removes exactly a trailing " | ". -/
theorem finishRow_bar (y : String) : finishRow (y ++ " | ") = y ++ "\n" := by
  have h1 : (y ++ " | ").data = y.data ++ [' ', '|', ' '] := by
    rw [String.data_append]
  have h2 : (y ++ " | ").data.isEmpty = false := by
    rw [h1]; cases y.data <;> rfl
  have h3 : dropTrailing3 (y ++ " | ") = y := by
    unfold dropTrailing3
    rw [string_length_data, h1]
    simp
  rw [finishRow, h2]
  simp only [Bool.false_eq_true, if_false, h3]

theorem withoutTrailingBar_bar (y : String) : withoutTrailingBar (y ++ " | ") = y := by
  have h1 : (y ++ " | ").data = y.data ++ [' ', '|', ' '] := by
    rw [String.data_append]
  unfold withoutTrailingBar
  rw [h1]
  simp

/-- The fragments of a non-empty list of cells end in " | ". -/
theorem cells_end_in_bar (rs : List String) (rss : List (List String)) :
    ∃ y, concatAll ((rs :: rss).map cellText) = y ++ " | " := by
  induction rss generalizing rs with
  | nil =>
    exact ⟨cellTextUnclosed rs, by simp [concatAll, cellText, cellTextUnclosed]⟩
  | cons rs1 rss ih =>
    obtain ⟨y, hy⟩ := ih rs1
    refine ⟨cellText rs ++ y, ?_⟩
    rw [List.map_cons, concatAll, hy, String.append_assoc]

/-- The row line as the code finishes it is the row line of the fragments. -/
theorem finishRow_cells (rss : List (List String)) :
    finishRow (concatAll (rss.map cellText)) = rowLine (rss.map cellText) := by
  cases rss with
  | nil => rfl
  | cons rs rss =>
    obtain ⟨y, hy⟩ := cells_end_in_bar rs rss
    rw [rowLine, hy, finishRow_bar, withoutTrailingBar_bar]

/-- One row of the row loop: a table row appends its row line, a node of
another kind nothing. -/
theorem rowLoop_row (d a : String) (cs : List ASTNode) (rest : List (Option ASTNode))
    (result : String) (count : Int) (g : Context)
    (h : ∀ c ∈ cs, c.node_type = CELL_H → none ∉ c.children) :
    rowLoop (some (ASTNode.mk ROW_H d a (cs.map some)) :: rest) result count g
      = (rowRenders cs g >>= fun p =>
          rowLoop rest (result ++ rowLine (p.1.map cellText)) (count + nestedCount cs) p.2) := by
  simp only [rowLoop, if_true, cellLoop_eq cs h]
  cases rowRenders cs g with
  | error e => rfl
  | ok p =>
    simp only [Except.map, bind, Except.bind, String.empty_append]
    rw [finishRow_cells]

theorem rowLoop_other (ty : NodeType) (d a : String) (cells rest : List (Option ASTNode))
    (result : String) (count : Int) (g : Context) (h : ty ≠ ROW_H) :
    rowLoop (some (ASTNode.mk ty d a cells) :: rest) result count g
      = rowLoop rest result count g := by
  simp only [rowLoop, h, if_false]

/-- The row line of a non-empty list of cells: every fragment but the last
with its closing " | ", the last without. -/
theorem rowLine_last (rss : List (List String)) (rs : List String) :
    rowLine ((rss ++ [rs]).map cellText)
      = concatAll (rss.map cellText) ++ cellTextUnclosed rs ++ "\n" := by
  have e : concatAll ((rss ++ [rs]).map cellText)
      = (concatAll (rss.map cellText) ++ cellTextUnclosed rs) ++ " | " := by
    rw [List.map_append, concatAll_append]
    simp [concatAll, cellText, cellTextUnclosed, String.append_assoc]
  rw [rowLine, e, withoutTrailingBar_bar]

/-! ### The two row loops of a table -/

theorem body_stringLoop_fix (cs : List (Option ASTNode)) (str : String) (g : Context) :
    Body.stringLoop traversal cs str g = stringLoop cs str g := by
  induction cs generalizing str g with
  | nil => simp only [Body.stringLoop, stringLoop]
  | cons c cs ih => simp only [Body.stringLoop, stringLoop, ih]

theorem body_listLoop_fix (cs : List (Option ASTNode)) (s res : String) (g : Context) :
    Body.listLoop traversal cs s res g = listLoop cs s res g := by
  induction cs generalizing res g with
  | nil => simp only [Body.listLoop, listLoop]
  | cons c cs ih => simp only [Body.listLoop, listLoop, ih]

theorem body_childrenLoop_fix (cs : List (Option ASTNode)) (acc : String) (g : Context) :
    Body.childrenLoop traversal cs acc g = childrenLoop cs acc g := by
  induction cs generalizing acc g with
  | nil => simp only [Body.childrenLoop, childrenLoop]
  | cons c cs ih => simp only [Body.childrenLoop, childrenLoop, ih]

theorem body_innerLoop_fix (cs : List (Option ASTNode)) (acc : String) (n : Int)
    (g : Context) :
    Body.innerLoop traversal cs acc n g = innerLoop cs acc n g := by
  induction cs generalizing acc n g with
  | nil => simp only [Body.innerLoop, innerLoop]
  | cons c cs ih => simp only [Body.innerLoop, innerLoop, ih]

theorem body_cellLoop_fix (cs : List (Option ASTNode)) (acc : String) (n : Int)
    (g : Context) :
    Body.cellLoop traversal cs acc n g = cellLoop cs acc n g := by
  induction cs generalizing acc n g with
  | nil => simp only [Body.cellLoop, cellLoop]
  | cons c cs ih =>
    cases c with
    | none => simp only [Body.cellLoop, cellLoop]
    | some node =>
      obtain ⟨ty, d, a, inner⟩ := node
      simp only [Body.cellLoop, cellLoop, ih, body_innerLoop_fix]

theorem body_rowLoop_fix (cs : List (Option ASTNode)) (acc : String) (n : Int)
    (g : Context) :
    Body.rowLoop traversal cs acc n g = rowLoop cs acc n g := by
  induction cs generalizing acc n g with
  | nil => simp only [Body.rowLoop, rowLoop]
  | cons c cs ih =>
    cases c with
    | none => simp only [Body.rowLoop, rowLoop]
    | some node =>
      obtain ⟨ty, d, a, cells⟩ := node
      simp only [Body.rowLoop, rowLoop, ih, body_cellLoop_fix]

theorem body_traversalItem_fix (root : ASTNode) (g : Context) :
    Body.traversalItem traversal root g = traversalItem root g := by
  obtain ⟨ty, d, a, cs⟩ := root
  cases cs <;> simp only [Body.traversalItem, traversalItem]

theorem body_traversalString_fix (root : ASTNode) (g : Context) :
    Body.traversalString traversal root g = traversalString root g := by
  obtain ⟨ty, d, a, cs⟩ := root
  cases cs with
  | nil => simp only [Body.traversalString, traversalString, body_stringLoop_fix]
  | cons c rest =>
    cases c with
    | none => simp only [Body.traversalString, traversalString, body_stringLoop_fix]
    | some node =>
      obtain ⟨ty1, d1, a1, gs⟩ := node
      simp only [Body.traversalString, traversalString, body_stringLoop_fix]

theorem body_traverseSection_fix (root : ASTNode) (type : NodeType) (g : Context) :
    Body.traverseSection traversal root type g = traverseSection root type g := by
  obtain ⟨ty, d, a, cs⟩ := root
  simp only [Body.traverseSection, traverseSection, body_childrenLoop_fix]

theorem body_traverseSubSection_fix (root : ASTNode) (type : NodeType) (g : Context) :
    Body.traverseSubSection traversal root type g = traverseSubSection root type g := by
  obtain ⟨ty, d, a, cs⟩ := root
  simp only [Body.traverseSubSection, traverseSubSection, body_childrenLoop_fix]

theorem body_traverseSubsubSection_fix (root : ASTNode) (type : NodeType) (g : Context) :
    Body.traverseSubsubSection traversal root type g = traverseSubsubSection root type g := by
  obtain ⟨ty, d, a, cs⟩ := root
  simp only [Body.traverseSubsubSection, traverseSubsubSection, body_childrenLoop_fix]

theorem body_traverseList_fix (root : ASTNode) (type : NodeType) (g : Context) :
    Body.traverseList traversal root type g = traverseList root type g := by
  obtain ⟨ty, d, a, cs⟩ := root
  cases cs with
  | nil => simp only [Body.traverseList, traverseList]
  | cons c rest =>
    cases c with
    | none => simp only [Body.traverseList, traverseList]
    | some node =>
      obtain ⟨ty1, d1, a1, items⟩ := node
      simp only [Body.traverseList, traverseList, body_listLoop_fix]

theorem body_traverseChildren_fix (root : ASTNode) (g : Context) :
    Body.traverseChildren traversal root g = traverseChildren root g := by
  obtain ⟨ty, d, a, cs⟩ := root
  simp only [Body.traverseChildren, traverseChildren, body_childrenLoop_fix]

theorem body_traverseTable_fix (root : ASTNode) (type : NodeType) (g : Context) :
    Body.traverseTable traversal root type g = traverseTable root type g := by
  obtain ⟨ty, d, a, cs⟩ := root
  cases cs with
  | nil => simp only [Body.traverseTable, traverseTable, body_rowLoop_fix]
  | cons c rest =>
    cases c with
    | none => simp only [Body.traverseTable, traverseTable, body_rowLoop_fix]
    | some node =>
      obtain ⟨ty1, d1, a1, rows⟩ := node
      simp only [Body.traverseTable, traverseTable, body_rowLoop_fix]

/-- The renderer satisfies its recursion equation: it is its own body with
itself for the recursive call. -/
theorem body_traversal_fix (o : Option ASTNode) (g : Context) :
    Body.traversal traversal o g = traversal o g := by
  cases o with
  | none => simp only [Body.traversal, traversal]
  | some root =>
    obtain ⟨ty, d, a, cs⟩ := root
    cases ty <;>
      simp only [traversal_some, Body.traversal, ASTNode.node_type, body_traversalItem_fix,
        body_traversalString_fix, body_traverseSection_fix, body_traverseSubSection_fix,
        body_traverseSubsubSection_fix, body_traverseList_fix, body_traverseChildren_fix,
        body_traverseTable_fix]

/-! ### The recursive calls of the body -/

theorem agreeOn_tail {c : Option ASTNode} {cs : List (Option ASTNode)}
    {f f1 : Option ASTNode → Context → Rendered} (h : AgreeOn (c :: cs) f f1) :
    AgreeOn cs f f1 :=
  fun o ho => h o (List.mem_cons_of_mem _ ho)

theorem agreeOn_left {xs ys : List (Option ASTNode)}
    {f f1 : Option ASTNode → Context → Rendered} (h : AgreeOn (xs ++ ys) f f1) :
    AgreeOn xs f f1 :=
  fun o ho => h o (List.mem_append_left _ ho)

theorem agreeOn_right {xs ys : List (Option ASTNode)}
    {f f1 : Option ASTNode → Context → Rendered} (h : AgreeOn (xs ++ ys) f f1) :
    AgreeOn ys f f1 :=
  fun o ho => h o (List.mem_append_right _ ho)

theorem childrenOfAll_append (xs ys : List (Option ASTNode)) :
    childrenOfAll (xs ++ ys) = childrenOfAll xs ++ childrenOfAll ys := by
  induction xs with
  | nil => rfl
  | cons x xs ih =>
    cases x with
    | none => simpa [childrenOfAll] using ih
    | some n => simp [childrenOfAll, ih]

theorem body_childrenLoop_congr (call call1 : Option ASTNode → Context → Rendered)
    (cs : List (Option ASTNode)) (h : AgreeOn cs call call1) (acc : String) (g : Context) :
    Body.childrenLoop call cs acc g = Body.childrenLoop call1 cs acc g := by
  induction cs generalizing acc g with
  | nil => simp only [Body.childrenLoop]
  | cons c cs ih =>
    simp only [Body.childrenLoop, h c (List.mem_cons_self _ _) g, ih (agreeOn_tail h)]

theorem body_stringLoop_congr (call call1 : Option ASTNode → Context → Rendered)
    (cs : List (Option ASTNode)) (h : AgreeOn cs call call1) (str : String) (g : Context) :
    Body.stringLoop call cs str g = Body.stringLoop call1 cs str g := by
  induction cs generalizing str g with
  | nil => simp only [Body.stringLoop]
  | cons c cs ih =>
    simp only [Body.stringLoop, h c (List.mem_cons_self _ _) g, ih (agreeOn_tail h)]

theorem body_listLoop_congr (call call1 : Option ASTNode → Context → Rendered)
    (cs : List (Option ASTNode)) (h : AgreeOn cs call call1) (s res : String) (g : Context) :
    Body.listLoop call cs s res g = Body.listLoop call1 cs s res g := by
  induction cs generalizing res g with
  | nil => simp only [Body.listLoop]
  | cons c cs ih =>
    simp only [Body.listLoop, h c (List.mem_cons_self _ _) g, ih (agreeOn_tail h)]

theorem body_innerLoop_congr (call call1 : Option ASTNode → Context → Rendered)
    (cs : List (Option ASTNode)) (h : AgreeOn cs call call1) (acc : String) (n : Int)
    (g : Context) :
    Body.innerLoop call cs acc n g = Body.innerLoop call1 cs acc n g := by
  induction cs generalizing acc n g with
  | nil => simp only [Body.innerLoop]
  | cons c cs ih =>
    simp only [Body.innerLoop, h c (List.mem_cons_self _ _) g, ih (agreeOn_tail h)]

theorem body_cellLoop_congr (call call1 : Option ASTNode → Context → Rendered)
    (cs : List (Option ASTNode)) (h : AgreeOn (childrenOfAll cs) call call1) (acc : String)
    (n : Int) (g : Context) :
    Body.cellLoop call cs acc n g = Body.cellLoop call1 cs acc n g := by
  induction cs generalizing acc n g with
  | nil => simp only [Body.cellLoop]
  | cons c cs ih =>
    cases c with
    | none => simp only [Body.cellLoop]
    | some node =>
      obtain ⟨ty, d, a, inner⟩ := node
      simp only [childrenOfAll, ASTNode.children] at h
      simp only [Body.cellLoop, body_innerLoop_congr call call1 inner (agreeOn_left h),
        ih (agreeOn_right h)]

theorem body_rowLoop_congr (call call1 : Option ASTNode → Context → Rendered)
    (cs : List (Option ASTNode)) (h : AgreeOn (childrenOfAll (childrenOfAll cs)) call call1)
    (acc : String) (n : Int) (g : Context) :
    Body.rowLoop call cs acc n g = Body.rowLoop call1 cs acc n g := by
  induction cs generalizing acc n g with
  | nil => simp only [Body.rowLoop]
  | cons c cs ih =>
    cases c with
    | none => simp only [Body.rowLoop]
    | some node =>
      obtain ⟨ty, d, a, cells⟩ := node
      simp only [childrenOfAll, ASTNode.children, childrenOfAll_append] at h
      simp only [Body.rowLoop, body_cellLoop_congr call call1 cells (agreeOn_left h),
        ih (agreeOn_right h)]

/-- The body consults the recursive call at the callees of the node only: two
candidates that agree there give the same result for the node. -/
theorem body_traversal_congr (call call1 : Option ASTNode → Context → Rendered)
    (n : ASTNode) (h : AgreeOn (callees n) call call1) (g : Context) :
    Body.traversal call (some n) g = Body.traversal call1 (some n) g := by
  obtain ⟨ty, d, a, cs⟩ := n
  rcases kind_cases ty with k | k | k | k | k | k | k | k | k | k | k | k
  · -- list item
    subst k
    cases cs with
    | nil => rfl
    | cons c rest =>
      simp only [Body.traversal, ASTNode.node_type, Body.traversalItem]
      exact h c (by simp [callees]) g
  · -- plain string
    subst k
    simp only [callees] at h
    cases cs with
    | nil => rfl
    | cons c rest =>
      cases c with
      | none =>
        simp only [Body.traversal, ASTNode.node_type, Body.traversalString,
          body_stringLoop_congr call call1 _ (agreeOn_left h)]
      | some node =>
        obtain ⟨ty1, d1, a1, gs⟩ := node
        have hg : AgreeOn gs call call1 := by
          have h2 := agreeOn_right h
          simp only [List.take, childrenOfAll, ASTNode.children, List.append_nil] at h2
          exact h2
        simp only [Body.traversal, ASTNode.node_type, Body.traversalString,
          body_stringLoop_congr call call1 _ (agreeOn_left h),
          body_stringLoop_congr call call1 gs hg]
  · -- section
    subst k
    simp only [callees] at h
    simp only [Body.traversal, ASTNode.node_type, Body.traverseSection,
      body_childrenLoop_congr call call1 cs h]
  · -- subsection
    subst k
    simp only [callees] at h
    simp only [Body.traversal, ASTNode.node_type, Body.traverseSubSection,
      body_childrenLoop_congr call call1 cs h]
  · -- subsubsection
    subst k
    simp only [callees] at h
    simp only [Body.traversal, ASTNode.node_type, Body.traverseSubsubSection,
      body_childrenLoop_congr call call1 cs h]
  · -- itemize
    subst k
    simp only [callees] at h
    cases cs with
    | nil => rfl
    | cons c rest =>
      cases c with
      | none => rfl
      | some node =>
        obtain ⟨ty1, d1, a1, items⟩ := node
        simp only [List.take, childrenOfAll, ASTNode.children, List.append_nil] at h
        simp only [Body.traversal, ASTNode.node_type, Body.traverseList,
          body_listLoop_congr call call1 items h]
  · -- enumerate
    subst k
    simp only [callees] at h
    cases cs with
    | nil => rfl
    | cons c rest =>
      cases c with
      | none => rfl
      | some node =>
        obtain ⟨ty1, d1, a1, items⟩ := node
        simp only [List.take, childrenOfAll, ASTNode.children, List.append_nil] at h
        simp only [Body.traversal, ASTNode.node_type, Body.traverseList,
          body_listLoop_congr call call1 items h]
  · subst k; rfl
  · subst k; rfl
  · -- table
    subst k
    simp only [callees] at h
    cases cs with
    | nil => rfl
    | cons c rest =>
      cases c with
      | none => rfl
      | some node =>
        obtain ⟨ty1, d1, a1, rows⟩ := node
        have h2 : AgreeOn (childrenOfAll (childrenOfAll rows)) call call1 := by
          have h3 := agreeOn_right h
          simp only [List.take, childrenOfAll, ASTNode.children, List.append_nil] at h3
          exact h3
        simp only [Body.traversal, ASTNode.node_type, Body.traverseTable,
          body_rowLoop_congr call call1 _ (agreeOn_left h),
          body_rowLoop_congr call call1 rows h2]
  · rcases k with k | k | k | k | k | k | k | k <;> subst k <;> rfl
  · simp only [defaultKinds, List.mem_cons, List.mem_singleton, List.not_mem_nil,
      or_false] at k
    rcases k with k | k | k | k | k | k | k | k | k | k | k | k <;> subst k <;>
      simp only [callees] at h <;>
      simp only [Body.traversal, ASTNode.node_type, Body.traverseChildren,
        body_childrenLoop_congr call call1 cs h]

/-! ### The callees are strict descendants -/

theorem subtreeList_append (xs ys : List (Option ASTNode)) :
    subtreeList (xs ++ ys) = subtreeList xs ++ subtreeList ys := by
  induction xs with
  | nil => rfl
  | cons x xs ih => simp [subtreeList, ih]

theorem subtree_eq (n : ASTNode) : subtree n = n :: subtreeList n.children := by
  obtain ⟨ty, d, a, cs⟩ := n
  rw [subtree]
  rfl

theorem mem_subtreeList_self (xs : List (Option ASTNode)) (m : ASTNode) (h : some m ∈ xs) :
    m ∈ subtreeList xs :=
  mem_subtreeList xs m m h (subtree_self m)

theorem subtreeList_childrenOfAll (cs : List (Option ASTNode)) (m : ASTNode)
    (h : m ∈ subtreeList (childrenOfAll cs)) : m ∈ subtreeList cs := by
  induction cs with
  | nil => exact h
  | cons c cs ih =>
    cases c with
    | none =>
      simp only [childrenOfAll] at h
      simp only [subtreeList, subtreeOption, List.nil_append]
      exact ih h
    | some n =>
      simp only [childrenOfAll, subtreeList_append, List.mem_append] at h
      simp only [subtreeList, subtreeOption, List.mem_append]
      rcases h with h | h
      · left
        rw [subtree_eq]
        exact List.mem_cons_of_mem _ h
      · exact Or.inr (ih h)

theorem subtreeList_take (cs : List (Option ASTNode)) (k : Nat) (m : ASTNode)
    (h : m ∈ subtreeList (cs.take k)) : m ∈ subtreeList cs := by
  have e : cs = cs.take k ++ cs.drop k := (List.take_append_drop k cs).symm
  rw [e, subtreeList_append]
  exact List.mem_append_left _ h

/-- Every callee of a node is a node of the tree of one of its children. -/
theorem callee_is_descendant (n m : ASTNode) (h : some m ∈ callees n) :
    m ∈ subtreeList n.children := by
  obtain ⟨ty, d, a, cs⟩ := n
  simp only [ASTNode.children]
  cases ty <;> simp only [callees, List.mem_append, List.not_mem_nil] at h
  all_goals first
    | exact mem_subtreeList_self cs m h
    | exact subtreeList_take cs 1 m (mem_subtreeList_self _ m h)
    | exact subtreeList_take cs 1 m (subtreeList_childrenOfAll _ m (mem_subtreeList_self _ m h))
    | (rcases h with h | h
       · exact mem_subtreeList_self cs m h
       · exact subtreeList_take cs 1 m
          (subtreeList_childrenOfAll _ m (mem_subtreeList_self _ m h)))
    | (rcases h with h | h
       · exact subtreeList_childrenOfAll _ m
          (subtreeList_childrenOfAll _ m (mem_subtreeList_self _ m h))
       · exact subtreeList_take cs 1 m (subtreeList_childrenOfAll _ m
          (subtreeList_childrenOfAll _ m
            (subtreeList_childrenOfAll _ m (mem_subtreeList_self _ m h)))))

theorem exists_child_of_mem_subtreeList (cs : List (Option ASTNode)) (m : ASTNode)
    (h : m ∈ subtreeList cs) : ∃ c, some c ∈ cs ∧ m ∈ subtree c := by
  induction cs with
  | nil => simp [subtreeList] at h
  | cons x cs ih =>
    simp only [subtreeList, List.mem_append] at h
    rcases h with h | h
    · cases x with
      | none => simp [subtreeOption] at h
      | some c => exact ⟨c, List.mem_cons_self _ _, h⟩
    · obtain ⟨c, hc, hm⟩ := ih h
      exact ⟨c, List.mem_cons_of_mem _ hc, hm⟩

theorem subtree_length_le_list (cs : List (Option ASTNode)) (c : ASTNode)
    (h : some c ∈ cs) : (subtree c).length ≤ (subtreeList cs).length := by
  induction cs with
  | nil => simp at h
  | cons x cs ih =>
    simp only [subtreeList, List.length_append]
    rcases List.mem_cons.1 h with e | e
    · rw [← e]
      simp only [subtreeOption]
      omega
    · have := ih e
      omega

/-- The tree of a node of a tree is not larger than the tree. -/
theorem subtree_length_mono (n : ASTNode) :
    ∀ m ∈ subtree n, (subtree m).length ≤ (subtree n).length :=
  ASTNode.induct
    (P := fun n => ∀ m ∈ subtree n, (subtree m).length ≤ (subtree n).length)
    (fun ty d a cs ih m hm => by
      rw [subtree] at hm
      rcases List.mem_cons.1 hm with e | e
      · rw [e]
      · obtain ⟨c, hc, hmc⟩ := exists_child_of_mem_subtreeList cs m e
        have h1 := ih c hc m hmc
        have h2 := subtree_length_le_list cs c hc
        rw [subtree, List.length_cons]
        omega)
    n

/-- A node of the tree of a child has a strictly smaller tree than the
parent. -/
theorem descendant_smaller (n m : ASTNode) (h : m ∈ subtreeList n.children) :
    (subtree m).length < (subtree n).length := by
  obtain ⟨c, hc, hmc⟩ := exists_child_of_mem_subtreeList _ m h
  have h1 := subtree_length_mono c m hmc
  have h2 := subtree_length_le_list _ c hc
  rw [subtree_eq n, List.length_cons]
  omega

/-- The recursion equation of the renderer has one solution only. -/
theorem traversal_unique (f : Option ASTNode → Context → Rendered)
    (hf : ∀ o g, f o g = Body.traversal f o g) :
    ∀ o g, f o g = traversal o g := by
  have hnone : ∀ g, f none g = traversal none g := by
    intro g
    rw [hf, ← body_traversal_fix]
    rfl
  have hsome : ∀ k (n : ASTNode), (subtree n).length ≤ k →
      ∀ g, f (some n) g = traversal (some n) g := by
    intro k
    induction k with
    | zero =>
      intro n hn
      rw [subtree_eq, List.length_cons] at hn
      omega
    | succ k ih =>
      intro n hn g
      rw [hf, ← body_traversal_fix]
      apply body_traversal_congr
      intro o ho g1
      cases o with
      | none => exact hnone g1
      | some m =>
        have h1 := descendant_smaller n m (callee_is_descendant n m ho)
        exact ih m (by omega) g1
  intro o g
  cases o with
  | none => exact hnone g
  | some n => exact hsome _ n (le_refl _) g

/-! ## The claims -/

/-- Claim C4. Whenever rendering a node from a context returns a result, the
list nesting depth of the final context is the depth of the starting context;
in particular this holds of itemize and enumerate nodes, however deeply lists
are nested inside their items. -/
theorem list_depth_restored (root : Option ASTNode) (g : Context) (r : String)
    (g1 : Context) (h : traversal root g = .ok (r, g1)) :
    g1.nested = g.nested :=
  traversal_keeps_depth root g r g1 h

/-- Witness of claim C4: an itemize node holding an enumerate node and a
section, rendered from depth 2; the section counter moves, the depth does
not. -/
theorem list_depth_restored_witness :
    traversal (some nestedLists) ⟨3, 2, 1, 2⟩
        = .ok ("\n\t\t-a\n\t\t-\n\t\t\t1.b\n\n\n\t\t-## 4 S\n\n\n\n\n\n", ⟨4, 0, 0, 2⟩)
    ∧ (⟨4, 0, 0, 2⟩ : Context).nested = (⟨3, 2, 1, 2⟩ : Context).nested :=
  ⟨rfl, list_depth_restored (some nestedLists) ⟨3, 2, 1, 2⟩
    "\n\t\t-a\n\t\t-\n\t\t\t1.b\n\n\n\t\t-## 4 S\n\n\n\n\n\n" ⟨4, 0, 0, 2⟩ rfl⟩

/-- Claim C6. An itemize or enumerate node entered at depth `d ≥ 0` whose
wrapper child has children rendering, in order from depth `d + 1`, to non-empty
newline-free strings gives a newline, then for each item a line made of `d`
tabs, the bullet (`-` for itemize, `1.` for enumerate, whatever the position of
the item) and the render of the item, then a newline.  The tree of the itemize
test gives "\n-First item\n-Second item\n\n". -/
theorem plain_items_one_line_each :
    (∀ (d a : String) (wty : NodeType) (wd wa : String) (xs rest : List (Option ASTNode))
        (g : Context) (rs : List String) (g1 : Context),
      0 ≤ g.nested →
      renderEach xs { g with nested := g.nested + 1 } = .ok (rs, g1) →
      (∀ r ∈ rs, r ≠ "" ∧ '\n' ∉ r.data) →
      traversal (some (ASTNode.mk ITEMIZE_H d a (some (ASTNode.mk wty wd wa xs) :: rest))) g
          = .ok ("\n" ++ concatAll (rs.map (fun r => tabs g.nested.toNat ++ "-" ++ r ++ "\n"))
                   ++ "\n", { g1 with nested := g1.nested - 1 })
      ∧ traversal (some (ASTNode.mk ENUMERATE_H d a (some (ASTNode.mk wty wd wa xs) :: rest))) g
          = .ok ("\n" ++ concatAll (rs.map (fun r => tabs g.nested.toNat ++ "1." ++ r ++ "\n"))
                   ++ "\n", { g1 with nested := g1.nested - 1 }))
    ∧ traversal (some createItemizeAST) Context.fresh
        = .ok ("\n-First item\n-Second item\n\n", Context.fresh) :=
  ⟨list_of_plain_items, rfl⟩

/-- Witness of claim C6: the two items of the itemize test, entered at depth
0. -/
theorem plain_items_one_line_each_witness :
    (0 : Int) ≤ Context.fresh.nested
    ∧ renderEach [some (leaf STRING_H "First item"),
          some ((newNode ITEM_H).addChild (some (leaf STRING_H "Second item")))]
        { Context.fresh with nested := Context.fresh.nested + 1 }
        = .ok (["First item", "Second item"], ⟨0, 0, 0, 1⟩)
    ∧ (∀ r ∈ ["First item", "Second item"], r ≠ "" ∧ '\n' ∉ r.data)
    ∧ traversal (some (ASTNode.mk ITEMIZE_H "" "" (some (ASTNode.mk ITEM_H "" ""
          [some (leaf STRING_H "First item"),
           some ((newNode ITEM_H).addChild (some (leaf STRING_H "Second item")))]) :: [])))
          Context.fresh
        = .ok ("\n" ++ concatAll (["First item", "Second item"].map
                  (fun r => tabs Context.fresh.nested.toNat ++ "-" ++ r ++ "\n")) ++ "\n",
               { (⟨0, 0, 0, 1⟩ : Context) with
                 nested := (⟨0, 0, 0, 1⟩ : Context).nested - 1 }) :=
  ⟨by decide, rfl, by decide,
    (plain_items_one_line_each.1 "" "" ITEM_H "" ""
      [some (leaf STRING_H "First item"),
       some ((newNode ITEM_H).addChild (some (leaf STRING_H "Second item")))] [] Context.fresh
      ["First item", "Second item"] ⟨0, 0, 0, 1⟩ (by decide) rfl (by decide)).1⟩

/-- Counterexample to claim C7 as stated: for the text "a#b#c" the part after
the first `#` is "b#c", but the label that is rendered is "bc". -/
theorem href_label_loses_later_hashes :
    traversal (some (leaf HREF_H "a#b#c")) Context.fresh = .ok ("[bc](a) \n", Context.fresh)
    ∧ beforeFirstHash "a#b#c" = "a" ∧ afterFirstHash "a#b#c" = "b#c"
    ∧ traversal (some (leaf HREF_H "a#b#c")) Context.fresh
        ≠ .ok ("[" ++ afterFirstHash "a#b#c" ++ "](" ++ beforeFirstHash "a#b#c" ++ ") \n",
               Context.fresh) := by
  refine ⟨rfl, by decide, by decide, ?_⟩
  intro h
  have h1 : traversal (some (leaf HREF_H "a#b#c")) Context.fresh
      = .ok ("[bc](a) \n", Context.fresh) := rfl
  rw [h1] at h
  have h2 := congrArg Prod.fst (Except.ok.inj h)
  revert h2
  decide

/-- Claim C7, amended. A hyperlink node with text `s` renders as
`[label](link)` followed by a space and a newline, where `link` is the part of
`s` before its first `#` and `label` is the part of `s` after its first `#`
with every further `#` removed.  With no `#` the link is `s` and the label is
empty; with a `#`-free part after the first `#` the label is that whole part.
The text "http://example.com#Example" gives "[Example](http://example.com) \n". -/
theorem href_split_drops_hashes :
    (∀ (s a : String) (cs : List (Option ASTNode)) (g : Context),
      traversal (some (ASTNode.mk HREF_H s a cs)) g
        = .ok ("[" ++ withoutHashes (afterFirstHash s) ++ "](" ++ beforeFirstHash s ++ ") \n", g))
    ∧ (∀ s : String, '#' ∉ s.data →
        beforeFirstHash s = s ∧ withoutHashes (afterFirstHash s) = "")
    ∧ (∀ x y : String, '#' ∉ x.data → '#' ∉ y.data →
        beforeFirstHash (x ++ "#" ++ y) = x ∧ withoutHashes (afterFirstHash (x ++ "#" ++ y)) = y)
    ∧ traversal (some (leaf HREF_H "http://example.com#Example")) Context.fresh
        = .ok ("[Example](http://example.com) \n", Context.fresh) := by
  refine ⟨href_render, ?_, ?_, rfl⟩
  · intro s h
    obtain ⟨h1, h2⟩ := split_without_hash s h
    rw [h1, h2]
    exact ⟨rfl, rfl⟩
  · intro x y hx hy
    obtain ⟨h1, h2⟩ := split_at_first_hash x y hx
    rw [h1, h2]
    exact ⟨rfl, withoutHashes_of_no_hash y hy⟩

/-- Witness of the amended claim C7: a text without `#` and the text of the
test, split at its only `#`. -/
theorem href_split_drops_hashes_witness :
    ('#' ∉ ("plain" : String).data
      ∧ beforeFirstHash "plain" = "plain" ∧ withoutHashes (afterFirstHash "plain") = "")
    ∧ ('#' ∉ ("http://example.com" : String).data ∧ '#' ∉ ("Example" : String).data
      ∧ beforeFirstHash ("http://example.com" ++ "#" ++ "Example") = "http://example.com"
      ∧ withoutHashes (afterFirstHash ("http://example.com" ++ "#" ++ "Example")) = "Example") :=
  ⟨⟨by decide, href_split_drops_hashes.2.1 "plain" (by decide)⟩,
    ⟨by decide, by decide,
      href_split_drops_hashes.2.2.1 "http://example.com" "Example" (by decide) (by decide)⟩⟩

/-- Claim C8. A plain-string node without children renders as its text.  With
children, the first of which is present, it renders as its text, then a space
and the render for each present child in order, then a space and the render
for each present child of the first child in order, the grandchildren being
rendered from the context in which the children ended; a fault of any of these
renders is a fault of the node.  The tree of the paragraph test gives
"This is a paragraph. \n\n This is another paragraph.". -/
theorem plain_string_children_then_grandchildren :
    (∀ (t a : String) (g : Context),
      traversal (some (ASTNode.mk STRING_H t a [])) g = .ok (t, g))
    ∧ (∀ (t a : String) (ty1 : NodeType) (d1 a1 : String) (gs rest : List (Option ASTNode))
        (g : Context),
      traversal (some (ASTNode.mk STRING_H t a (some (ASTNode.mk ty1 d1 a1 gs) :: rest))) g
        = (renderEach (present (some (ASTNode.mk ty1 d1 a1 gs) :: rest)) g >>= fun p =>
            (renderEach (present gs) p.2).map (fun q =>
              (t ++ concatAll (p.1.map (fun r => " " ++ r))
                 ++ concatAll (q.1.map (fun r => " " ++ r)), q.2))))
    ∧ (∀ cs : List ASTNode, present (cs.map some) = cs.map some)
    ∧ traversal (some createParAST) Context.fresh
        = .ok ("This is a paragraph. \n\n This is another paragraph.", Context.fresh) := by
  refine ⟨traversal_STRING_H_nil, string_render, ?_, rfl⟩
  intro cs
  simp [present, List.filter_eq_self]

/-- Claim C9. A paragraph node whose first child has the (present) children
`x1..xn` renders as, for each `x_i` in order, its marker, its text, its marker
and a space, followed by a blank line, the marker being the lookup of the kind
of `x_i` in the marker table (`**` for bold, `*` for italic, empty for
plain-string and for a kind without an entry).  The other children of the
paragraph and the children of the `x_i` do not enter the result, and the
context is returned unchanged. -/
theorem paragraph_inline_segments :
    (∀ (t a : String) (wty : NodeType) (wd wa : String) (ys : List ASTNode)
        (rest : List (Option ASTNode)) (g : Context),
      traversal (some (ASTNode.mk PAR_H t a
          (some (ASTNode.mk wty wd wa (ys.map some)) :: rest))) g
        = .ok (concatAll (ys.map (fun x =>
                 getMapping x.node_type ++ x.data ++ getMapping x.node_type ++ " ")) ++ "\n\n", g))
    ∧ getMapping TEXTBF_H = "**" ∧ getMapping TEXTIT_H = "*" ∧ getMapping STRING_H = ""
    ∧ (∀ k : NodeType, myMapping.lookup k = none → getMapping k = "")
    ∧ traversal (some mixedParagraph) Context.fresh
        = .ok ("**b** *i* s r ##h## \n\n", Context.fresh) := by
  refine ⟨paragraph_render, rfl, rfl, rfl, ?_, rfl⟩
  intro k hk
  simp [getMapping, hk]

/-- Witness of claim C9: the table-row kind has no entry in the marker
table. -/
theorem paragraph_inline_segments_witness :
    myMapping.lookup ROW_H = none ∧ getMapping ROW_H = "" :=
  ⟨by decide, paragraph_inline_segments.2.2.2.2.1 ROW_H (by decide)⟩

/-- Claim C10. A figure node with text `p` and present children renders as
`![](p)`, then for each caption child two spaces and its text in double quotes,
then a blank line; a child of another kind adds nothing, no child is rendered
recursively and the context is returned unchanged.  Without a caption child the
result is `![](p)` and the blank line, with a single caption child of text `c`
it is `![](p)  "c"` and the blank line.  The figure of the test gives
"![](This is a figure caption.)\n\n". -/
theorem figure_image_and_caption :
    (∀ (p a : String) (ys : List ASTNode) (g : Context),
      traversal (some (ASTNode.mk FIGURE_H p a (ys.map some))) g
        = .ok ("![](" ++ p ++ ")"
                ++ concatAll (ys.map (fun y =>
                     if y.node_type = CAPTION_H then "  \"" ++ y.data ++ "\"" else ""))
                ++ "\n\n", g))
    ∧ (∀ (p a : String) (ys : List ASTNode) (g : Context),
        (∀ y ∈ ys, y.node_type ≠ CAPTION_H) →
        traversal (some (ASTNode.mk FIGURE_H p a (ys.map some))) g
          = .ok ("![](" ++ p ++ ")\n\n", g))
    ∧ (∀ (p a c ca : String) (ccs : List (Option ASTNode)) (before after : List ASTNode)
        (g : Context),
        (∀ y ∈ before, y.node_type ≠ CAPTION_H) →
        (∀ y ∈ after, y.node_type ≠ CAPTION_H) →
        traversal (some (ASTNode.mk FIGURE_H p a
            ((before ++ ASTNode.mk CAPTION_H c ca ccs :: after).map some))) g
          = .ok ("![](" ++ p ++ ")" ++ "  \"" ++ c ++ "\"" ++ "\n\n", g))
    ∧ traversal (some (leaf FIGURE_H "This is a figure caption.")) Context.fresh
        = .ok ("![](This is a figure caption.)\n\n", Context.fresh) := by
  refine ⟨figure_render, ?_, ?_, rfl⟩
  · intro p a ys g h
    rw [figure_render, concatAll_no_caption ys h]
    congr 1
    apply Prod.ext
    · apply String.ext; simp [String.data_append]
    · rfl
  · intro p a c ca ccs before after g h1 h2
    rw [figure_render, List.map_append, concatAll_append, List.map_cons, concatAll,
      concatAll_no_caption before h1, concatAll_no_caption after h2]
    congr 1
    apply Prod.ext
    · apply String.ext; simp [String.data_append, captionFragment, ASTNode.node_type, ASTNode.data]
    · rfl

/-- Witness of claim C10: a figure with a label child only, and a figure with
a label child, a caption child and a string child. -/
theorem figure_image_and_caption_witness :
    ((∀ y ∈ [leaf LABEL_H "fig:one"], y.node_type ≠ CAPTION_H)
      ∧ traversal (some (ASTNode.mk FIGURE_H "a.png" "" ([leaf LABEL_H "fig:one"].map some)))
            Context.fresh
          = .ok ("![](" ++ "a.png" ++ ")\n\n", Context.fresh))
    ∧ ((∀ y ∈ [leaf LABEL_H "fig:one"], y.node_type ≠ CAPTION_H)
      ∧ (∀ y ∈ [leaf STRING_H "text"], y.node_type ≠ CAPTION_H)
      ∧ traversal (some (ASTNode.mk FIGURE_H "a.png" ""
            (([leaf LABEL_H "fig:one"]
                ++ ASTNode.mk CAPTION_H "A cat" "" [some (leaf STRING_H "unused")]
                    :: [leaf STRING_H "text"]).map some))) Context.fresh
          = .ok ("![](" ++ "a.png" ++ ")" ++ "  \"" ++ "A cat" ++ "\"" ++ "\n\n",
                 Context.fresh)) :=
  ⟨⟨by decide, figure_image_and_caption.2.1 "a.png" "" [leaf LABEL_H "fig:one"]
        Context.fresh (by decide)⟩,
    ⟨by decide, by decide,
      figure_image_and_caption.2.2.1 "a.png" "" "A cat" "" [some (leaf STRING_H "unused")]
        [leaf LABEL_H "fig:one"] [leaf STRING_H "text"] Context.fresh (by decide) (by decide)⟩⟩

/-- Claim C11. A verbatim node with text `t` renders as a blank line, a code
fence, `t` unchanged on the lines between, a code fence and a blank line,
whatever the context and the children of the node; the context is returned
unchanged.  The verbatim node of the test gives the text the test expects. -/
theorem verbatim_between_fences :
    (∀ (t a : String) (cs : List (Option ASTNode)) (g : Context),
      traversal (some (ASTNode.mk VERBATIM_H t a cs)) g
        = .ok ("\n\n```\n" ++ t ++ "\n```\n\n", g))
    ∧ traversal (some (leaf VERBATIM_H "This is verbatim text.")) Context.fresh
        = .ok ("\n\n```\nThis is verbatim text.\n```\n\n", Context.fresh) :=
  ⟨verbatim_render, rfl⟩

/-- Claim C12. A bold node with text `t` renders as `**t**` and an italic node
as `*t*`, each followed by exactly one space, whatever the children of the
node; nothing else is added and the context is returned unchanged.  The bold
and italic nodes of the tests give "**bold** " and "*italic* ". -/
theorem font_markers_both_sides :
    (∀ (t a : String) (cs : List (Option ASTNode)) (g : Context),
      traversal (some (ASTNode.mk TEXTBF_H t a cs)) g = .ok ("**" ++ t ++ "** ", g))
    ∧ (∀ (t a : String) (cs : List (Option ASTNode)) (g : Context),
      traversal (some (ASTNode.mk TEXTIT_H t a cs)) g = .ok ("*" ++ t ++ "* ", g))
    ∧ traversal (some (leaf TEXTBF_H "bold")) Context.fresh = .ok ("**bold** ", Context.fresh)
    ∧ traversal (some (leaf TEXTIT_H "italic")) Context.fresh
        = .ok ("*italic* ", Context.fresh) :=
  ⟨bold_render, italic_render, rfl, rfl⟩

/-- Claim C13. A title node renders as the empty string when its text is
empty and as `# ` followed by its text and a blank line otherwise; a date node
renders as the empty string when its text is empty and as `Date: ` followed by
its text and a blank line otherwise. -/
theorem title_and_date_skip_empty_text :
    (∀ (t a : String) (cs : List (Option ASTNode)) (g : Context),
      traversal (some (ASTNode.mk TITLE_H t a cs)) g
        = .ok (if t = "" then "" else "# " ++ t ++ "\n\n", g))
    ∧ (∀ (t a : String) (cs : List (Option ASTNode)) (g : Context),
      traversal (some (ASTNode.mk DATE_H t a cs)) g
        = .ok (if t = "" then "" else "Date: " ++ t ++ "\n\n", g))
    ∧ traversal (some (leaf TITLE_H "")) Context.fresh = .ok ("", Context.fresh)
    ∧ traversal (some (leaf DATE_H "")) Context.fresh = .ok ("", Context.fresh)
    ∧ traversal (some (leaf TITLE_H "Report")) Context.fresh
        = .ok ("# Report\n\n", Context.fresh)
    ∧ traversal (some (leaf DATE_H "May 2024")) Context.fresh
        = .ok ("Date: May 2024\n\n", Context.fresh) :=
  ⟨title_render, date_render, rfl, rfl, rfl, rfl⟩

/-- Claim C14. A list-item node with at least one child renders exactly as its
first child does from the same context, output and final context (or fault)
alike: the text of the item and its further children play no part and no
markup is added. -/
theorem item_is_its_first_child :
    (∀ (d a : String) (child : Option ASTNode) (rest : List (Option ASTNode)) (g : Context),
      traversal (some (ASTNode.mk ITEM_H d a (child :: rest))) g = traversal child g)
    ∧ traversal (some (ASTNode.mk ITEM_H "own text" ""
          [some (leaf TEXTBF_H "first"), some (leaf STRING_H "second")])) Context.fresh
        = .ok ("**first** ", Context.fresh) :=
  ⟨traversal_ITEM_H_cons, rfl⟩

/-- Claim C15. A node of a kind without a case of its own in the dispatch (AST
root, document, underline, table-row, table-cell, caption, include-graphics,
label, table-rule, square-root, formatted-text, code) renders as the in-order
concatenation of the renders of its children, each started from the context in
which the previous one ended; no markup and no text of the node itself is
added, and a childless node of such a kind renders as the empty string. -/
theorem default_kinds_concatenate_children :
    defaultKinds = [AST_H, DOCUMENT_H, UNDERLINE_H, ROW_H, CELL_H, CAPTION_H,
      INCLUDE_GRAPHICS_H, LABEL_H, HLINE_H, SQRT_H, TEXT_H, CODE_H]
    ∧ (∀ (ty : NodeType) (d a : String) (cs : List (Option ASTNode)) (g : Context),
        ty ∈ defaultKinds →
        traversal (some (ASTNode.mk ty d a cs)) g
          = (renderEach cs g).map (fun p => (concatAll p.1, p.2)))
    ∧ (∀ (ty : NodeType) (d a : String) (g : Context),
        ty ∈ defaultKinds →
        traversal (some (ASTNode.mk ty d a [])) g = .ok ("", g)) := by
  refine ⟨rfl, default_render, ?_⟩
  intro ty d a g h
  rw [default_render ty d a [] g h]
  rfl

/-- Witness of claim C15: a document holding a section and a bold node, and a
childless caption with a text of its own. -/
theorem default_kinds_concatenate_children_witness :
    (DOCUMENT_H ∈ defaultKinds
      ∧ traversal (some (ASTNode.mk DOCUMENT_H "own text" ""
            [some (leaf SECTION_H "S"), some (leaf TEXTBF_H "b")])) Context.fresh
          = (renderEach [some (leaf SECTION_H "S"), some (leaf TEXTBF_H "b")]
              Context.fresh).map (fun p => (concatAll p.1, p.2))
      ∧ (renderEach [some (leaf SECTION_H "S"), some (leaf TEXTBF_H "b")]
              Context.fresh).map (fun p => (concatAll p.1, p.2))
          = .ok ("## 1 S\n\n\n\n**b** ", ⟨1, 0, 0, 0⟩))
    ∧ (CAPTION_H ∈ defaultKinds
      ∧ traversal (some (ASTNode.mk CAPTION_H "own text" "" [])) Context.fresh
          = .ok ("", Context.fresh)) :=
  ⟨⟨by decide,
      default_kinds_concatenate_children.2.1 DOCUMENT_H "own text" ""
        [some (leaf SECTION_H "S"), some (leaf TEXTBF_H "b")] Context.fresh (by decide),
      rfl⟩,
    ⟨by decide,
      default_kinds_concatenate_children.2.2 CAPTION_H "own text" "" Context.fresh
        (by decide)⟩⟩

/-- Claim C16. Rendering the null node pointer returns the empty string as a
result, not as a fault, and returns the context as it was, whatever its four
counters. -/
theorem null_node_renders_empty :
    ∀ g : Context, traversal none g = .ok ("", g) := by
  intro g
  rw [traversal]

/-- Claim C17. On every converter object, whatever entries its table holds,
looking a marker up never faults, a second lookup of the same kind returns the
same string as the first, a kind without an entry yields the empty string, and
a lookup of one kind leaves the marker returned afterwards for any kind as it
was.  On a newly constructed converter the kinds document, table-row,
table-cell and code yield the empty string, and every lookup returns the value
of the table-free `getMapping`. -/
theorem marker_lookup_idempotent_total :
    (∀ (c : converter) (k : NodeType), converter.marker k c = .ok (c.getMapping k))
    ∧ (∀ (c : converter) (k : NodeType),
        ((c.getMapping k).2.getMapping k).1 = (c.getMapping k).1)
    ∧ (∀ (c : converter) (k : NodeType),
        c.myMapping.lookup k = none → (c.getMapping k).1 = "")
    ∧ (∀ (c : converter) (k k1 : NodeType),
        ((c.getMapping k).2.getMapping k1).1 = (c.getMapping k1).1)
    ∧ (converter.new.getMapping DOCUMENT_H).1 = ""
    ∧ (converter.new.getMapping ROW_H).1 = ""
    ∧ (converter.new.getMapping CELL_H).1 = ""
    ∧ (converter.new.getMapping CODE_H).1 = ""
    ∧ (∀ k : NodeType, (converter.new.getMapping k).1 = getMapping k) := by
  have key : ∀ (c : converter) (k k1 : NodeType),
      ((c.getMapping k).2.getMapping k1).1 = (c.getMapping k1).1 := by
    intro c k k1
    simp only [converter.getMapping, mapIndex_value, mapIndex_lookup]
  refine ⟨fun _ _ => rfl, fun c k => key c k k, ?_, key, rfl, rfl, rfl, rfl, ?_⟩
  · intro c k h
    simp only [converter.getMapping, mapIndex_value, h]
    rfl
  · intro k
    exact (getMapping_agrees converter.new k agrees_new).1

/-- Witness of claim C17: the table-row kind has no entry in the table of a
newly constructed converter. -/
theorem marker_lookup_idempotent_total_witness :
    converter.new.myMapping.lookup ROW_H = none
    ∧ (converter.new.getMapping ROW_H).1 = "" :=
  ⟨by decide, marker_lookup_idempotent_total.2.2.1 converter.new ROW_H (by decide)⟩

/-- Claim C18. Rendering is a function of the tree and the starting context:
on every converter object whose table agrees with the constructor's, a render
faults or returns exactly as the table-free renderer does and leaves such an
object, a newly constructed converter being one of them.  Hence two renders of
a tree from the same context by two such objects have the same output and the
same final context, and after a render of a tree from the fresh context by a
newly constructed converter, a second render of the tree from the fresh context
by the same object, its table consulted by the first, returns the same output
and the same final context. -/
theorem rendering_is_deterministic :
    Agrees converter.new
    ∧ (∀ (root : Option ASTNode) (g : Context) (c : converter), Agrees c →
        (converter.traversal root g c).map Prod.fst = traversal root g)
    ∧ (∀ (root : Option ASTNode) (g : Context) (c c1 : converter) (out : String × Context),
        Agrees c → converter.traversal root g c = .ok (out, c1) → Agrees c1)
    ∧ (∀ (root : Option ASTNode) (g : Context) (c c1 : converter), Agrees c → Agrees c1 →
        (converter.traversal root g c).map Prod.fst
          = (converter.traversal root g c1).map Prod.fst)
    ∧ (∀ (root : Option ASTNode) (out : String × Context) (c1 : converter),
        converter.traversal root Context.fresh converter.new = .ok (out, c1) →
        ∃ c2, converter.traversal root Context.fresh c1 = .ok (out, c2)) := by
  refine ⟨agrees_new, ?_, ?_, ?_, ?_⟩
  · intro root g c hc
    exact (sim_traversal root g c hc).1
  · intro root g c c1 out hc h
    exact (sim_traversal root g c hc).2 out c1 h
  · intro root g c c1 hc hc1
    rw [(sim_traversal root g c hc).1, (sim_traversal root g c1 hc1).1]
  · intro root out c1 h
    have h1 := (sim_traversal root Context.fresh converter.new agrees_new).1
    have hc1 := (sim_traversal root Context.fresh converter.new agrees_new).2 out c1 h
    have h2 := (sim_traversal root Context.fresh c1 hc1).1
    rw [h] at h1
    rw [← h1] at h2
    cases hx : converter.traversal root Context.fresh c1 with
    | error e => rw [hx] at h2; cases h2
    | ok p =>
      obtain ⟨out2, c2⟩ := p
      rw [hx] at h2
      have e : out2 = out := Except.ok.inj h2
      subst e
      exact ⟨c2, rfl⟩

/-- Witness of claim C18: the paragraph with a table-row segment, whose render
inserts an entry for the table-row kind into the table; the second render by
the object left by the first returns the same output and context. -/
theorem rendering_is_deterministic_witness :
    converter.traversal (some mixedParagraph) Context.fresh converter.new
        = .ok (("**b** *i* s r ##h## \n\n", Context.fresh),
               { myMapping := myMapping ++ [(ROW_H, "")] })
    ∧ ∃ c2, converter.traversal (some mixedParagraph) Context.fresh
              { myMapping := myMapping ++ [(ROW_H, "")] }
            = .ok (("**b** *i* s r ##h## \n\n", Context.fresh), c2) :=
  ⟨rfl, rendering_is_deterministic.2.2.2.2 (some mixedParagraph)
    ("**b** *i* s r ##h## \n\n", Context.fresh) { myMapping := myMapping ++ [(ROW_H, "")] } rfl⟩

/-- Claim C19, evaluation at the failing input. On the table of the tabular
test the two row loops produce two row lines and the cell count 0, since only
nested cells are counted, and the separator step then divides the length 9 of
the first row line by 0: the render is the fault `division_by_zero`, not a
string. -/
theorem tabular_test_divides_by_zero :
    rowLoop createTabularAST.children "" 0 Context.fresh
        = .ok (" |  |  | \n |  |  | \n", 0, Context.fresh)
    ∧ addSeparator " |  |  | \n |  |  | \n" 0 = .error .division_by_zero
    ∧ traversal (some createTabularAST) Context.fresh = .error .division_by_zero :=
  ⟨rfl, rfl, rfl⟩

/-- Claim C26. The line filter of the list case is idempotent: for every text
`res`, filtering the filtered text returns it unchanged. The filter is the
rule of the claim (split at newlines, drop a line that is `1.` after trimming
unless the previously kept line ends in `.`, write every kept line followed by
a newline), and the filtered text read back line by line gives exactly the kept
lines. For the text "1.\nx.\n1.\n" the filter drops the first line and keeps
the other two, and a second pass keeps both. -/
theorem list_filter_idempotent :
    (∀ res : String, filterList (filterList res) = filterList res)
    ∧ (∀ res : String, filterList res = unlines (specKeptLines none (getlines res)))
    ∧ (∀ res : String,
        getlines (filterList res) = specKeptLines none (getlines res))
    ∧ filterList "1.\nx.\n1.\n" = "x.\n1.\n"
    ∧ filterList "x.\n1.\n" = "x.\n1.\n" := by
  refine ⟨filterList_idem, filterList_spec, ?_, by decide, by decide⟩
  intro res
  rw [filterList_spec res]
  exact getlines_unlines _ (fun l hl =>
    getlines_newline_free res l (specKeptLines_subset _ _ l hl))

/-- Claim C27. For every tree that holds no section, subsection,
subsubsection, itemize or enumerate node, rendering has one outcome `x` (a
text or a fault) from every starting context, and a returned context is the
starting context: the result does not depend on the context, and all four
counters are left as they were found. -/
theorem counter_free_tree_keeps_context (root : ASTNode) (h : counterFree root) :
    (∃ x : Except Fault String, ∀ g : Context,
        traversal (some root) g = x.map (fun r => (r, g)))
    ∧ (∀ g g1 : Context,
        (traversal (some root) g).map Prod.fst = (traversal (some root) g1).map Prod.fst)
    ∧ (∀ (g : Context) (r : String) (g1 : Context),
        traversal (some root) g = .ok (r, g1) →
          g1 = g
          ∧ g1.section_no = g.section_no ∧ g1.subsection_no = g.subsection_no
          ∧ g1.subsubsection_no = g.subsubsection_no ∧ g1.nested = g.nested) := by
  obtain ⟨x, hx⟩ := (framed_node root h).1
  refine ⟨⟨x, hx⟩, ?_, ?_⟩
  · intro g g1
    rw [hx g, hx g1]
    cases x <;> rfl
  · intro g r g1 e
    rw [hx g, map_eq_ok] at e
    obtain ⟨r1, -, e1⟩ := e
    have e2 : g = g1 := congrArg Prod.snd e1
    subst e2
    exact ⟨rfl, rfl, rfl, rfl, rfl⟩

/-- Witness of claim C27: the tree of the paragraph test, a plain string that
holds a paragraph, has no node of a counter kind. -/
theorem counter_free_tree_keeps_context_witness :
    counterFree createParAST
    ∧ (∃ x : Except Fault String, ∀ g : Context,
        traversal (some createParAST) g = x.map (fun r => (r, g)))
    ∧ (∀ g g1 : Context,
        (traversal (some createParAST) g).map Prod.fst
          = (traversal (some createParAST) g1).map Prod.fst)
    ∧ (∀ (g : Context) (r : String) (g1 : Context),
        traversal (some createParAST) g = .ok (r, g1) →
          g1 = g
          ∧ g1.section_no = g.section_no ∧ g1.subsection_no = g.subsection_no
          ∧ g1.subsubsection_no = g.subsubsection_no ∧ g1.nested = g.nested) :=
  ⟨by unfold counterFree; decide,
    counter_free_tree_keeps_context createParAST (by unfold counterFree; decide)⟩

/-- Claim C21, counterexample. In the table with one row of one cell that
holds one nested cell rendering to "h", the nested renders of the row are
[["h"]]; the rule of the claim (per cell " | " and every nested render
followed by " | ", the trailing " | " of the row removed once, a newline)
gives the line " | h\n", the code the line " | h | \n", since it closes every
cell with a further " | " and removes only the last of these. -/
theorem row_line_keeps_cell_closing_bar :
    oneCellTable.children
        = [some (ASTNode.mk ROW_H "" "" [some (ASTNode.mk CELL_H "" ""
            [some (ASTNode.mk CELL_H "" "" [some (leaf STRING_H "h")])])])]
    ∧ rowRenders [ASTNode.mk CELL_H "" ""
          [some (ASTNode.mk CELL_H "" "" [some (leaf STRING_H "h")])]] Context.fresh
        = .ok ([["h"]], Context.fresh)
    ∧ rowLine ([["h"]].map cellTextUnclosed) = " | h\n"
    ∧ rowLoop oneCellTable.children "" 0 Context.fresh = .ok (" | h | \n", 1, Context.fresh)
    ∧ traversal (some oneCellTable) Context.fresh
        = .ok (" | h | \n-------\n\n\n", Context.fresh) :=
  ⟨rfl, rfl, by decide, rfl, rfl⟩

/-- Claim C21, amended. In a row loop of `traverseTable`, a table row whose
children and their nested children are present appends one line to the row
text: the concatenation, over the table-cell children of the row in order, of
" | ", then every render of a nested table-cell child followed by " | ", then
a closing " | ", with the trailing " | " of the whole removed once and a
newline appended; so the last cell of the row ends without its closing " | "
and every other cell keeps it. Children of the row and nested children of
another kind add no text, a row without table cells gives the empty line, and
a member of the list of rows of another kind than table row adds nothing. -/
theorem row_line_rule :
    (∀ (d a : String) (cs : List ASTNode) (rest : List (Option ASTNode)) (result : String)
        (count : Int) (g : Context),
      (∀ c ∈ cs, c.node_type = CELL_H → none ∉ c.children) →
      rowLoop (some (ASTNode.mk ROW_H d a (cs.map some)) :: rest) result count g
        = (rowRenders cs g >>= fun p =>
            rowLoop rest (result ++ rowLine (p.1.map cellText)) (count + nestedCount cs) p.2))
    ∧ (∀ (ty : NodeType) (d a : String) (cells rest : List (Option ASTNode)) (result : String)
        (count : Int) (g : Context),
      ty ≠ ROW_H →
      rowLoop (some (ASTNode.mk ty d a cells) :: rest) result count g
        = rowLoop rest result count g)
    ∧ rowLine ([].map cellText) = "\n"
    ∧ (∀ (rss : List (List String)) (rs : List String),
      rowLine ((rss ++ [rs]).map cellText)
        = concatAll (rss.map cellText) ++ cellTextUnclosed rs ++ "\n")
    ∧ rowLoop oneCellTable.children "" 0 Context.fresh
        = .ok (rowLine ([["h"]].map cellText), 1, Context.fresh) := by
  refine ⟨?_, ?_, rfl, rowLine_last, rfl⟩
  · intro d a cs rest result count g h
    exact rowLoop_row d a cs rest result count g h
  · intro ty d a cells rest result count g h
    exact rowLoop_other ty d a cells rest result count g h

/-- Witness of claim C21: a row of two cells, the first with the nested cells
"ab" and "cd" and a nested string that is skipped, the second childless,
followed by a node that is not a row. -/
theorem row_line_rule_witness :
    (∀ c ∈ [ASTNode.mk CELL_H "" ""
              [some (ASTNode.mk CELL_H "" "" [some (leaf STRING_H "ab")]),
               some (leaf STRING_H "skipped"),
               some (ASTNode.mk CELL_H "" "" [some (leaf STRING_H "cd")])],
            newNode CELL_H],
        c.node_type = CELL_H → none ∉ c.children)
    ∧ rowLoop [some (ASTNode.mk ROW_H "" ""
          ([ASTNode.mk CELL_H "" ""
              [some (ASTNode.mk CELL_H "" "" [some (leaf STRING_H "ab")]),
               some (leaf STRING_H "skipped"),
               some (ASTNode.mk CELL_H "" "" [some (leaf STRING_H "cd")])],
            newNode CELL_H].map some)), some (leaf STRING_H "no row")] "" 0 Context.fresh
        = .ok (" | ab | cd |  |  | \n", 3, Context.fresh)
    ∧ rowLoop [some (leaf STRING_H "no row")] "x" 0 Context.fresh
        = rowLoop [] "x" 0 Context.fresh :=
  have present : ∀ c ∈ [ASTNode.mk CELL_H "" ""
              [some (ASTNode.mk CELL_H "" "" [some (leaf STRING_H "ab")]),
               some (leaf STRING_H "skipped"),
               some (ASTNode.mk CELL_H "" "" [some (leaf STRING_H "cd")])],
            newNode CELL_H],
        c.node_type = CELL_H → none ∉ c.children := by
    simp [newNode, ASTNode.children]
  ⟨present,
    (row_line_rule.1 "" "" _ [some (leaf STRING_H "no row")] "" 0 Context.fresh present).trans rfl,
    row_line_rule.2.1 STRING_H "no row" "" [] [] "x" 0 Context.fresh (by decide)⟩

/-- Claim C24, counterexample. The itemize node of the itemize test is not a
plain string, and the two stand-ins `callA` and `callB` for the recursive call
agree on its only child, the first item; yet the body of `traversal` gives
"\n-A\n-A\n\n" with the one and "\n-B\n-A\n\n" with the other: the list rule
makes its recursive calls on the children of the first child, which are
grandchildren of the node, not on a child. -/
theorem list_body_calls_on_grandchildren :
    createItemizeAST.node_type = ITEMIZE_H
    ∧ AgreeOn createItemizeAST.children callA callB
    ∧ Body.traversal callA (some createItemizeAST) Context.fresh
        = .ok ("\n-A\n-A\n\n", Context.fresh)
    ∧ Body.traversal callB (some createItemizeAST) Context.fresh
        = .ok ("\n-B\n-A\n\n", Context.fresh) := by
  refine ⟨rfl, ?_, rfl, rfl⟩
  intro o ho g
  simp only [createItemizeAST, newNode, leaf, ASTNode.addChild, ASTNode.children,
    List.nil_append, List.mem_singleton] at ho
  subst ho
  rfl

/-- Claim C24, amended. The renderer is a total function of tree and context
that satisfies the recursion equation of the source: `traversal` is its own
body with itself for the recursive call, and it is the only function that is.
The body consults the recursive call at the callees of the node only, and
every callee is a strict descendant of the node, a node of the tree of one of
its children with a strictly smaller tree: the first child for a list item;
the children, and the children of the first child, for a plain string; the
children of the first child for an itemize or enumerate node; descendants
three and four levels down for a table; the children for a section. -/
theorem traversal_total_on_strict_descendants :
    (∀ (o : Option ASTNode) (g : Context), traversal o g = Body.traversal traversal o g)
    ∧ (∀ (call call1 : Option ASTNode → Context → Rendered) (n : ASTNode) (g : Context),
        AgreeOn (callees n) call call1 →
          Body.traversal call (some n) g = Body.traversal call1 (some n) g)
    ∧ (∀ n m : ASTNode, some m ∈ callees n →
        m ∈ subtreeList n.children ∧ (subtree m).length < (subtree n).length)
    ∧ (∀ f : Option ASTNode → Context → Rendered,
        (∀ o g, f o g = Body.traversal f o g) → ∀ o g, f o g = traversal o g)
    ∧ (∀ (d a : String) (cs : List (Option ASTNode)),
        callees (ASTNode.mk ITEM_H d a cs) = cs.take 1
        ∧ callees (ASTNode.mk STRING_H d a cs) = cs ++ childrenOfAll (cs.take 1)
        ∧ callees (ASTNode.mk ITEMIZE_H d a cs) = childrenOfAll (cs.take 1)
        ∧ callees (ASTNode.mk ENUMERATE_H d a cs) = childrenOfAll (cs.take 1)
        ∧ callees (ASTNode.mk TABULAR_H d a cs)
            = childrenOfAll (childrenOfAll cs)
                ++ childrenOfAll (childrenOfAll (childrenOfAll (cs.take 1)))
        ∧ callees (ASTNode.mk SECTION_H d a cs) = cs) := by
  refine ⟨fun o g => (body_traversal_fix o g).symm,
    fun call call1 n g h => body_traversal_congr call call1 n h g, ?_,
    traversal_unique, fun d a cs => ⟨rfl, rfl, rfl, rfl, rfl, rfl⟩⟩
  intro n m h
  exact ⟨callee_is_descendant n m h, descendant_smaller n m (callee_is_descendant n m h)⟩

/-- Witness of claim C24: the stand-ins `callA` and `callB` agree on the
callees of a section that holds one childless item, so the body gives the same
heading with both; the string "First item" is a callee of the itemize node of
the itemize test and has a smaller tree; and the renderer itself is a solution
of its recursion equation, so the hypothesis of uniqueness can be met. -/
theorem traversal_total_on_strict_descendants_witness :
    AgreeOn (callees (ASTNode.mk SECTION_H "S" "" [some (newNode ITEM_H)])) callA callB
    ∧ Body.traversal callA (some (ASTNode.mk SECTION_H "S" "" [some (newNode ITEM_H)]))
          Context.fresh
        = Body.traversal callB (some (ASTNode.mk SECTION_H "S" "" [some (newNode ITEM_H)]))
          Context.fresh
    ∧ some (leaf STRING_H "First item") ∈ callees createItemizeAST
    ∧ leaf STRING_H "First item" ∈ subtreeList createItemizeAST.children
    ∧ (subtree (leaf STRING_H "First item")).length < (subtree createItemizeAST).length
    ∧ (∀ o g, traversal o g = Body.traversal traversal o g)
    ∧ (∀ o g, traversal o g = traversal o g) :=
  have agree : AgreeOn (callees (ASTNode.mk SECTION_H "S" "" [some (newNode ITEM_H)]))
      callA callB := by
    intro o ho g
    simp only [callees, List.mem_singleton] at ho
    subst ho
    rfl
  have callee : some (leaf STRING_H "First item") ∈ callees createItemizeAST :=
    List.mem_cons_self _ _
  ⟨agree,
    traversal_total_on_strict_descendants.2.1 callA callB _ Context.fresh agree,
    callee,
    (traversal_total_on_strict_descendants.2.2.1 createItemizeAST _ callee).1,
    (traversal_total_on_strict_descendants.2.2.1 createItemizeAST _ callee).2,
    traversal_total_on_strict_descendants.1,
    traversal_total_on_strict_descendants.2.2.2.1 traversal
      traversal_total_on_strict_descendants.1⟩

end LatexToMarkdown
